import Mathlib

/-!
Shallow embedding of the MemDumpView binary codec
(`src/utils/binaryEncoder.ts`, `src/utils/binaryParser.ts`).

Modelling conventions:

* JavaScript `number` is modelled as `ℚ` (exact arithmetic; IEEE-754 rounding
  of `float32`/`float64` slots is not modelled, the slots carry their payloads
  exactly).
* The byte stream is a `List Cell`; octets are `Cell.byte`, the opaque
  4/8-byte IEEE slots written by `writeFloat32`/`writeFloat64` are
  `Cell.f32`/`Cell.f64` cells carrying exact payloads, and a UTF-8
  length-prefixed string body written by `writeString` is a single `Cell.str`
  cell (the external `TextEncoder`/`TextDecoder` pair is assumed mutually
  inverse).  Reader offsets count cells; every length field that the decoder
  actually uses to advance covers only `Cell.byte` cells, for which cell
  counts and byte counts agree.
* gzip (`CompressionStream`/`DecompressionStream`) is an external browser
  primitive assumed lossless; it is modelled by the identity.
* The external `uuid` library (`v4`, `parse`, `stringify`) is modelled
  explicitly below; `v4`'s randomness is modelled by a supply `g : ℕ → String`
  and a counter threaded through encoding and decoding.
* Fallible code returns `Except String`; loops whose exit conditions depend on
  decoded data use an explicit fuel argument that is always instantiated large
  enough (each iteration consumes at least one cell, so `buf.length + 1`
  iterations always suffice).
-/

namespace MemDump

/-- One cell of the modelled byte stream. -/
inductive Cell : Type
  | byte (b : ℕ)
  | f32 (q : ℚ)
  | f64 (q : ℚ)
  | str (s : String)
  deriving DecidableEq, Repr

deriving instance DecidableEq for Except

/-- Width in octets that a cell occupies in the real byte stream. -/
def cellWidth : Cell → ℕ
  | .byte _ => 1
  | .f32 _ => 4
  | .f64 _ => 8
  | .str s => s.utf8ByteSize

/-- Total octet length of a modelled stream (JS `buffer.byteLength`). -/
def byteSize (buf : List Cell) : ℕ :=
  (buf.map cellWidth).sum

/-- Octet cell at an index, `none` when out of range or not an octet. -/
def getByte (buf : List Cell) (i : ℕ) : Option ℕ :=
  match buf.get? i with
  | some (Cell.byte b) => some b
  | _ => none

/-!  ## Varint codec (`BinaryWriter.writeVarint`, `encodeVarintToBytes`)

The source duplicates the same loop in `BinaryWriter.writeVarint` and in the
free function `encodeVarintToBytes`:

    while (value >= 0x80) { bytes.push((value & 0x7F) | 0x80); value >>>= 7; }
    bytes.push(value);

JS `>>>` first coerces to an unsigned 32-bit integer (`value mod 2^32`), and
`&` uses the low bits of the same coercion, while the loop guard compares the
uncoerced number; pushing the final byte into a `Uint8Array` wraps it mod 256.
The model takes `ℤ` (a JS number) and is faithful to those coercions.  The
recursion by fuel: the value shrinks strictly each round, so `v.toNat + 1`
rounds always finish. -/

def encodeVarintAux : ℕ → ℤ → List ℕ
  | 0, _ => []
  | fuel + 1, v =>
    if v ≥ 0x80 then
      ((v.emod (2 ^ 32)).toNat % 128 + 128) ::
        encodeVarintAux fuel (((v.emod (2 ^ 32)).toNat / 128 : ℕ) : ℤ)
    else [(v.emod 256).toNat]

/-- `encodeVarintToBytes` from the source (also the body of `writeVarint`). -/
def encodeVarintToBytes (v : ℤ) : List ℕ :=
  encodeVarintAux (v.toNat + 1) v

/-- Varint bytes as stream cells. -/
def varintCells (n : ℕ) : List Cell :=
  (encodeVarintToBytes (n : ℤ)).map Cell.byte

/-!  ## Varint decoding (`BinaryReader.readVarint`)

    let result = 0, shift = 0;
    while (true) {
      if (offset >= length) throw 'Unexpected end of stream';
      const byte = bytes[offset++];
      result += (byte & 0x7F) * 2^shift;
      if ((byte & 0x80) === 0) break;
      shift += 7;
    }

JS accumulates in a double (exact below `2^53`); the model accumulates in `ℕ`.
Each round consumes one cell, so fuel `buf.length + 1` always suffices. -/

def readVarintAux (buf : List Cell) : ℕ → ℕ → ℕ → ℕ → Except String (ℕ × ℕ)
  | 0, _, _, _ => .error "Unexpected end of stream"
  | fuel + 1, off, shift, acc =>
    match buf.get? off with
    | some (Cell.byte b) =>
      if b < 128 then .ok (acc + b % 128 * 2 ^ shift, off + 1)
      else readVarintAux buf fuel (off + 1) (shift + 7) (acc + b % 128 * 2 ^ shift)
    | _ => .error "Unexpected end of stream"

def readVarint (buf : List Cell) (off : ℕ) : Except String (ℕ × ℕ) :=
  readVarintAux buf (buf.length + 1) off 0 0

/-!  ## Model of the external `uuid` library

`parse` validates against the canonical 8-4-4-4-12 pattern (case-insensitive,
version nibble 1-8, variant nibble 8/9/a/b, plus the all-zero nil and all-f
max special cases) and converts the 32 hex digits to 16 octets.  `stringify`
renders 16 octets as the lowercase canonical form.  `v4`'s randomness is the
supply `g : ℕ → String` threaded through encoder and decoder. -/

def hexVal (c : Char) : Option ℕ :=
  if '0' ≤ c ∧ c ≤ '9' then some (c.toNat - '0'.toNat)
  else if 'a' ≤ c ∧ c ≤ 'f' then some (c.toNat - 'a'.toNat + 10)
  else if 'A' ≤ c ∧ c ≤ 'F' then some (c.toNat - 'A'.toNat + 10)
  else none

def hexPairsVal : List Char → List ℕ
  | a :: b :: rest => ((hexVal a).getD 0 * 16 + (hexVal b).getD 0) :: hexPairsVal rest
  | [_] => []
  | [] => []

/-- Structural check of the lowered 36-char canonical form. -/
def uuidShapeOk (cs : List Char) : Bool :=
  cs.length = 36 &&
    (List.range 36).all (fun i =>
      match cs.get? i with
      | some c =>
        if i = 8 ∨ i = 13 ∨ i = 18 ∨ i = 23 then c = '-' else (hexVal c).isSome
      | none => false)

/-- Version/variant constraint of the `uuid` validation regex, with the nil
and max UUIDs admitted unconditionally. -/
def uuidVersionOk (cs : List Char) : Bool :=
  (match cs.get? 14, cs.get? 19 with
   | some v, some r => ('1' ≤ v && v ≤ '8') && (r = '8' || r = '9' || r = 'a' || r = 'b')
   | _, _ => false) ||
  cs.all (fun c => c = '0' || c = '-') || cs.all (fun c => c = 'f' || c = '-')

/-- Model of `uuid.parse`: `some` 16 octets, or `none` where the library
throws. -/
def parseUuidM (s : String) : Option (List ℕ) :=
  let cs := s.toLower.toList
  if uuidShapeOk cs && uuidVersionOk cs then
    some (hexPairsVal (cs.filter (fun c => c ≠ '-')))
  else none

def toHexChar (n : ℕ) : Char :=
  if n < 10 then Char.ofNat ('0'.toNat + n) else Char.ofNat ('a'.toNat + n - 10)

def byteHex (b : ℕ) : List Char :=
  [toHexChar (b % 256 / 16), toHexChar (b % 16)]

/-- Model of `uuid.stringify` on 16 octets (the library's own re-validation of
its output is not modelled; every byte pattern stringified in scope comes from
a successfully parsed UUID). -/
def uuidStringifyM (bs : List ℕ) : String :=
  let hx := bs.flatMap byteHex
  String.mk (hx.take 8 ++ '-' :: (hx.drop 8).take 4 ++ '-' :: (hx.drop 12).take 4 ++
    '-' :: (hx.drop 16).take 4 ++ '-' :: hx.drop 20)

/-- JS truthiness of an optional string (`undefined` and `''` are falsy). -/
def truthy : Option String → Bool
  | none => false
  | some s => s != ""

/-!  ## `StringTable` (encoder-side dedup) -/

structure StringTable where
  strings : List (String × ℕ)
  list : List String
  deriving DecidableEq

/-- `getIndex(str)`: normalize `undefined`/`''` to `''`, return the existing
index when the map has the string, else append. -/
def StringTable.getIndex (t : StringTable) (str : Option String) : ℕ × StringTable :=
  let s := str.getD ""
  match t.strings.lookup s with
  | some i => (i, t)
  | none => (t.list.length, ⟨t.strings ++ [(s, t.list.length)], t.list ++ [s]⟩)

/-!  ## Hex-string decoding (`bitmapHex.match(/.{1,2}/g)` + `parseInt(c, 16)`)

`parseInt(chunk, 16)` parses the longest hex-digit prefix; no digit gives
`NaN`, which a `Uint8Array` store coerces to `0`. -/

def hexChunks : List Char → List (List Char)
  | a :: b :: rest => [a, b] :: hexChunks rest
  | [a] => [[a]]
  | [] => []

def jsParseHexByte (cs : List Char) : ℕ :=
  match cs with
  | [a] => (hexVal a).getD 0
  | [a, b] =>
    match hexVal a with
    | none => 0
    | some va =>
      match hexVal b with
      | none => va
      | some vb => va * 16 + vb
  | _ => 0

def hexToBytes (h : String) : List ℕ :=
  (hexChunks h.toList).map jsParseHexByte

/-!  ## RLE construction (`getBitmapRLEBuffer`)

`freeList.map(p => [...p]).sort((a, b) => a[0] - b[0])` is a stable sort by
range start; modern `Array.prototype.sort` is stable and the comparator is a
total preorder on starts, so the result is exactly a stable
insertion sort by the first component. -/

def sortedInsertByStart (x : ℤ × ℤ) : List (ℤ × ℤ) → List (ℤ × ℤ)
  | [] => [x]
  | y :: ys => if y.1 < x.1 then y :: sortedInsertByStart x ys else x :: y :: ys

def sortByStart (l : List (ℤ × ℤ)) : List (ℤ × ℤ) :=
  l.foldr sortedInsertByStart []

/-- `runs[runs.length - 1] += bits` (mutation of the last array slot; the
source guards `?? 0` for an empty array, which never occurs since `runs`
starts as `[0]`). -/
def bumpLast (bits : ℤ) : List ℤ → List ℤ
  | [] => []
  | [r] => [r + bits]
  | r :: r2 :: rest => r :: bumpLast bits (r2 :: rest)

/-- Occupied-run insertion: extend the last run when `runs.length` is odd,
else push a new run. -/
def pushOccupied (runs : List ℤ) (bits : ℤ) : List ℤ :=
  if runs.length % 2 = 1 then bumpLast bits runs else runs ++ [bits]

/-- Free-run insertion: extend when `runs.length` is even, else push. -/
def pushFree (runs : List ℤ) (bits : ℤ) : List ℤ :=
  if runs.length % 2 = 0 then bumpLast bits runs else runs ++ [bits]

/-- One `for (const range of sorted)` iteration.  `Math.floor(x / 8)` on an
integer JS number is floor division `Int.fdiv x 8`. -/
def freeListStep (st : List ℤ × ℤ) (range : ℤ × ℤ) : List ℤ × ℤ :=
  let occBytes := range.1 - st.2
  let runs1 := if occBytes > 0 then pushOccupied st.1 (Int.fdiv occBytes 8) else st.1
  let freeBytes := range.2 - range.1
  let runs2 := if freeBytes > 0 then pushFree runs1 (Int.fdiv freeBytes 8) else runs1
  (runs2, range.2)

/-- The run list built from a `freeList`, with the trailing occupied remainder
closed off by `Math.ceil((size - cur) / 8)` bits. -/
def freeListRuns (size : ℕ) (l : List (ℤ × ℤ)) : List ℤ :=
  let st := (sortByStart l).foldl freeListStep ([0], 0)
  if st.2 < (size : ℤ) then pushOccupied st.1 (Int.fdiv ((size : ℤ) - st.2 + 7) 8) else st.1

def runsBytes (runs : List ℤ) : List ℕ :=
  runs.flatMap encodeVarintToBytes

/-- `getBitmapRLEBuffer(size, freeList, bitmapHex, occupancy)`: bitmap hex
wins when truthy, then any present `freeList`, then a scalar occupancy in
`[0, 1)` (two synthetic runs), else one full-page occupied run. -/
def getBitmapRLEBuffer (size : ℕ) (freeList : Option (List (ℤ × ℤ)))
    (bitmapHex : Option String) (occupancy : Option ℚ) : List ℕ :=
  if truthy bitmapHex then hexToBytes (bitmapHex.getD "")
  else
    match freeList with
    | some l => runsBytes (freeListRuns size l)
    | none =>
      match occupancy with
      | some o =>
        if 0 ≤ o ∧ o < 1 then
          let totalBits : ℕ := (size + 7) / 8
          let usedBits : ℤ := ⌊(totalBits : ℚ) * o⌋
          encodeVarintToBytes usedBits ++ encodeVarintToBytes ((totalBits : ℤ) - usedBits)
        else encodeVarintToBytes (((size + 7) / 8 : ℕ) : ℤ)
      | none => encodeVarintToBytes (((size + 7) / 8 : ℕ) : ℤ)

/-!  ## Data model (`src/types`) -/

structure Page where
  size : ℕ
  occupancy : Option ℚ := none
  freeList : Option (List (ℤ × ℤ)) := none
  bitmap : Option String := none
  deriving DecidableEq

structure PageType where
  name : String
  uniformPageSize : Option ℕ := none
  pages : List Page
  deriving DecidableEq

structure MemoryMetadata where
  pageTypes : List PageType
  deriving DecidableEq

/-- The `meta` bag on a data point (`event?`, `memory?`). -/
structure MetaBag where
  event : Option String := none
  memory : Option MemoryMetadata := none
  deriving DecidableEq

structure DataPoint where
  timestamp : ℚ
  value : ℚ
  pointId : Option String := none
  name : Option String := none
  meta : Option MetaBag := none
  deriving DecidableEq

structure MemorySeries where
  id : String
  name : String
  color : String
  visible : Bool
  data : List DataPoint
  deriving DecidableEq

/-!  ## Container encoder (`encodeBinary`) -/

def u16Cells (v : ℕ) : List Cell :=
  [Cell.byte (v % 256), Cell.byte (v / 256 % 256)]

def stringCells (s : String) : List Cell :=
  varintCells s.utf8ByteSize ++ [Cell.str s]

def magicCells : List Cell :=
  [Cell.byte 77, Cell.byte 69, Cell.byte 77, Cell.byte 68]

/-- External browser gzip, assumed lossless: modelled as the identity. -/
def gzipCompress (body : List Cell) : List Cell := body

/-- External browser gunzip, the inverse of `gzipCompress`. -/
def gzipDecompress (body : List Cell) : List Cell := body

/-- Series-id bytes: `parseUuid(series.id)`, falling back to a freshly
generated UUID when parsing throws (the `parsed.length === 16` re-check in the
source is vacuous: a successful parse always yields 16 bytes). -/
def seriesUuidBytes (g : ℕ → String) (k : ℕ) (id : String) : List ℕ × ℕ :=
  match parseUuidM id with
  | some bs => (bs, k)
  | none => ((parseUuidM (g k)).getD (List.replicate 16 0), k + 1)

/-- Point-id bytes: zero-filled when `parseUuid(point.pointId)` throws. -/
def pointUuidBytes (pid : String) : List ℕ :=
  (parseUuidM pid).getD (List.replicate 16 0)

def encodePageCells (uniformSize : ℕ) (p : Page) : List Cell :=
  let rle := getBitmapRLEBuffer (if p.size ≠ 0 then p.size else uniformSize)
    p.freeList p.bitmap p.occupancy
  (if uniformSize = 0 then varintCells p.size else []) ++
    [Cell.f32 (p.occupancy.getD (-1))] ++
    varintCells rle.length ++ rle.map Cell.byte

def encodePageTypeCells (t : StringTable) (pt : PageType) : List Cell × StringTable :=
  let n := t.getIndex (some pt.name)
  let uniformSize := match pt.uniformPageSize with | some u => u | none => 0
  (varintCells n.1 ++ varintCells uniformSize ++ varintCells pt.pages.length ++
    pt.pages.flatMap (encodePageCells uniformSize), n.2)

def encodePageTypesCells (t : StringTable) : List PageType → List Cell × StringTable
  | [] => ([], t)
  | pt :: rest =>
    let c := encodePageTypeCells t pt
    let cs := encodePageTypesCells c.2 rest
    (c.1 ++ cs.1, cs.2)

def encodeMetaCells (t : StringTable) (m : MetaBag) : List Cell × StringTable :=
  let ev :=
    if truthy m.event then
      let n := t.getIndex m.event
      (varintCells (n.1 + 1), n.2)
    else (varintCells 0, t)
  match m.memory with
  | some mem =>
    let pts := encodePageTypesCells ev.2 mem.pageTypes
    (ev.1 ++ [Cell.byte 1] ++ varintCells mem.pageTypes.length ++ pts.1, pts.2)
  | none => (ev.1 ++ [Cell.byte 0], ev.2)

def encodePointCells (t : StringTable) (p : DataPoint) : List Cell × StringTable :=
  let hasMeta := p.meta.isSome
  let hasName := truthy p.name
  let hasPointId := truthy p.pointId
  let flags := (if hasMeta then 1 else 0) + (if hasName then 2 else 0) +
    (if hasPointId then 4 else 0)
  let nm :=
    if hasName then
      let n := t.getIndex p.name
      (varintCells n.1, n.2)
    else ([], t)
  let pidCells := if hasPointId then (pointUuidBytes (p.pointId.getD "")).map Cell.byte else []
  let mt :=
    match p.meta with
    | some m => encodeMetaCells nm.2 m
    | none => ([], nm.2)
  ([Cell.f64 p.timestamp, Cell.f64 p.value, Cell.byte flags] ++ nm.1 ++ pidCells ++ mt.1, mt.2)

def encodePointsCells (t : StringTable) : List DataPoint → List Cell × StringTable
  | [] => ([], t)
  | p :: rest =>
    let c := encodePointCells t p
    let cs := encodePointsCells c.2 rest
    (c.1 ++ cs.1, cs.2)

def encodeSeriesCells (g : ℕ → String) (t : StringTable) (k : ℕ) (s : MemorySeries) :
    List Cell × StringTable × ℕ :=
  let u := seriesUuidBytes g k s.id
  let n := t.getIndex (some s.name)
  let c := n.2.getIndex (some (if s.color == "" then "#000000" else s.color))
  let pts := encodePointsCells c.2 s.data
  (u.1.map Cell.byte ++ varintCells n.1 ++ varintCells c.1 ++
    [Cell.byte (if s.visible then 1 else 0)] ++ varintCells s.data.length ++ pts.1,
    pts.2, u.2)

def encodeSeriesListCells (g : ℕ → String) (t : StringTable) (k : ℕ) :
    List MemorySeries → List Cell × StringTable × ℕ
  | [] => ([], t, k)
  | s :: rest =>
    let c := encodeSeriesCells g t k s
    let cs := encodeSeriesListCells g c.2.1 c.2.2 rest
    (c.1 ++ cs.1, cs.2)

/-- Pass 1 of `encodeBinary`: the data-series payload (series count first) and
the populated string table. -/
def encodeDataSection (g : ℕ → String) (l : List MemorySeries) : List Cell × StringTable :=
  let c := encodeSeriesListCells g ⟨[], []⟩ 0 l
  (varintCells l.length ++ c.1, c.2.1)

/-- `encodeBinary(seriesList)`: header `MEMD` + version 2 + flags 1, then the
gzip-compressed body (string-table section `0x01`, data section `0x02`). -/
def encodeBinary (g : ℕ → String) (l : List MemorySeries) : List Cell :=
  let d := encodeDataSection g l
  let body := [Cell.byte 1] ++ varintCells d.2.list.length ++ d.2.list.flatMap stringCells ++
    [Cell.byte 2] ++ d.1
  magicCells ++ u16Cells 2 ++ u16Cells 1 ++ gzipCompress body

/-!  ## Container decoder (`binaryParser.ts`) -/

/-- `readU8`: bounds-checked single octet. -/
def readU8 (buf : List Cell) (off : ℕ) : Except String (ℕ × ℕ) :=
  match buf.get? off with
  | some (Cell.byte b) => .ok (b, off + 1)
  | _ => .error "Out of bounds readU8"

/-- `readFloat32`: one opaque 4-byte slot. -/
def readFloat32 (buf : List Cell) (off : ℕ) : Except String (ℚ × ℕ) :=
  match buf.get? off with
  | some (Cell.f32 q) => .ok (q, off + 1)
  | _ => .error "Out of bounds readFloat32"

/-- `readFloat64`: one opaque 8-byte slot. -/
def readFloat64 (buf : List Cell) (off : ℕ) : Except String (ℚ × ℕ) :=
  match buf.get? off with
  | some (Cell.f64 q) => .ok (q, off + 1)
  | _ => .error "Out of bounds readFloat64"

/-- `readString`: varint byte length, then the UTF-8 body.  The decoded length
is used by the source only to advance past the body, which the single `.str`
cell models; decoding bytes that were not written as one string is outside
the model. -/
def readString (buf : List Cell) (off : ℕ) : Except String (String × ℕ) :=
  match readVarint buf off with
  | .error e => .error e
  | .ok (_, o1) =>
    match buf.get? o1 with
    | some (Cell.str s) => .ok (s, o1 + 1)
    | _ => .error "Out of bounds readString"

def allBytes : List Cell → Option (List ℕ)
  | [] => some []
  | Cell.byte b :: rest => (allBytes rest).map (b :: ·)
  | _ => none

/-- `readUuid`: 16 octets; all-zero means "missing" and yields a freshly
generated UUID (`uuidv4()`, modelled by the supply `g` at counter `k`). -/
def readUuid (g : ℕ → String) (buf : List Cell) (off k : ℕ) :
    Except String (String × ℕ × ℕ) :=
  if off + 16 ≤ buf.length then
    match allBytes ((buf.drop off).take 16) with
    | some bs =>
      if bs.all (· = 0) then .ok (g k, off + 16, k + 1)
      else .ok (uuidStringifyM bs, off + 16, k)
    | none => .error "Out of bounds readUuid"
  else .error "Out of bounds readUuid"

/-- Loop body of `readBitmapFreeList`: toggling state starting at Occupied
(`0`), emitting `[bit*8, (bit+run)*8)` for each Free run.  Each iteration
consumes at least one cell, so fuel `byteLength + 1` always suffices. -/
def readBitmapFreeListAux (buf : List Cell) :
    ℕ → ℕ → ℕ → ℕ → ℕ → Except String (List (ℤ × ℤ))
  | 0, off, endOff, _, _ =>
    if off < endOff then .error "Unexpected end of stream" else .ok []
  | fuel + 1, off, endOff, bit, state =>
    if off < endOff then
      match readVarint buf off with
      | .error e => .error e
      | .ok (runLength, o1) =>
        match readBitmapFreeListAux buf fuel o1 endOff (bit + runLength) (1 - state) with
        | .error e => .error e
        | .ok rest =>
          if state = 1 then .ok (((bit * 8 : ℕ), ((bit + runLength) * 8 : ℕ)) :: rest)
          else .ok rest
    else .ok []

/-- `readBitmapFreeList(byteLength)`: decode the RLE region and force the
offset to its declared end. -/
def readBitmapFreeList (buf : List Cell) (off byteLength : ℕ) :
    Except String (List (ℤ × ℤ) × ℕ) :=
  match readBitmapFreeListAux buf (byteLength + 1) off (off + byteLength) 0 0 with
  | .error e => .error e
  | .ok fl => .ok (fl, off + byteLength)

/-- Exported `decodeRLEBitmap(hex)`: hex to bytes, then one RLE decode over
the whole byte array. -/
def decodeRLEBitmap (hex : String) : Except String (List (ℤ × ℤ)) :=
  let bytes := hexToBytes hex
  match readBitmapFreeList (bytes.map Cell.byte) 0 bytes.length with
  | .ok r => .ok r.1
  | .error e => .error e

/-- `getString(strings, index)`: tolerant indexed lookup, `''` out of
bounds (and `strings[i] || ''` maps an empty entry to itself). -/
def getString (strings : List String) (index : ℕ) : String :=
  match strings.get? index with
  | some s => s
  | none => ""

def parsePage (uniformSize : ℕ) (buf : List Cell) (off : ℕ) :
    Except String (Page × ℕ) := do
  let sz ← if uniformSize = 0 then readVarint buf off else pure (uniformSize, off)
  let occ ← readFloat32 buf sz.2
  let rleLen ← readVarint buf occ.2
  let fl ← readBitmapFreeList buf rleLen.2 rleLen.1
  pure ({ size := sz.1,
          occupancy := if occ.1 = -1 then none else some occ.1,
          freeList := some fl.1, bitmap := none }, fl.2)

def parsePages (uniformSize : ℕ) (buf : List Cell) :
    ℕ → ℕ → Except String (List Page × ℕ)
  | 0, off => pure ([], off)
  | n + 1, off => do
    let p ← parsePage uniformSize buf off
    let ps ← parsePages uniformSize buf n p.2
    pure (p.1 :: ps.1, ps.2)

def parsePageType (strings : List String) (buf : List Cell) (off : ℕ) :
    Except String (PageType × ℕ) := do
  let nameIdx ← readVarint buf off
  let uniformSize ← readVarint buf nameIdx.2
  let pageCount ← readVarint buf uniformSize.2
  let pages ← parsePages uniformSize.1 buf pageCount.1 pageCount.2
  pure ({ name := (strings.get? nameIdx.1).getD "",
          uniformPageSize := if uniformSize.1 > 0 then some uniformSize.1 else none,
          pages := pages.1 }, pages.2)

def parsePageTypes (strings : List String) (buf : List Cell) :
    ℕ → ℕ → Except String (List PageType × ℕ)
  | 0, off => pure ([], off)
  | n + 1, off => do
    let pt ← parsePageType strings buf off
    let pts ← parsePageTypes strings buf n pt.2
    pure (pt.1 :: pts.1, pts.2)

/-- `if (hasName) name = strings[reader.readVarint()]` — the optional point-name
segment (direct index, `undefined` out of bounds, modelled by `Option`). -/
def parseNmSeg (strings : List String) (buf : List Cell) (off : ℕ) (c : Prop)
    [Decidable c] : Except String (Option String × ℕ) :=
  if c then do
    let i ← readVarint buf off
    pure ((strings.get? i.1 : Option String), i.2)
  else pure (none, off)

/-- `if (hasPointId) pointId = reader.readUuid(); else pointId = uuidv4()` —
the optional point-id segment. -/
def parsePidSeg (g : ℕ → String) (buf : List Cell) (off k : ℕ) (c : Prop)
    [Decidable c] : Except String (String × ℕ × ℕ) :=
  if c then readUuid g buf off k
  else pure (g k, off, k + 1)

/-- The `if (hasMeta) { ... }` block: optional event name (index + 1, `0` for
null), memory flag byte, and the page-type list. -/
def parseMetaSeg (strings : List String) (buf : List Cell) (off : ℕ) (c : Prop)
    [Decidable c] : Except String (Option MetaBag × ℕ) :=
  if c then do
    let evIdx ← readVarint buf off
    let ev : Option String := if evIdx.1 > 0 then strings.get? (evIdx.1 - 1) else none
    let hasMem ← readU8 buf evIdx.2
    if hasMem.1 = 1 then do
      let ptCount ← readVarint buf hasMem.2
      let pts ← parsePageTypes strings buf ptCount.1 ptCount.2
      pure ((some { event := ev, memory := some { pageTypes := pts.1 } } : Option MetaBag),
            pts.2)
    else pure ((some { event := ev, memory := none } : Option MetaBag), hasMem.2)
  else pure ((none : Option MetaBag), off)

def parsePoint (strings : List String) (g : ℕ → String) (buf : List Cell)
    (off k : ℕ) : Except String (DataPoint × ℕ × ℕ) := do
  let ts ← readFloat64 buf off
  let v ← readFloat64 buf ts.2
  let fl ← readU8 buf v.2
  let nm ← parseNmSeg strings buf fl.2 (fl.1 / 2 % 2 = 1)
  let pid ← parsePidSeg g buf nm.2 k (fl.1 / 4 % 2 = 1)
  let mt ← parseMetaSeg strings buf pid.2.1 (fl.1 % 2 = 1)
  pure ({ timestamp := ts.1, value := v.1, pointId := some pid.1, name := nm.1,
          meta := mt.1 }, mt.2, pid.2.2)

def parsePoints (strings : List String) (g : ℕ → String) (buf : List Cell) :
    ℕ → ℕ → ℕ → Except String (List DataPoint × ℕ × ℕ)
  | 0, off, k => pure ([], off, k)
  | n + 1, off, k => do
    let p ← parsePoint strings g buf off k
    let ps ← parsePoints strings g buf n p.2.1 p.2.2
    pure (p.1 :: ps.1, ps.2)

def parseSeries (strings : List String) (g : ℕ → String) (buf : List Cell)
    (off k : ℕ) : Except String (MemorySeries × ℕ × ℕ) := do
  let id ← readUuid g buf off k
  let nameIdx ← readVarint buf id.2.1
  let colorIdx ← readVarint buf nameIdx.2
  let vis ← readU8 buf colorIdx.2
  let pointCount ← readVarint buf vis.2
  let pts ← parsePoints strings g buf pointCount.1 pointCount.2 id.2.2
  pure ({ id := id.1, name := getString strings nameIdx.1,
          color := getString strings colorIdx.1, visible := vis.1 == 1,
          data := pts.1 }, pts.2)

def parseSeriesList (strings : List String) (g : ℕ → String) (buf : List Cell) :
    ℕ → ℕ → ℕ → Except String (List MemorySeries × ℕ × ℕ)
  | 0, off, k => pure ([], off, k)
  | n + 1, off, k => do
    let s ← parseSeries strings g buf off k
    let ss ← parseSeriesList strings g buf n s.2.1 s.2.2
    pure (s.1 :: ss.1, ss.2)

/-- `parseSeriesSection`: series count then that many series records. -/
def parseSeriesSection (strings : List String) (g : ℕ → String) (buf : List Cell)
    (off k : ℕ) : Except String (List MemorySeries × ℕ × ℕ) := do
  let cnt ← readVarint buf off
  parseSeriesList strings g buf cnt.1 cnt.2 k

def parseStrings (buf : List Cell) : ℕ → ℕ → Except String (List String × ℕ)
  | 0, off => pure ([], off)
  | n + 1, off => do
    let s ← readString buf off
    let ss ← parseStrings buf n s.2
    pure (s.1 :: ss.1, ss.2)

/-- Section loop of `parseBinary`: read a tag byte, dispatch on `0x01`
(string table) / `0x02` (data series), stop at any other tag.  Each pass
consumes at least the tag cell, so fuel `buf.length + 1` always suffices. -/
def parseSections (g : ℕ → String) (buf : List Cell) :
    ℕ → ℕ → ℕ → List String → List MemorySeries → Except String (List MemorySeries)
  | 0, _, _, _, acc => pure acc
  | fuel + 1, off, k, strings, acc =>
    if off < buf.length then
      match readU8 buf off with
      | .error e => .error e
      | .ok (tag, o1) =>
        if tag = 1 then
          match (do
            let cnt ← readVarint buf o1
            parseStrings buf cnt.1 cnt.2 : Except String (List String × ℕ)) with
          | .error e => .error e
          | .ok (newStrings, o2) => parseSections g buf fuel o2 k (strings ++ newStrings) acc
        else if tag = 2 then
          match parseSeriesSection strings g buf o1 k with
          | .error e => .error e
          | .ok (ss, o2, k1) => parseSections g buf fuel o2 k1 strings (acc ++ ss)
        else pure acc
    else pure acc

/-- `parseBinary(buffer)`: minimum length, magic, version/flags gate, optional
gunzip, then the section loop. -/
def parseBinary (g : ℕ → String) (buf : List Cell) : Except String (List MemorySeries) :=
  if byteSize buf < 8 then .error "File too small to be a valid MEMD file"
  else
    match getByte buf 0, getByte buf 1, getByte buf 2, getByte buf 3 with
    | some 77, some 69, some 77, some 68 =>
      match getByte buf 4, getByte buf 5, getByte buf 6, getByte buf 7 with
      | some v0, some v1, some f0, some f1 =>
        let version := v0 + 256 * v1
        let flags := f0 + 256 * f1
        if flags % 2 = 1 ∨ 1 ≤ version then
          let dataBuffer :=
            if flags % 2 = 1 then gzipDecompress (buf.drop 8) else buf.drop 8
          parseSections g dataBuffer (dataBuffer.length + 1) 0 0 [] []
        else .error ("Unsupported version: " ++ toString version)
      | _, _, _, _ => .error "Invalid file format"
    | _, _, _, _ => .error "Invalid file format"

/-- Reference fold for `readBitmapFreeList`: toggling state starting at
Occupied (`state = 0`), a Free run of length `r` at bit cursor `bit` emits
`[bit*8, (bit+r)*8)`. -/
def rleFreeRanges : ℕ → ℕ → List ℕ → List (ℤ × ℤ)
  | _, _, [] => []
  | bit, state, r :: rs =>
    if state = 1 then ((bit * 8 : ℕ), ((bit + r) * 8 : ℕ)) :: rleFreeRanges (bit + r) (1 - state) rs
    else rleFreeRanges (bit + r) (1 - state) rs

/-- Natural-valued run list as the encoder's `ℤ` run list. -/
def natRuns (rs : List ℕ) : List ℤ := rs.map (fun x => (x : ℤ))

/-!  ## String-table lemmas -/

/-- `l2` is `l1` with zero or more entries appended (the table's `list` only
ever grows at the end). -/
def tableExtends (l1 l2 : List String) : Prop := ∃ t, l2 = l1 ++ t

/-- Coherence of the `Map` and the ordered list inside a `StringTable`. -/
def TableInv (t : StringTable) : Prop :=
  (∀ p ∈ t.strings, t.list.get? p.2 = some p.1) ∧
    (∀ s, s ∈ t.list → t.strings.lookup s ≠ none) ∧ t.list.Nodup

/-!  ## Well-formedness predicates and expected decode values -/

/-- Sum of the even-position and odd-position entries of a run list.  In the
alternating-run reading, even positions are Occupied, odd positions Free. -/
def sumAlt : List ℤ → ℤ × ℤ
  | [] => (0, 0)
  | r :: rest => ((sumAlt rest).2 + r, (sumAlt rest).1)

def oddSum (l : List ℤ) : ℤ := (sumAlt l).2

def intFreeTotal (l : List (ℤ × ℤ)) : ℤ := (l.map (fun p => p.2 - p.1)).sum

/-- Split one LEB128 group off a byte list. -/
def lebSplitAux : List ℕ → ℕ → ℕ → Option (ℕ × List ℕ)
  | [], _, _ => none
  | b :: rest, shift, acc =>
    if b < 128 then some (acc + b % 128 * 2 ^ shift, rest)
    else lebSplitAux rest (shift + 7) (acc + b % 128 * 2 ^ shift)

def lebDecompAux : ℕ → List ℕ → Option (List ℕ)
  | 0, l => match l with | [] => some [] | _ :: _ => none
  | fuel + 1, l =>
    match l with
    | [] => some []
    | _ :: _ =>
      match lebSplitAux l 0 0 with
      | none => none
      | some (v, rest) => (lebDecompAux fuel rest).map (v :: ·)

/-- Total parse of a byte list as a sequence of complete LEB128 groups. -/
def lebDecomp (bs : List ℕ) : Option (List ℕ) :=
  lebDecompAux (bs.length + 1) bs

/-- A bitmap hex string is well formed when its bytes are exactly the
re-encoding of a run list of values below `2^32`. -/
def bitmapOk (h : String) : Bool :=
  match lebDecomp (hexToBytes h) with
  | some runs =>
    runs.all (· < 2 ^ 32) && (runsBytes (natRuns runs) == hexToBytes h) &&
      decide ((hexToBytes h).length < 2 ^ 32)
  | none => false

/-- Sorted, disjoint, in-bounds, 8-byte-aligned ranges starting at byte
cursor `cur`. -/
def validRanges (size : ℕ) : ℤ → List (ℤ × ℤ) → Bool
  | _, [] => true
  | cur, (a, b) :: rest =>
    decide (cur ≤ a) && decide (a ≤ b) && decide (b ≤ (size : ℤ)) &&
      (a % 8 == 0) && (b % 8 == 0) && validRanges size b rest

def validString (s : String) : Bool := decide (s.utf8ByteSize < 2 ^ 32)

/-- A canonical, non-nil UUID string: parses, is not all zero, and stringifies
back to itself. -/
def canonicalUuid (s : String) : Bool :=
  match parseUuidM s with
  | some bs => decide (bs.length = 16) && !(bs.all (· = 0)) && (uuidStringifyM bs == s)
  | none => false

def validPointId (pid : Option String) : Bool :=
  !(truthy pid) || canonicalUuid (pid.getD "")

def validPage (uniform : ℕ) (p : Page) : Bool :=
  decide (p.size < 2 ^ 32) &&
    (if uniform ≠ 0 then p.size == uniform else true) &&
    (if truthy p.bitmap then bitmapOk (p.bitmap.getD "")
     else
       match p.freeList with
       | some l => validRanges p.size 0 l && decide (l.length < 2 ^ 20)
       | none =>
         match p.occupancy with
         | some o => decide (0 ≤ o) && decide (o ≤ 1) && (p.size % 8 == 0)
         | none => true)

def validPageType (pt : PageType) : Bool :=
  validString pt.name &&
    (match pt.uniformPageSize with | some u => decide (u < 2 ^ 32) | none => true) &&
    decide (pt.pages.length < 2 ^ 32) &&
    pt.pages.all (validPage (match pt.uniformPageSize with | some u => u | none => 0))

def validMeta (m : MetaBag) : Bool :=
  (match m.event with | some e => validString e | none => true) &&
    (match m.memory with
     | some mem => decide (mem.pageTypes.length < 2 ^ 32) && mem.pageTypes.all validPageType
     | none => true)

def validPoint (p : DataPoint) : Bool :=
  !(p.name == some "") &&
    (match p.name with | some nm => validString nm | none => true) &&
    validPointId p.pointId &&
    (match p.meta with | some m => validMeta m | none => true)

def validSeries (s : MemorySeries) : Bool :=
  canonicalUuid s.id && validString s.name &&
    validString (if s.color == "" then "#000000" else s.color) &&
    decide (s.data.length < 2 ^ 32) && s.data.all validPoint

def validSeriesList (l : List MemorySeries) : Bool :=
  decide (l.length < 2 ^ 32) && l.all validSeries

/-- The natural-valued run list whose LEB encoding `getBitmapRLEBuffer`
produces for a well-formed page. -/
def pageRuns (effSize : ℕ) (p : Page) : List ℕ :=
  if truthy p.bitmap then (lebDecomp (hexToBytes (p.bitmap.getD ""))).getD []
  else
    match p.freeList with
    | some l => (freeListRuns effSize l).map Int.toNat
    | none =>
      match p.occupancy with
      | some o =>
        if 0 ≤ o ∧ o < 1 then
          [(⌊(((effSize + 7) / 8 : ℕ) : ℚ) * o⌋).toNat,
            (((effSize + 7) / 8 : ℕ) : ℤ).toNat - (⌊(((effSize + 7) / 8 : ℕ) : ℚ) * o⌋).toNat]
        else [(effSize + 7) / 8]
      | none => [(effSize + 7) / 8]

/-!  ## Parse-after-write: pages -/

@[simp] theorem except_bind_ok {α β : Type} (a : α) (f : α → Except String β) :
    (Except.ok a >>= f : Except String β) = f a := rfl

@[simp] theorem except_bind_err {α β : Type} (e : String) (f : α → Except String β) :
    (Except.error e >>= f : Except String β) = Except.error e := rfl

@[simp] theorem except_pure_eq {α : Type} (a : α) : (pure a : Except String α) = Except.ok a := rfl

/-- The page value `parsePage` reconstructs from an encoded well-formed
page. -/
def decodedPage (uniform : ℕ) (p : Page) : Page :=
  { size := if uniform = 0 then p.size else uniform,
    occupancy := if p.occupancy.getD (-1) = -1 then none else some (p.occupancy.getD (-1)),
    freeList := some (rleFreeRanges 0 0 (pageRuns p.size p)),
    bitmap := none }

/-!  ## Table evolution along the encoder walk -/

def smallList (l : List String) : Prop := ∀ s ∈ l, s.utf8ByteSize < 2 ^ 32

/-!  ## Expected decode values -/

def decodedPageType (pt : PageType) : PageType :=
  { name := pt.name,
    uniformPageSize :=
      if (match pt.uniformPageSize with | some u => u | none => 0) > 0
      then some (match pt.uniformPageSize with | some u => u | none => 0) else none,
    pages := pt.pages.map (decodedPage (match pt.uniformPageSize with | some u => u | none => 0)) }

def decodedMeta (m : MetaBag) : MetaBag :=
  { event := if truthy m.event then m.event else none,
    memory :=
      match m.memory with
      | some mem => some { pageTypes := mem.pageTypes.map decodedPageType }
      | none => none }

def decodedPoint (g : ℕ → String) (k : ℕ) (p : DataPoint) : DataPoint × ℕ :=
  ({ timestamp := p.timestamp, value := p.value,
     pointId := if truthy p.pointId then p.pointId else some (g k),
     name := if truthy p.name then p.name else none,
     meta := p.meta.map decodedMeta },
    if truthy p.pointId then k else k + 1)

def decodedPoints (g : ℕ → String) : ℕ → List DataPoint → List DataPoint × ℕ
  | k, [] => ([], k)
  | k, p :: rest =>
    let d := decodedPoint g k p
    let ds := decodedPoints g d.2 rest
    (d.1 :: ds.1, ds.2)

def decodedSeries (g : ℕ → String) (k : ℕ) (s : MemorySeries) : MemorySeries × ℕ :=
  let ds := decodedPoints g k s.data
  ({ id := s.id, name := s.name,
     color := if s.color == "" then "#000000" else s.color,
     visible := s.visible, data := ds.1 }, ds.2)

def decodedSeriesList (g : ℕ → String) : ℕ → List MemorySeries → List MemorySeries × ℕ
  | k, [] => ([], k)
  | k, s :: rest =>
    let d := decodedSeries g k s
    let ds := decodedSeriesList g d.2 rest
    (d.1 :: ds.1, ds.2)

def pointFlags (p : DataPoint) : ℕ :=
  (if p.meta.isSome then 1 else 0) + (if truthy p.name then 2 else 0) +
    (if truthy p.pointId then 4 else 0)

def pointT1 (t : StringTable) (p : DataPoint) : StringTable :=
  if truthy p.name then (t.getIndex p.name).2 else t

def pointNmCells (t : StringTable) (p : DataPoint) : List Cell :=
  if truthy p.name then varintCells (t.getIndex p.name).1 else []

def pointPidCells (p : DataPoint) : List Cell :=
  if truthy p.pointId then (pointUuidBytes (p.pointId.getD "")).map Cell.byte else []

def metaEvCells (t : StringTable) (m : MetaBag) : List Cell :=
  if truthy m.event then varintCells ((t.getIndex m.event).1 + 1) else varintCells 0

def metaT1 (t : StringTable) (m : MetaBag) : StringTable :=
  if truthy m.event then (t.getIndex m.event).2 else t

def pointMtCells (t : StringTable) (p : DataPoint) : List Cell :=
  match p.meta with
  | some m => (encodeMetaCells (pointT1 t p) m).1
  | none => []

def pointT2 (t : StringTable) (p : DataPoint) : StringTable :=
  match p.meta with
  | some m => (encodeMetaCells (pointT1 t p) m).2
  | none => pointT1 t p

/-- The uncompressed body `encodeBinary` serializes: string-table section,
then the data section. -/
def bodyCells (g : ℕ → String) (l : List MemorySeries) : List Cell :=
  [Cell.byte 1] ++ varintCells (encodeDataSection g l).2.list.length ++
    (encodeDataSection g l).2.list.flatMap stringCells ++ [Cell.byte 2] ++
    (encodeDataSection g l).1

/-!  ## Claim-level helpers -/

/-- The free-byte total named by the round-trip claim: `size` minus the sum of
the page's free-range widths. -/
def pageUsedBytes (p : Page) : ℤ :=
  (p.size : ℤ) - intFreeTotal (p.freeList.getD [])

/-- First page of the first page type of the first point of the first series
of a decode result. -/
def firstPage (r : Except String (List MemorySeries)) : Option Page :=
  match r with
  | .ok (s :: _) =>
    match s.data with
    | p :: _ =>
      match p.meta with
      | some m =>
        match m.memory with
        | some mem =>
          match mem.pageTypes with
          | pt :: _ => pt.pages.head?
          | [] => none
        | none => none
      | none => none
    | [] => none
  | _ => none

def c7SeriesA : MemorySeries :=
  { id := "a", name := "shared", color := "red", visible := true, data := [] }

def c7SeriesB : MemorySeries :=
  { id := "b", name := "shared", color := "blue", visible := false, data := [] }

def c10Series : MemorySeries :=
  { id := "00112233-4455-6677-8899-aabbccddeeff", name := "mem", color := "",
    visible := true, data := [] }

def c1Page : Page :=
  { size := 32, occupancy := none, freeList := some [(0, 4), (8, 12), (16, 20)],
    bitmap := none }

def c1PageType : PageType :=
  { name := "pt", uniformPageSize := none, pages := [c1Page] }

def c1Point : DataPoint :=
  { timestamp := 1, value := 2,
    pointId := some "00112233-4455-6677-8899-aabbccddeeff",
    name := none,
    meta := some { event := none, memory := some { pageTypes := [c1PageType] } } }

def c1Series : MemorySeries :=
  { id := "00112233-4455-6677-8899-aabbccddeeff", name := "heap", color := "#112233",
    visible := true, data := [c1Point] }

set_option maxRecDepth 100000 in
def c1WitnessSeries : MemorySeries :=
  { id := "00112233-4455-6677-8899-aabbccddeeff", name := "stack", color := "#445566",
    visible := false, data := [] }

/-!  ## Stream composition helpers -/

theorem get_at_append (pre : List Cell) (c : Cell) (post : List Cell) :
    (pre ++ c :: post).get? pre.length = some c := by
  induction pre with
  | nil => rfl
  | cons a rest ih => simpa using ih

theorem get_at_append' (pre : List Cell) (c : Cell) (tail : List Cell) :
    (pre ++ [c] ++ tail).get? pre.length = some c := by
  simpa [List.append_assoc] using get_at_append pre c tail

/-!  ## Varint lemmas -/

theorem encodeVarintAux_irrel :
    ∀ (n : ℕ) (v : ℤ), v.toNat ≤ n → ∀ f1 f2, v.toNat < f1 → v.toNat < f2 →
      encodeVarintAux f1 v = encodeVarintAux f2 v := by
  intro n
  induction n using Nat.strong_induction_on with
  | _ n ih =>
    intro v hvn f1 f2 h1 h2
    obtain ⟨g1, rfl⟩ : ∃ m, f1 = m + 1 := ⟨f1 - 1, by omega⟩
    obtain ⟨g2, rfl⟩ : ∃ m, f2 = m + 1 := ⟨f2 - 1, by omega⟩
    by_cases hv : v ≥ 0x80
    · have e1 : 0 ≤ v.emod (2 ^ 32) := Int.emod_nonneg v (by norm_num)
      have e2 : v.emod (2 ^ 32) < 2 ^ 32 := Int.emod_lt_of_pos v (by norm_num)
      have hlt : ((v.emod (2 ^ 32)).toNat / 128) < v.toNat := by
        by_cases hlt32 : v < 2 ^ 32
        · have hh : v.emod (2 ^ 32) = v := Int.emod_eq_of_lt (by omega) hlt32
          omega
        · omega
      rw [encodeVarintAux, encodeVarintAux, if_pos hv, if_pos hv]
      have htn : ((((v.emod (2 ^ 32)).toNat / 128 : ℕ)) : ℤ).toNat
          = (v.emod (2 ^ 32)).toNat / 128 := rfl
      congr 1
      exact ih ((v.emod (2 ^ 32)).toNat / 128) (by omega) _ (by rw [htn]) g1 g2
        (by rw [htn]; omega) (by rw [htn]; omega)
    · rw [encodeVarintAux, encodeVarintAux, if_neg hv, if_neg hv]

theorem encodeVarintAux_eq (fuel : ℕ) (v : ℤ) (h : v.toNat < fuel) :
    encodeVarintAux fuel v = encodeVarintToBytes v :=
  encodeVarintAux_irrel v.toNat v le_rfl fuel (v.toNat + 1) h (by omega)

/-- For a natural below `2^32` the encoder is plain LEB128: below 128 one
byte. -/
theorem encodeVarint_lt128 (n : ℕ) (h : n < 128) :
    encodeVarintToBytes (n : ℤ) = [n] := by
  rw [encodeVarintToBytes, encodeVarintAux]
  rw [if_neg (by exact_mod_cast by omega : ¬((n : ℤ) ≥ 0x80))]
  have he : (n : ℤ).emod 256 = (n : ℤ) := Int.emod_eq_of_lt (by omega) (by exact_mod_cast by omega)
  rw [he]
  congr 1

/-- ... and at least 128: low 7 bits plus continuation, then the shifted
rest. -/
theorem encodeVarint_ge128 (n : ℕ) (h128 : 128 ≤ n) (h : n < 2 ^ 32) :
    encodeVarintToBytes (n : ℤ) = (n % 128 + 128) :: encodeVarintToBytes ((n / 128 : ℕ) : ℤ) := by
  rw [encodeVarintToBytes, encodeVarintAux]
  rw [if_pos (by exact_mod_cast h128)]
  have he : (n : ℤ).emod (2 ^ 32) = (n : ℤ) := Int.emod_eq_of_lt (by omega) (by exact_mod_cast h)
  rw [he]
  have h1 : ((n : ℤ).toNat % 128 + 128) = n % 128 + 128 := by simp
  have h2 : ((n : ℤ).toNat / 128) = n / 128 := by simp
  rw [h1, h2]
  congr 1
  exact encodeVarintAux_eq _ _ (by simp; omega)

theorem varintCells_lt128 (n : ℕ) (h : n < 128) : varintCells n = [Cell.byte n] := by
  rw [varintCells, encodeVarint_lt128 n h]
  rfl

theorem varintCells_ge128 (n : ℕ) (h128 : 128 ≤ n) (h : n < 2 ^ 32) :
    varintCells n = Cell.byte (n % 128 + 128) :: varintCells (n / 128) := by
  rw [varintCells, encodeVarint_ge128 n h128 h]
  rfl

theorem varintCells_len_pos (n : ℕ) (h : n < 2 ^ 32) : 0 < (varintCells n).length := by
  by_cases h128 : n < 128
  · rw [varintCells_lt128 n h128]
    simp
  · rw [varintCells_ge128 n (by omega) h]
    simp

theorem readVarintAux_spec (n : ℕ) (hn : n < 2 ^ 32) :
    ∀ (pre post : List Cell) (shift acc fuel : ℕ), (varintCells n).length ≤ fuel →
      readVarintAux (pre ++ varintCells n ++ post) fuel pre.length shift acc
        = .ok (acc + n * 2 ^ shift, pre.length + (varintCells n).length) := by
  induction n using Nat.strong_induction_on with
  | _ n ih =>
    intro pre post shift acc fuel hfuel
    by_cases h128 : n < 128
    · rw [varintCells_lt128 n h128] at hfuel ⊢
      obtain ⟨f, rfl⟩ : ∃ m, fuel = m + 1 := ⟨fuel - 1, by simp at hfuel; omega⟩
      rw [readVarintAux, get_at_append' pre (Cell.byte n) post]
      dsimp only
      rw [if_pos (by omega : n < 128)]
      simp [Nat.mod_eq_of_lt h128]
    · rw [varintCells_ge128 n (by omega) hn] at hfuel ⊢
      obtain ⟨f, hfu⟩ : ∃ m, fuel = m + 1 := ⟨fuel - 1, by simp at hfuel; omega⟩
      subst hfu
      have hstep : pre ++ (Cell.byte (n % 128 + 128) :: varintCells (n / 128)) ++ post
          = pre ++ Cell.byte (n % 128 + 128) :: (varintCells (n / 128) ++ post) := by
        simp
      rw [readVarintAux, hstep, get_at_append pre _ _]
      dsimp only
      rw [if_neg (by omega : ¬(n % 128 + 128 < 128))]
      have hassoc : pre ++ Cell.byte (n % 128 + 128) :: (varintCells (n / 128) ++ post)
          = (pre ++ [Cell.byte (n % 128 + 128)]) ++ varintCells (n / 128) ++ post := by
        simp
      have hlen : pre.length + 1 = (pre ++ [Cell.byte (n % 128 + 128)]).length := by
        simp
      rw [hassoc, hlen]
      rw [ih (n / 128) (by omega) (by omega) (pre ++ [Cell.byte (n % 128 + 128)]) post
        (shift + 7) (acc + (n % 128 + 128) % 128 * 2 ^ shift) f (by simp at hfuel ⊢; omega)]
      have hb : (n % 128 + 128) % 128 = n % 128 := by omega
      have harith : n % 128 * 2 ^ shift + n / 128 * 2 ^ (shift + 7) = n * 2 ^ shift := by
        have h7 : (2 : ℕ) ^ (shift + 7) = 2 ^ shift * 128 := by
          rw [pow_add]
          norm_num
        rw [h7]
        calc n % 128 * 2 ^ shift + n / 128 * (2 ^ shift * 128)
            = (n % 128 + n / 128 * 128) * 2 ^ shift := by ring
          _ = n * 2 ^ shift := by rw [Nat.mod_add_div' n 128]

      rw [hb]
      congr 2
      · omega
      · simp
        omega

theorem readVarint_spec (n : ℕ) (hn : n < 2 ^ 32) (pre post : List Cell) :
    readVarint (pre ++ varintCells n ++ post) pre.length
      = .ok (n, pre.length + (varintCells n).length) := by
  rw [readVarint]
  have h := readVarintAux_spec n hn pre post 0 0
    ((pre ++ varintCells n ++ post).length + 1) (by simp; omega)
  simpa using h

/-!  ## Primitive reader specs -/

theorem readU8_spec (b : ℕ) (pre post : List Cell) :
    readU8 (pre ++ [Cell.byte b] ++ post) pre.length = .ok (b, pre.length + 1) := by
  rw [readU8, get_at_append' pre (Cell.byte b) post]

theorem readFloat32_spec (q : ℚ) (pre post : List Cell) :
    readFloat32 (pre ++ [Cell.f32 q] ++ post) pre.length = .ok (q, pre.length + 1) := by
  rw [readFloat32, get_at_append' pre (Cell.f32 q) post]

theorem readFloat64_spec (q : ℚ) (pre post : List Cell) :
    readFloat64 (pre ++ [Cell.f64 q] ++ post) pre.length = .ok (q, pre.length + 1) := by
  rw [readFloat64, get_at_append' pre (Cell.f64 q) post]

theorem readString_spec (s : String) (hs : s.utf8ByteSize < 2 ^ 32) (pre post : List Cell) :
    readString (pre ++ stringCells s ++ post) pre.length
      = .ok (s, pre.length + (stringCells s).length) := by
  rw [readString, stringCells]
  have hb : pre ++ (varintCells s.utf8ByteSize ++ [Cell.str s]) ++ post
      = pre ++ varintCells s.utf8ByteSize ++ ([Cell.str s] ++ post) := by
    simp
  rw [hb, readVarint_spec s.utf8ByteSize hs pre ([Cell.str s] ++ post)]
  dsimp only
  have hb2 : pre ++ varintCells s.utf8ByteSize ++ ([Cell.str s] ++ post)
      = (pre ++ varintCells s.utf8ByteSize) ++ Cell.str s :: post := by
    simp
  have hl : pre.length + (varintCells s.utf8ByteSize).length
      = (pre ++ varintCells s.utf8ByteSize).length := by
    simp
  rw [hb2, hl, get_at_append (pre ++ varintCells s.utf8ByteSize) (Cell.str s) post]
  dsimp only
  simp [Nat.add_assoc]

theorem allBytes_map (bs : List ℕ) : allBytes (bs.map Cell.byte) = some bs := by
  induction bs with
  | nil => rfl
  | cons b rest ih => simp [allBytes, ih]

theorem readUuid_spec (g : ℕ → String) (bs : List ℕ) (h16 : bs.length = 16)
    (pre post : List Cell) (k : ℕ) :
    readUuid g (pre ++ bs.map Cell.byte ++ post) pre.length k
      = if bs.all (· = 0) then .ok (g k, pre.length + 16, k + 1)
        else .ok (uuidStringifyM bs, pre.length + 16, k) := by
  rw [readUuid]
  have hlen : pre.length + 16 ≤ (pre ++ bs.map Cell.byte ++ post).length := by
    simp [h16]
  rw [if_pos hlen]
  have hassoc : pre ++ bs.map Cell.byte ++ post = pre ++ (bs.map Cell.byte ++ post) := by
    simp
  have hdrop : ((pre ++ bs.map Cell.byte ++ post).drop pre.length).take 16
      = bs.map Cell.byte := by
    rw [hassoc, List.drop_left]
    exact List.take_left' (by simp [h16])
  rw [hdrop, allBytes_map bs]

/-!  ## RLE decode spec -/

theorem encodeVarint_len_pos (v : ℤ) : 0 < (encodeVarintToBytes v).length := by
  rw [encodeVarintToBytes, encodeVarintAux]
  by_cases hv : v ≥ 0x80
  · rw [if_pos hv]
    simp
  · rw [if_neg hv]
    simp

theorem natRuns_cons (r : ℕ) (rs : List ℕ) :
    runsBytes (natRuns (r :: rs)) = encodeVarintToBytes (r : ℤ) ++ runsBytes (natRuns rs) := by
  simp [natRuns, runsBytes]

theorem runsBytes_nat_len (rs : List ℕ) : rs.length ≤ (runsBytes (natRuns rs)).length := by
  induction rs with
  | nil => simp [natRuns, runsBytes]
  | cons r rest ih =>
    have h1 := encodeVarint_len_pos (r : ℤ)
    rw [natRuns_cons]
    simp only [List.length_append, List.length_cons]
    omega

theorem readBitmapFreeListAux_spec (runs : List ℕ) (h : ∀ r ∈ runs, r < 2 ^ 32) :
    ∀ (pre post : List Cell) (bit state fuel : ℕ), runs.length ≤ fuel →
      readBitmapFreeListAux (pre ++ (runsBytes (natRuns runs)).map Cell.byte ++ post) fuel
        pre.length (pre.length + (runsBytes (natRuns runs)).length) bit state
        = .ok (rleFreeRanges bit state runs) := by
  induction runs with
  | nil =>
    intro pre post bit state fuel _
    match fuel with
    | 0 => simp [readBitmapFreeListAux, natRuns, runsBytes, rleFreeRanges]
    | f + 1 => simp [readBitmapFreeListAux, natRuns, runsBytes, rleFreeRanges]
  | cons r rs ih =>
    intro pre post bit state fuel hfuel
    obtain ⟨f, rfl⟩ : ∃ m, fuel = m + 1 := ⟨fuel - 1, by simp at hfuel; omega⟩
    have hr : r < 2 ^ 32 := h r (by simp)
    have hsplit : runsBytes (natRuns (r :: rs)) = encodeVarintToBytes (r : ℤ) ++ runsBytes (natRuns rs) :=
      natRuns_cons r rs
    rw [readBitmapFreeListAux]
    have hpos : pre.length < pre.length + (runsBytes (natRuns (r :: rs))).length := by
      have := encodeVarint_len_pos (r : ℤ)
      rw [hsplit]
      simp
      omega
    rw [if_pos hpos]
    have hbuf : pre ++ (runsBytes (natRuns (r :: rs))).map Cell.byte ++ post
        = pre ++ varintCells r ++ ((runsBytes (natRuns rs)).map Cell.byte ++ post) := by
      rw [hsplit]
      simp [varintCells]
    rw [hbuf, readVarint_spec r hr pre ((runsBytes (natRuns rs)).map Cell.byte ++ post)]
    dsimp only
    have hbuf2 : pre ++ varintCells r ++ ((runsBytes (natRuns rs)).map Cell.byte ++ post)
        = (pre ++ varintCells r) ++ (runsBytes (natRuns rs)).map Cell.byte ++ post := by
      simp
    have hoff : pre.length + (varintCells r).length = (pre ++ varintCells r).length := by
      simp
    have hend : pre.length + (runsBytes (natRuns (r :: rs))).length
        = (pre ++ varintCells r).length + (runsBytes (natRuns rs)).length := by
      rw [hsplit]
      simp [varintCells]
      omega
    rw [hbuf2, hoff, hend, ih (by intro x hx; exact h x (by simp [hx])) (pre ++ varintCells r)
      post (bit + r) (1 - state) f (by simp at hfuel ⊢; omega)]
    dsimp only
    simp only [rleFreeRanges]
    by_cases hs : state = 1
    · rw [if_pos hs, if_pos hs]
    · rw [if_neg hs, if_neg hs]

theorem readBitmapFreeList_spec (runs : List ℕ) (h : ∀ r ∈ runs, r < 2 ^ 32)
    (pre post : List Cell) :
    readBitmapFreeList (pre ++ (runsBytes (natRuns runs)).map Cell.byte ++ post)
      pre.length (runsBytes (natRuns runs)).length
      = .ok (rleFreeRanges 0 0 runs, pre.length + (runsBytes (natRuns runs)).length) := by
  rw [readBitmapFreeList]
  rw [readBitmapFreeListAux_spec runs h pre post 0 0 ((runsBytes (natRuns runs)).length + 1)
    (by have := runsBytes_nat_len runs; omega)]

theorem tableExtends_refl (l : List String) : tableExtends l l := ⟨[], by simp⟩

theorem tableExtends_trans {l1 l2 l3 : List String} (h1 : tableExtends l1 l2)
    (h2 : tableExtends l2 l3) : tableExtends l1 l3 := by
  obtain ⟨t1, rfl⟩ := h1
  obtain ⟨t2, rfl⟩ := h2
  exact ⟨t1 ++ t2, by simp⟩

theorem tableExtends_get {l1 l2 : List String} (h : tableExtends l1 l2) {i : ℕ} {s : String}
    (hg : l1.get? i = some s) : l2.get? i = some s := by
  obtain ⟨t, rfl⟩ := h
  have hi : i < l1.length := List.get?_eq_some.mp hg |>.1
  rw [List.get?_append hi]
  exact hg

theorem tableInv_empty : TableInv ⟨[], []⟩ := by
  refine ⟨?_, ?_, List.nodup_nil⟩ <;> simp

theorem lookup_append_some {α β : Type} [BEq α] (l1 l2 : List (α × β)) (a : α) (b : β)
    (h : l1.lookup a = some b) : (l1 ++ l2).lookup a = some b := by
  induction l1 with
  | nil => simp [List.lookup] at h
  | cons p rest ih =>
    rw [List.cons_append, List.lookup] at *
    by_cases hba : (a == p.1) = true
    · simp only [hba] at h ⊢
      exact h
    · simp only [hba] at h ⊢
      exact ih h

theorem lookup_append_none {α β : Type} [BEq α] (l1 l2 : List (α × β)) (a : α)
    (h : l1.lookup a = none) : (l1 ++ l2).lookup a = l2.lookup a := by
  induction l1 with
  | nil => simp
  | cons p rest ih =>
    rw [List.cons_append, List.lookup] at *
    by_cases hba : (a == p.1) = true
    · simp only [hba] at h
      exact absurd h (by simp)
    · simp only [hba] at h ⊢
      exact ih h

theorem getIndex_hit (t : StringTable) (s : String) (i : ℕ)
    (h : t.strings.lookup s = some i) : t.getIndex (some s) = (i, t) := by
  rw [StringTable.getIndex]
  simp only [Option.getD_some, h]

theorem getIndex_miss (t : StringTable) (s : String)
    (h : t.strings.lookup s = none) :
    t.getIndex (some s)
      = (t.list.length, ⟨t.strings ++ [(s, t.list.length)], t.list ++ [s]⟩) := by
  rw [StringTable.getIndex]
  simp only [Option.getD_some, h]

/-- `getIndex` returns an index that resolves to the (normalized) string in
the updated list, only appends to the list, and preserves the invariant. -/
theorem getIndex_spec (t : StringTable) (str : Option String) (hInv : TableInv t) :
    ((t.getIndex str).2.list.get? (t.getIndex str).1 = some (str.getD "")) ∧
      tableExtends t.list (t.getIndex str).2.list ∧ TableInv (t.getIndex str).2 := by
  rw [StringTable.getIndex]
  cases hl : t.strings.lookup (str.getD "") with
  | some i =>
    dsimp only
    refine ⟨?_, tableExtends_refl _, hInv⟩
    obtain ⟨l1, l2, heq, -⟩ := List.lookup_eq_some_iff.mp hl
    exact hInv.1 (str.getD "", i) (by rw [heq]; simp)
  | none =>
    dsimp only
    have hnotmem : str.getD "" ∉ t.list := fun hmem => hInv.2.1 _ hmem hl
    have hget : (t.list ++ [str.getD ""]).get? t.list.length = some (str.getD "") := by
      rw [List.get?_append_right (le_refl _)]
      simp
    refine ⟨hget, ⟨[str.getD ""], rfl⟩, ?_, ?_, ?_⟩
    · intro p hp
      rcases List.mem_append.mp hp with hin | hnew
      · exact tableExtends_get ⟨[str.getD ""], rfl⟩ (hInv.1 p hin)
      · have hp2 : p = (str.getD "", t.list.length) := by simpa using hnew
        rw [hp2]
        exact hget
    · intro s hs
      rcases List.mem_append.mp hs with hin | hnew
      · rcases hx : t.strings.lookup s with _ | j
        · exact absurd hx (hInv.2.1 s hin)
        · rw [lookup_append_some _ _ _ _ hx]
          simp
      · have hseq : s = str.getD "" := by simpa using hnew
        rw [hseq, lookup_append_none _ _ _ hl]
        simp [List.lookup]
    · simp [List.nodup_append, hInv.2.2, hnotmem]

/-!  ## Push/oddSum lemmas for the run accumulator -/

theorem bumpLast_sum (b : ℤ) : ∀ (l : List ℤ), l ≠ [] → (bumpLast b l).sum = l.sum + b := by
  intro l
  induction l with
  | nil => intro h; exact absurd rfl h
  | cons r rest ih =>
    intro _
    cases rest with
    | nil =>
      rw [bumpLast]
      simp only [List.sum_cons, List.sum_nil]
      ring
    | cons r2 rest2 =>
      rw [bumpLast]
      simp only [List.sum_cons]
      rw [ih (by simp)]
      simp only [List.sum_cons]
      ring

theorem bumpLast_ne_nil (b : ℤ) (l : List ℤ) (h : l ≠ []) : bumpLast b l ≠ [] := by
  cases l with
  | nil => exact absurd rfl h
  | cons r rest => cases rest <;> simp [bumpLast]

theorem bumpLast_nonneg (b : ℤ) (hb : 0 ≤ b) :
    ∀ (l : List ℤ), (∀ r ∈ l, 0 ≤ r) → ∀ r ∈ bumpLast b l, 0 ≤ r := by
  intro l
  induction l with
  | nil => simp [bumpLast]
  | cons r rest ih =>
    intro hl x hx
    cases rest with
    | nil =>
      simp [bumpLast] at hx
      have := hl r (by simp)
      omega
    | cons r2 rest2 =>
      rw [bumpLast] at hx
      rcases List.mem_cons.mp hx with rfl | hx2
      · exact hl x (by simp)
      · exact ih (fun y hy => hl y (List.mem_cons_of_mem r hy)) x hx2

theorem bumpLast_sumAlt (b : ℤ) : ∀ (l : List ℤ), l ≠ [] →
    sumAlt (bumpLast b l)
      = if l.length % 2 = 1 then ((sumAlt l).1 + b, (sumAlt l).2)
        else ((sumAlt l).1, (sumAlt l).2 + b) := by
  intro l
  induction l with
  | nil => intro h; exact absurd rfl h
  | cons r rest ih =>
    intro _
    cases rest with
    | nil =>
      rw [bumpLast]
      simp [sumAlt]
    | cons r2 rest2 =>
      rw [bumpLast, sumAlt, ih (by simp)]
      by_cases hpar : (r2 :: rest2).length % 2 = 1
      · rw [if_pos hpar, if_neg (by simp only [List.length_cons] at hpar ⊢; omega)]
        simp only [sumAlt, Prod.mk.injEq]
      · rw [if_neg hpar, if_pos (by simp only [List.length_cons] at hpar ⊢; omega)]
        simp only [sumAlt, Prod.mk.injEq]
        refine ⟨?_, ?_⟩ <;> ring

theorem sumAlt_append_one (l : List ℤ) (b : ℤ) :
    sumAlt (l ++ [b])
      = if l.length % 2 = 1 then ((sumAlt l).1, (sumAlt l).2 + b)
        else ((sumAlt l).1 + b, (sumAlt l).2) := by
  induction l with
  | nil => simp [sumAlt]
  | cons r rest ih =>
    rw [List.cons_append, sumAlt, ih, sumAlt]
    by_cases hpar : rest.length % 2 = 1
    · rw [if_pos hpar, if_neg (by simp only [List.length_cons]; omega)]
      simp only [Prod.mk.injEq]
      refine ⟨?_, ?_⟩ <;> ring
    · rw [if_neg hpar, if_pos (by simp only [List.length_cons]; omega)]

theorem pushOccupied_oddSum (runs : List ℤ) (b : ℤ) (h : runs ≠ []) :
    oddSum (pushOccupied runs b) = oddSum runs := by
  rw [pushOccupied, oddSum]
  by_cases hpar : runs.length % 2 = 1
  · rw [if_pos hpar, bumpLast_sumAlt b runs h, if_pos hpar]
    rfl
  · rw [if_neg hpar, sumAlt_append_one, if_neg hpar]
    rfl

theorem pushFree_oddSum (runs : List ℤ) (b : ℤ) (h : runs ≠ []) :
    oddSum (pushFree runs b) = oddSum runs + b := by
  rw [pushFree, oddSum]
  by_cases hpar : runs.length % 2 = 0
  · rw [if_pos hpar, bumpLast_sumAlt b runs h, if_neg (by omega)]
    rfl
  · rw [if_neg hpar, sumAlt_append_one, if_pos (by omega)]
    rfl

theorem pushOccupied_sum (runs : List ℤ) (b : ℤ) (h : runs ≠ []) :
    (pushOccupied runs b).sum = runs.sum + b := by
  rw [pushOccupied]
  by_cases hpar : runs.length % 2 = 1
  · rw [if_pos hpar, bumpLast_sum b runs h]
  · rw [if_neg hpar]
    simp

theorem pushFree_sum (runs : List ℤ) (b : ℤ) (h : runs ≠ []) :
    (pushFree runs b).sum = runs.sum + b := by
  rw [pushFree]
  by_cases hpar : runs.length % 2 = 0
  · rw [if_pos hpar, bumpLast_sum b runs h]
  · rw [if_neg hpar]
    simp

theorem pushOccupied_ne_nil (runs : List ℤ) (b : ℤ) (h : runs ≠ []) :
    pushOccupied runs b ≠ [] := by
  rw [pushOccupied]
  by_cases hpar : runs.length % 2 = 1
  · rw [if_pos hpar]
    exact bumpLast_ne_nil b runs h
  · rw [if_neg hpar]
    simp

theorem pushFree_ne_nil (runs : List ℤ) (b : ℤ) (h : runs ≠ []) :
    pushFree runs b ≠ [] := by
  rw [pushFree]
  by_cases hpar : runs.length % 2 = 0
  · rw [if_pos hpar]
    exact bumpLast_ne_nil b runs h
  · rw [if_neg hpar]
    simp

theorem pushOccupied_nonneg (runs : List ℤ) (b : ℤ) (hb : 0 ≤ b)
    (h : ∀ r ∈ runs, 0 ≤ r) : ∀ r ∈ pushOccupied runs b, 0 ≤ r := by
  rw [pushOccupied]
  by_cases hpar : runs.length % 2 = 1
  · rw [if_pos hpar]
    exact bumpLast_nonneg b hb runs h
  · rw [if_neg hpar]
    intro r hr
    rcases List.mem_append.mp hr with h1 | h2
    · exact h r h1
    · simp at h2
      omega

theorem pushFree_nonneg (runs : List ℤ) (b : ℤ) (hb : 0 ≤ b)
    (h : ∀ r ∈ runs, 0 ≤ r) : ∀ r ∈ pushFree runs b, 0 ≤ r := by
  rw [pushFree]
  by_cases hpar : runs.length % 2 = 0
  · rw [if_pos hpar]
    exact bumpLast_nonneg b hb runs h
  · rw [if_neg hpar]
    intro r hr
    rcases List.mem_append.mp hr with h1 | h2
    · exact h r h1
    · simp at h2
      omega

/-!  ## The `freeList` → runs conversion under well-formedness -/

theorem validRanges_cons (size : ℕ) (cur a b : ℤ) (rest : List (ℤ × ℤ)) :
    validRanges size cur ((a, b) :: rest) = true ↔
      cur ≤ a ∧ a ≤ b ∧ b ≤ (size : ℤ) ∧ a % 8 = 0 ∧ b % 8 = 0 ∧
        validRanges size b rest = true := by
  simp [validRanges, and_assoc]

theorem sortByStart_of_valid (size : ℕ) :
    ∀ (l : List (ℤ × ℤ)) (cur : ℤ), validRanges size cur l = true → sortByStart l = l := by
  intro l
  induction l with
  | nil => intro cur _; rfl
  | cons x rest ih =>
    intro cur hv
    obtain ⟨x1, x2⟩ := x
    rw [validRanges_cons] at hv
    have hr : sortByStart rest = rest := ih x2 hv.2.2.2.2.2
    show sortedInsertByStart (x1, x2) (sortByStart rest) = (x1, x2) :: rest
    rw [hr]
    cases rest with
    | nil => rfl
    | cons y ys =>
      obtain ⟨y1, y2⟩ := y
      rw [validRanges_cons] at hv
      have hxy : x1 ≤ y1 := by
        have h1 := hv.2.1
        have h2 := hv.2.2.2.2.2.1
        omega
      rw [sortedInsertByStart, if_neg (by omega)]

theorem freeListFold_inv (size : ℕ) :
    ∀ (l : List (ℤ × ℤ)) (runs : List ℤ) (cur : ℤ),
      validRanges size cur l = true →
      runs ≠ [] → (∀ r ∈ runs, 0 ≤ r) →
      cur % 8 = 0 → 0 ≤ cur → cur ≤ (size : ℤ) →
      runs.sum * 8 = cur →
      ((l.foldl freeListStep (runs, cur)).1 ≠ [] ∧
        (∀ r ∈ (l.foldl freeListStep (runs, cur)).1, 0 ≤ r) ∧
        (l.foldl freeListStep (runs, cur)).2 % 8 = 0 ∧
        0 ≤ (l.foldl freeListStep (runs, cur)).2 ∧
        (l.foldl freeListStep (runs, cur)).2 ≤ (size : ℤ) ∧
        (l.foldl freeListStep (runs, cur)).1.sum * 8 = (l.foldl freeListStep (runs, cur)).2 ∧
        oddSum (l.foldl freeListStep (runs, cur)).1 * 8
          = oddSum runs * 8 + intFreeTotal l) := by
  intro l
  induction l with
  | nil =>
    intro runs cur _ h1 h2 h3 h4 h5 h6
    refine ⟨h1, h2, h3, h4, h5, h6, by simp [intFreeTotal]⟩
  | cons x rest ih =>
    intro runs cur hv h1 h2 h3 h4 h5 h6
    obtain ⟨a, b⟩ := x
    rw [validRanges_cons] at hv
    obtain ⟨hca, hab, hbs, ha8, hb8, hrest⟩ := hv
    rw [List.foldl_cons]
    have hstep : freeListStep (runs, cur) (a, b)
        = (if b - a > 0 then
            pushFree (if a - cur > 0 then pushOccupied runs ((a - cur).fdiv 8) else runs)
              ((b - a).fdiv 8)
          else (if a - cur > 0 then pushOccupied runs ((a - cur).fdiv 8) else runs), b) := by
      rw [freeListStep]
    rw [hstep]
    set runs1 := if a - cur > 0 then pushOccupied runs ((a - cur).fdiv 8) else runs with hr1
    set runs2 := if b - a > 0 then pushFree runs1 ((b - a).fdiv 8) else runs1 with hr2
    have hfd1 : (a - cur).fdiv 8 * 8 = a - cur := by
      rw [Int.fdiv_eq_ediv _ (by omega)]
      exact Int.ediv_mul_cancel (by omega)
    have hfd1nn : 0 ≤ (a - cur).fdiv 8 := by
      rw [Int.fdiv_eq_ediv _ (by omega)]
      exact Int.ediv_nonneg (by omega) (by omega)
    have hfd2 : (b - a).fdiv 8 * 8 = b - a := by
      rw [Int.fdiv_eq_ediv _ (by omega)]
      exact Int.ediv_mul_cancel (by omega)
    have hfd2nn : 0 ≤ (b - a).fdiv 8 := by
      rw [Int.fdiv_eq_ediv _ (by omega)]
      exact Int.ediv_nonneg (by omega) (by omega)
    have hne1 : runs1 ≠ [] := by
      rw [hr1]
      by_cases hc : a - cur > 0
      · rw [if_pos hc]
        exact pushOccupied_ne_nil runs _ h1
      · rw [if_neg hc]
        exact h1
    have hnn1 : ∀ r ∈ runs1, 0 ≤ r := by
      rw [hr1]
      by_cases hc : a - cur > 0
      · rw [if_pos hc]
        exact pushOccupied_nonneg runs _ hfd1nn h2
      · rw [if_neg hc]
        exact h2
    have hsum1 : runs1.sum * 8 = a := by
      rw [hr1]
      by_cases hc : a - cur > 0
      · rw [if_pos hc, pushOccupied_sum runs _ h1]
        rw [add_mul, h6, hfd1]
        ring
      · rw [if_neg hc]
        omega
    have hodd1 : oddSum runs1 = oddSum runs := by
      rw [hr1]
      by_cases hc : a - cur > 0
      · rw [if_pos hc]
        exact pushOccupied_oddSum runs _ h1
      · rw [if_neg hc]
    have hne2 : runs2 ≠ [] := by
      rw [hr2]
      by_cases hc : b - a > 0
      · rw [if_pos hc]
        exact pushFree_ne_nil runs1 _ hne1
      · rw [if_neg hc]
        exact hne1
    have hnn2 : ∀ r ∈ runs2, 0 ≤ r := by
      rw [hr2]
      by_cases hc : b - a > 0
      · rw [if_pos hc]
        exact pushFree_nonneg runs1 _ hfd2nn hnn1
      · rw [if_neg hc]
        exact hnn1
    have hsum2 : runs2.sum * 8 = b := by
      rw [hr2]
      by_cases hc : b - a > 0
      · rw [if_pos hc, pushFree_sum runs1 _ hne1]
        rw [add_mul, hsum1, hfd2]
        ring
      · rw [if_neg hc]
        omega
    have hodd2 : oddSum runs2 * 8 = oddSum runs * 8 + (b - a) := by
      rw [hr2]
      by_cases hc : b - a > 0
      · rw [if_pos hc, pushFree_oddSum runs1 _ hne1, add_mul, hodd1, hfd2]
      · rw [if_neg hc, hodd1]
        omega
    have hres := ih runs2 b hrest hne2 hnn2 (by omega) (by omega) hbs hsum2
    refine ⟨hres.1, hres.2.1, hres.2.2.1, hres.2.2.2.1, hres.2.2.2.2.1,
      hres.2.2.2.2.2.1, ?_⟩
    rw [hres.2.2.2.2.2.2, hodd2]
    have hexp : intFreeTotal ((a, b) :: rest) = (b - a) + intFreeTotal rest := by
      rw [intFreeTotal, intFreeTotal]
      simp
    rw [hexp]
    ring

theorem freeListRuns_spec (size : ℕ) (hsize : size < 2 ^ 32) (l : List (ℤ × ℤ))
    (hv : validRanges size 0 l = true) :
    (∀ r ∈ freeListRuns size l, 0 ≤ r) ∧
      (∀ r ∈ freeListRuns size l, r < 2 ^ 32) ∧
      oddSum (freeListRuns size l) * 8 = intFreeTotal l := by
  rw [freeListRuns, sortByStart_of_valid size l 0 hv]
  have hinv := freeListFold_inv size l [0] 0 hv (by simp) (by simp) (by omega) (by omega)
    (by omega) (by simp)
  set st := l.foldl freeListStep ([0], 0) with hst
  obtain ⟨hne, hnn, hmod, hnn2, hle, hsum, hodd⟩ := hinv
  have hodd0 : oddSum [(0 : ℤ)] = 0 := by
    simp [oddSum, sumAlt]
  rw [hodd0] at hodd
  by_cases hc : st.2 < (size : ℤ)
  · rw [if_pos hc]
    have hcb : 0 ≤ ((size : ℤ) - st.2 + 7).fdiv 8 := by
      rw [Int.fdiv_eq_ediv _ (by omega)]
      exact Int.ediv_nonneg (by omega) (by omega)
    have hcd : ((size : ℤ) - st.2 + 7).fdiv 8 * 8 ≤ (size : ℤ) - st.2 + 7 := by
      rw [Int.fdiv_eq_ediv _ (by omega)]
      exact Int.ediv_mul_le _ (by omega)
    have hsum' : (pushOccupied st.1 (((size : ℤ) - st.2 + 7).fdiv 8)).sum * 8 ≤ (size : ℤ) + 7 := by
      rw [pushOccupied_sum st.1 _ hne, add_mul, hsum]
      omega
    have hnn' : ∀ r ∈ pushOccupied st.1 (((size : ℤ) - st.2 + 7).fdiv 8), 0 ≤ r :=
      pushOccupied_nonneg st.1 _ hcb hnn
    refine ⟨hnn', ?_, ?_⟩
    · intro r hr
      have h1 : r ≤ (pushOccupied st.1 (((size : ℤ) - st.2 + 7).fdiv 8)).sum :=
        List.single_le_sum hnn' r hr
      have h2 := hsum'
      omega
    · rw [pushOccupied_oddSum st.1 _ hne, hodd]
      omega
  · rw [if_neg hc]
    refine ⟨hnn, ?_, by rw [hodd]; omega⟩
    intro r hr
    have h1 : r ≤ st.1.sum := List.single_le_sum hnn r hr
    omega

theorem natRuns_toNat (rl : List ℤ) (h : ∀ r ∈ rl, 0 ≤ r) :
    natRuns (rl.map Int.toNat) = rl := by
  induction rl with
  | nil => rfl
  | cons r rest ih =>
    rw [List.map_cons]
    rw [show natRuns (r.toNat :: rest.map Int.toNat)
        = (r.toNat : ℤ) :: natRuns (rest.map Int.toNat) from rfl]
    rw [ih (fun x hx => h x (by simp [hx])), Int.toNat_of_nonneg (h r (by simp))]

theorem varintLen_aux : ∀ (k n : ℕ), n < 2 ^ 32 → n < 128 ^ (k + 1) →
    (encodeVarintToBytes (n : ℤ)).length ≤ k + 1 := by
  intro k
  induction k with
  | zero =>
    intro n _ h
    rw [encodeVarint_lt128 n (by simpa using h)]
    simp
  | succ k ih =>
    intro n h32 h
    by_cases h128 : n < 128
    · rw [encodeVarint_lt128 n h128]
      simp only [List.length_cons, List.length_nil]
      omega
    · rw [encodeVarint_ge128 n (by omega) h32]
      simp only [List.length_cons]
      have hq : n / 128 < 128 ^ (k + 1) := by
        have hx : 128 ^ (k + 1 + 1) = 128 ^ (k + 1) * 128 := by ring
        rw [hx] at h
        omega
      have := ih (n / 128) (by omega) hq
      omega

theorem varintLen_le5 (n : ℕ) (h : n < 2 ^ 32) : (encodeVarintToBytes (n : ℤ)).length ≤ 5 := by
  have h5 : n < 128 ^ 5 := by
    have : (128 : ℕ) ^ 5 = 2 ^ 35 := by norm_num
    omega
  exact varintLen_aux 4 n h h5

theorem runsBytes_len_le (rs : List ℕ) (h : ∀ r ∈ rs, r < 2 ^ 32) :
    (runsBytes (natRuns rs)).length ≤ 5 * rs.length := by
  induction rs with
  | nil => simp [natRuns, runsBytes]
  | cons r rest ih =>
    rw [natRuns_cons]
    simp only [List.length_append, List.length_cons]
    have h1 := varintLen_le5 r (h r (by simp))
    have h2 := ih (fun x hx => h x (by simp [hx]))
    omega

theorem bumpLast_length (b : ℤ) : ∀ (l : List ℤ), (bumpLast b l).length = l.length := by
  intro l
  induction l with
  | nil => rfl
  | cons r rest ih =>
    cases rest with
    | nil => rfl
    | cons r2 rest2 =>
      rw [bumpLast]
      simpa using ih

theorem pushOccupied_length (runs : List ℤ) (b : ℤ) :
    (pushOccupied runs b).length ≤ runs.length + 1 := by
  rw [pushOccupied]
  by_cases hpar : runs.length % 2 = 1
  · rw [if_pos hpar, bumpLast_length]
    omega
  · rw [if_neg hpar]
    simp

theorem pushFree_length (runs : List ℤ) (b : ℤ) :
    (pushFree runs b).length ≤ runs.length + 1 := by
  rw [pushFree]
  by_cases hpar : runs.length % 2 = 0
  · rw [if_pos hpar, bumpLast_length]
    omega
  · rw [if_neg hpar]
    simp

theorem freeListFold_length :
    ∀ (l : List (ℤ × ℤ)) (runs : List ℤ) (cur : ℤ),
      (l.foldl freeListStep (runs, cur)).1.length ≤ runs.length + 2 * l.length := by
  intro l
  induction l with
  | nil => intro runs cur; simp
  | cons x rest ih =>
    intro runs cur
    rw [List.foldl_cons]
    have hstep : (freeListStep (runs, cur) x).1.length ≤ runs.length + 2 := by
      rw [freeListStep]
      dsimp only
      by_cases hc2 : x.2 - x.1 > 0
      · rw [if_pos hc2]
        by_cases hc1 : x.1 - cur > 0
        · rw [if_pos hc1]
          have h1 := pushOccupied_length runs ((x.1 - cur).fdiv 8)
          have h2 := pushFree_length (pushOccupied runs ((x.1 - cur).fdiv 8)) ((x.2 - x.1).fdiv 8)
          omega
        · rw [if_neg hc1]
          have := pushFree_length runs ((x.2 - x.1).fdiv 8)
          omega
      · rw [if_neg hc2]
        by_cases hc1 : x.1 - cur > 0
        · rw [if_pos hc1]
          have := pushOccupied_length runs ((x.1 - cur).fdiv 8)
          omega
        · rw [if_neg hc1]
          omega
    have hrec := ih (freeListStep (runs, cur) x).1 (freeListStep (runs, cur) x).2
    simp only [List.length_cons]
    calc (rest.foldl freeListStep (freeListStep (runs, cur) x)).1.length
        ≤ (freeListStep (runs, cur) x).1.length + 2 * rest.length := by
          have hsp : freeListStep (runs, cur) x
              = ((freeListStep (runs, cur) x).1, (freeListStep (runs, cur) x).2) := rfl
          rw [hsp] at hrec ⊢
          exact hrec
      _ ≤ runs.length + 2 * (rest.length + 1) := by omega

theorem sortedInsertByStart_length (x : ℤ × ℤ) :
    ∀ (m : List (ℤ × ℤ)), (sortedInsertByStart x m).length = m.length + 1 := by
  intro m
  induction m with
  | nil => rfl
  | cons y ys ihy =>
    rw [sortedInsertByStart]
    by_cases hc : y.1 < x.1
    · rw [if_pos hc]
      simpa using ihy
    · rw [if_neg hc]
      simp

theorem sortByStart_length (l : List (ℤ × ℤ)) : (sortByStart l).length = l.length := by
  induction l with
  | nil => rfl
  | cons x xs ihx =>
    rw [sortByStart] at ihx ⊢
    simp only [List.foldr_cons]
    rw [sortedInsertByStart_length x (xs.foldr sortedInsertByStart [])]
    simpa using ihx

theorem freeListRuns_length (size : ℕ) (l : List (ℤ × ℤ)) :
    (freeListRuns size l).length ≤ 2 * l.length + 2 := by
  rw [freeListRuns]
  have hfold := freeListFold_length (sortByStart l) [(0 : ℤ)] 0
  have hslen : (sortByStart l).length = l.length := sortByStart_length l
  rw [hslen] at hfold
  by_cases hc : ((sortByStart l).foldl freeListStep ([0], 0)).2 < (size : ℤ)
  · rw [if_pos hc]
    have := pushOccupied_length ((sortByStart l).foldl freeListStep ([0], 0)).1
      (((size : ℤ) - ((sortByStart l).foldl freeListStep ([0], 0)).2 + 7).fdiv 8)
    simp at hfold
    omega
  · rw [if_neg hc]
    simp at hfold
    omega

theorem natRuns_cons' (a : ℕ) (rest : List ℕ) : natRuns (a :: rest) = (a : ℤ) :: natRuns rest := rfl

theorem natRuns_nil : natRuns [] = [] := rfl

theorem runsBytes_single (n : ℕ) : runsBytes (natRuns [n]) = encodeVarintToBytes (n : ℤ) := by
  rw [natRuns_cons', natRuns_nil]
  simp [runsBytes]

theorem runsBytes_pair (a b : ℤ) :
    runsBytes [a, b] = encodeVarintToBytes a ++ encodeVarintToBytes b := by
  simp [runsBytes]

theorem validPage_parts (uniform : ℕ) (p : Page) (hv : validPage uniform p = true) :
    p.size < 2 ^ 32 ∧ (uniform ≠ 0 → p.size = uniform) ∧
      (if truthy p.bitmap then bitmapOk (p.bitmap.getD "")
       else
         match p.freeList with
         | some l => validRanges p.size 0 l && decide (l.length < 2 ^ 20)
         | none =>
           match p.occupancy with
           | some o => decide (0 ≤ o) && decide (o ≤ 1) && (p.size % 8 == 0)
           | none => true) = true := by
  rw [validPage] at hv
  simp only [Bool.and_eq_true, decide_eq_true_eq] at hv
  refine ⟨hv.1.1, ?_, hv.2⟩
  intro hu
  have h2 := hv.1.2
  rw [if_pos hu] at h2
  exact by simpa using h2

theorem validPage_effSize (uniform : ℕ) (p : Page) (hv : validPage uniform p = true) :
    (if p.size ≠ 0 then p.size else uniform) = p.size := by
  by_cases hu : uniform = 0
  · by_cases hs : p.size ≠ 0
    · rw [if_pos hs]
    · rw [if_neg hs, hu]
      omega
  · have hsu := (validPage_parts uniform p hv).2.1 hu
    rw [if_pos (by omega)]

theorem pageRLE_spec (uniform : ℕ) (p : Page) (hv : validPage uniform p = true) :
    getBitmapRLEBuffer (if p.size ≠ 0 then p.size else uniform) p.freeList p.bitmap p.occupancy
      = runsBytes (natRuns (pageRuns p.size p)) ∧
      (∀ r ∈ pageRuns p.size p, r < 2 ^ 32) ∧
      (runsBytes (natRuns (pageRuns p.size p))).length < 2 ^ 32 := by
  obtain ⟨hsize, -, hrep⟩ := validPage_parts uniform p hv
  rw [validPage_effSize uniform p hv]
  by_cases hbm : truthy p.bitmap = true
  · rw [if_pos hbm] at hrep
    rw [getBitmapRLEBuffer.eq_def, if_pos hbm, pageRuns, if_pos hbm]
    rw [bitmapOk] at hrep
    cases hlb : lebDecomp (hexToBytes (p.bitmap.getD "")) with
    | none => rw [hlb] at hrep; simp at hrep
    | some runs =>
      rw [hlb] at hrep
      simp only [Bool.and_eq_true, List.all_eq_true, decide_eq_true_eq] at hrep
      have hbe : runsBytes (natRuns runs) = hexToBytes (p.bitmap.getD "") :=
        eq_of_beq hrep.1.2
      simp only [Option.getD_some]
      refine ⟨hbe.symm, ?_, ?_⟩
      · intro r hr
        exact hrep.1.1 r hr
      · rw [hbe]
        exact hrep.2
  · rw [if_neg hbm] at hrep
    rw [getBitmapRLEBuffer.eq_def, if_neg hbm, pageRuns, if_neg hbm]
    cases hfl : p.freeList with
    | some l =>
      dsimp only
      rw [hfl] at hrep
      simp only [Bool.and_eq_true, decide_eq_true_eq] at hrep
      have hspec := freeListRuns_spec p.size hsize l hrep.1
      have hnn := hspec.1
      have hlt := hspec.2.1
      have heq : natRuns ((freeListRuns p.size l).map Int.toNat) = freeListRuns p.size l :=
        natRuns_toNat _ hnn
      rw [heq]
      refine ⟨rfl, ?_, ?_⟩
      · intro r hr
        obtain ⟨x, hx, rfl⟩ := List.mem_map.mp hr
        have h1 := hlt x hx
        have h2 := hnn x hx
        omega
      · have hlen1 := runsBytes_len_le ((freeListRuns p.size l).map Int.toNat) (by
          intro r hr
          obtain ⟨x, hx, rfl⟩ := List.mem_map.mp hr
          have h1 := hlt x hx
          have h2 := hnn x hx
          omega)
        rw [heq] at hlen1
        have hlen2 := freeListRuns_length p.size l
        have hlen3 : ((freeListRuns p.size l).map Int.toNat).length
            = (freeListRuns p.size l).length := by simp
        have hll := hrep.2
        omega
    | none =>
      rw [hfl] at hrep
      have htb : (p.size + 7) / 8 < 2 ^ 32 := by omega
      cases hoc : p.occupancy with
      | some o =>
        dsimp only
        rw [hoc] at hrep
        simp only [Bool.and_eq_true, decide_eq_true_eq] at hrep
        obtain ⟨⟨ho0, ho1⟩, -⟩ := hrep
        by_cases hlt1 : 0 ≤ o ∧ o < 1
        · simp only [if_pos hlt1]
          set t : ℕ := (p.size + 7) / 8 with ht
          have hf0 : 0 ≤ ⌊(t : ℚ) * o⌋ := Int.floor_nonneg.mpr (mul_nonneg (by positivity) ho0)
          have hft : ⌊(t : ℚ) * o⌋ ≤ (t : ℤ) := by
            have hle : (t : ℚ) * o ≤ (t : ℚ) := mul_le_of_le_one_right (by positivity) ho1
            calc ⌊(t : ℚ) * o⌋ ≤ ⌊(t : ℚ)⌋ := Int.floor_le_floor hle
              _ = (t : ℤ) := Int.floor_natCast t
          have htn : ((t : ℤ)).toNat = t := rfl
          have hcast1 : ((⌊(t : ℚ) * o⌋.toNat : ℕ) : ℤ) = ⌊(t : ℚ) * o⌋ :=
            Int.toNat_of_nonneg hf0
          have hcast2 : ((t - ⌊(t : ℚ) * o⌋.toNat : ℕ) : ℤ) = (t : ℤ) - ⌊(t : ℚ) * o⌋ := by
            have hle : ⌊(t : ℚ) * o⌋.toNat ≤ t := by omega
            push_cast [hle]
            omega
          have hruns : natRuns [⌊(t : ℚ) * o⌋.toNat, ((t : ℤ)).toNat - ⌊(t : ℚ) * o⌋.toNat]
              = [⌊(t : ℚ) * o⌋, (t : ℤ) - ⌊(t : ℚ) * o⌋] := by
            rw [htn, natRuns_cons', natRuns_cons', natRuns_nil, hcast1, hcast2]
          rw [hruns, runsBytes_pair]
          refine ⟨rfl, ?_, ?_⟩
          · intro r hr
            simp only [htn, List.mem_cons, List.not_mem_nil, or_false] at hr
            rcases hr with rfl | rfl <;> omega
          · simp only [List.length_append]
            have hb1 : (encodeVarintToBytes ⌊(t : ℚ) * o⌋).length ≤ 5 := by
              rw [← hcast1]
              exact varintLen_le5 _ (by omega)
            have hb2 : (encodeVarintToBytes ((t : ℤ) - ⌊(t : ℚ) * o⌋)).length ≤ 5 := by
              rw [← hcast2]
              exact varintLen_le5 _ (by omega)
            omega
        · simp only [if_neg hlt1]
          rw [runsBytes_single]
          refine ⟨rfl, ?_, ?_⟩
          · intro r hr
            simp only [List.mem_cons, List.not_mem_nil, or_false] at hr
            rw [hr]
            exact htb
          · have hb1 := varintLen_le5 ((p.size + 7) / 8) htb
            omega
      | none =>
        dsimp only
        rw [runsBytes_single]
        refine ⟨rfl, ?_, ?_⟩
        · intro r hr
          simp only [List.mem_cons, List.not_mem_nil, or_false] at hr
          rw [hr]
          exact htb
        · have hb1 := varintLen_le5 ((p.size + 7) / 8) htb
          omega

theorem parsePageTail_spec (szVal : ℕ) (q : ℚ) (runs : List ℕ)
    (hrlt : ∀ r ∈ runs, r < 2 ^ 32)
    (hrlen : (runsBytes (natRuns runs)).length < 2 ^ 32) (pre2 post2 : List Cell) :
    (do
      let occ ← readFloat32 (pre2 ++ [Cell.f32 q] ++ varintCells (runsBytes (natRuns runs)).length ++
        (runsBytes (natRuns runs)).map Cell.byte ++ post2) pre2.length
      let rleLen ← readVarint (pre2 ++ [Cell.f32 q] ++ varintCells (runsBytes (natRuns runs)).length ++
        (runsBytes (natRuns runs)).map Cell.byte ++ post2) occ.2
      let fl ← readBitmapFreeList (pre2 ++ [Cell.f32 q] ++ varintCells (runsBytes (natRuns runs)).length ++
        (runsBytes (natRuns runs)).map Cell.byte ++ post2) rleLen.2 rleLen.1
      pure ({ size := szVal, occupancy := if occ.1 = -1 then none else some occ.1,
              freeList := some fl.1, bitmap := none }, fl.2) : Except String (Page × ℕ))
      = .ok ({ size := szVal, occupancy := if q = -1 then none else some q,
               freeList := some (rleFreeRanges 0 0 runs), bitmap := none },
             pre2.length + 1 + (varintCells (runsBytes (natRuns runs)).length).length
               + (runsBytes (natRuns runs)).length) := by
  have hshape1 : pre2 ++ [Cell.f32 q] ++ varintCells (runsBytes (natRuns runs)).length ++
      (runsBytes (natRuns runs)).map Cell.byte ++ post2
      = pre2 ++ [Cell.f32 q] ++ (varintCells (runsBytes (natRuns runs)).length ++
        ((runsBytes (natRuns runs)).map Cell.byte ++ post2)) := by
    simp
  rw [hshape1, readFloat32_spec q pre2 _, except_bind_ok]
  dsimp only
  have hshape2 : pre2 ++ [Cell.f32 q] ++ (varintCells (runsBytes (natRuns runs)).length ++
      ((runsBytes (natRuns runs)).map Cell.byte ++ post2))
      = (pre2 ++ [Cell.f32 q]) ++ varintCells (runsBytes (natRuns runs)).length ++
        ((runsBytes (natRuns runs)).map Cell.byte ++ post2) := by
    simp
  have hoff2 : pre2.length + 1 = (pre2 ++ [Cell.f32 q]).length := by
    simp
  rw [hshape2, hoff2,
    readVarint_spec (runsBytes (natRuns runs)).length hrlen (pre2 ++ [Cell.f32 q]) _,
    except_bind_ok]
  dsimp only
  have hshape3 : (pre2 ++ [Cell.f32 q]) ++ varintCells (runsBytes (natRuns runs)).length ++
      ((runsBytes (natRuns runs)).map Cell.byte ++ post2)
      = ((pre2 ++ [Cell.f32 q]) ++ varintCells (runsBytes (natRuns runs)).length) ++
        (runsBytes (natRuns runs)).map Cell.byte ++ post2 := by
    simp
  have hoff3 : (pre2 ++ [Cell.f32 q]).length + (varintCells (runsBytes (natRuns runs)).length).length
      = ((pre2 ++ [Cell.f32 q]) ++ varintCells (runsBytes (natRuns runs)).length).length := by
    simp only [List.length_append, List.length_cons, List.length_nil]
    try omega
  rw [hshape3, hoff3, readBitmapFreeList_spec runs hrlt _ post2, except_bind_ok]
  dsimp only
  rw [except_pure_eq]

theorem parsePage_spec (uniform : ℕ) (p : Page) (hv : validPage uniform p = true)
    (pre post : List Cell) :
    parsePage uniform (pre ++ encodePageCells uniform p ++ post) pre.length
      = .ok (decodedPage uniform p, pre.length + (encodePageCells uniform p).length) := by
  obtain ⟨heq, hrlt, hrlen⟩ := pageRLE_spec uniform p hv
  have hE : encodePageCells uniform p
      = (if uniform = 0 then varintCells p.size else []) ++
          [Cell.f32 (p.occupancy.getD (-1))] ++
          varintCells (runsBytes (natRuns (pageRuns p.size p))).length ++
          (runsBytes (natRuns (pageRuns p.size p))).map Cell.byte := by
    rw [encodePageCells]
    rw [heq]
  have hsize : p.size < 2 ^ 32 := (validPage_parts uniform p hv).1
  rw [parsePage, hE]
  by_cases hu : uniform = 0
  · rw [if_pos hu, if_pos hu]
    have hshape : pre ++ (varintCells p.size ++ [Cell.f32 (p.occupancy.getD (-1))] ++
        varintCells (runsBytes (natRuns (pageRuns p.size p))).length ++
        (runsBytes (natRuns (pageRuns p.size p))).map Cell.byte) ++ post
        = pre ++ varintCells p.size ++ ([Cell.f32 (p.occupancy.getD (-1))] ++
          (varintCells (runsBytes (natRuns (pageRuns p.size p))).length ++
          ((runsBytes (natRuns (pageRuns p.size p))).map Cell.byte ++ post))) := by
      simp
    rw [hshape, readVarint_spec p.size hsize pre _, except_bind_ok]
    dsimp only
    have hshape2 : pre ++ varintCells p.size ++ ([Cell.f32 (p.occupancy.getD (-1))] ++
        (varintCells (runsBytes (natRuns (pageRuns p.size p))).length ++
        ((runsBytes (natRuns (pageRuns p.size p))).map Cell.byte ++ post)))
        = (pre ++ varintCells p.size) ++ [Cell.f32 (p.occupancy.getD (-1))] ++
          varintCells (runsBytes (natRuns (pageRuns p.size p))).length ++
          (runsBytes (natRuns (pageRuns p.size p))).map Cell.byte ++ post := by
      simp
    have hoff : pre.length + (varintCells p.size).length = (pre ++ varintCells p.size).length := by
      simp
    rw [hshape2, hoff, parsePageTail_spec p.size (p.occupancy.getD (-1)) (pageRuns p.size p)
      hrlt hrlen (pre ++ varintCells p.size) post]
    rw [decodedPage, if_pos hu]
    congr 2
    simp
    omega
  · rw [if_neg hu, if_neg hu]
    rw [except_pure_eq, except_bind_ok]
    dsimp only
    have hshape : pre ++ ([] ++ [Cell.f32 (p.occupancy.getD (-1))] ++
        varintCells (runsBytes (natRuns (pageRuns p.size p))).length ++
        (runsBytes (natRuns (pageRuns p.size p))).map Cell.byte) ++ post
        = pre ++ [Cell.f32 (p.occupancy.getD (-1))] ++
          varintCells (runsBytes (natRuns (pageRuns p.size p))).length ++
          (runsBytes (natRuns (pageRuns p.size p))).map Cell.byte ++ post := by
      simp
    rw [hshape, parsePageTail_spec uniform (p.occupancy.getD (-1)) (pageRuns p.size p)
      hrlt hrlen pre post]
    rw [decodedPage, if_neg hu]
    congr 2
    simp
    omega

theorem getIndex_small (t : StringTable) (str : Option String)
    (hsmall : smallList t.list) (hstr : (str.getD "").utf8ByteSize < 2 ^ 32) :
    smallList (t.getIndex str).2.list := by
  rw [StringTable.getIndex]
  cases hl : t.strings.lookup (str.getD "") with
  | some i => exact hsmall
  | none =>
    intro s hs
    rcases List.mem_append.mp hs with h1 | h2
    · exact hsmall s h1
    · have : s = str.getD "" := by simpa using h2
      rw [this]
      exact hstr

theorem getIndex_table (t : StringTable) (str : Option String) (hInv : TableInv t)
    (hsmall : smallList t.list) (hstr : (str.getD "").utf8ByteSize < 2 ^ 32) :
    TableInv (t.getIndex str).2 ∧ tableExtends t.list (t.getIndex str).2.list ∧
      smallList (t.getIndex str).2.list ∧
      ∀ L, tableExtends (t.getIndex str).2.list L → L.get? (t.getIndex str).1 = some (str.getD "") := by
  obtain ⟨hget, hext, hInv'⟩ := getIndex_spec t str hInv
  exact ⟨hInv', hext, getIndex_small t str hsmall hstr,
    fun L hL => tableExtends_get hL hget⟩

theorem encodePageType_table (t : StringTable) (pt : PageType) (hInv : TableInv t)
    (hsm : smallList t.list) (hv : validPageType pt = true) :
    TableInv (encodePageTypeCells t pt).2 ∧
      tableExtends t.list (encodePageTypeCells t pt).2.list ∧
      smallList (encodePageTypeCells t pt).2.list := by
  rw [validPageType] at hv
  simp only [Bool.and_eq_true] at hv
  have hname : pt.name.utf8ByteSize < 2 ^ 32 := by
    have := hv.1.1.1
    rw [validString] at this
    exact of_decide_eq_true this
  have h := getIndex_table t (some pt.name) hInv hsm (by simpa using hname)
  rw [encodePageTypeCells]
  exact ⟨h.1, h.2.1, h.2.2.1⟩

theorem encodePageTypes_table :
    ∀ (pts : List PageType) (t : StringTable), TableInv t → smallList t.list →
      pts.all validPageType = true →
      TableInv (encodePageTypesCells t pts).2 ∧
        tableExtends t.list (encodePageTypesCells t pts).2.list ∧
        smallList (encodePageTypesCells t pts).2.list := by
  intro pts
  induction pts with
  | nil => intro t hInv hsm _; exact ⟨hInv, tableExtends_refl _, hsm⟩
  | cons pt rest ih =>
    intro t hInv hsm hall
    simp only [List.all_cons, Bool.and_eq_true] at hall
    have h1 := encodePageType_table t pt hInv hsm hall.1
    have h2 := ih (encodePageTypeCells t pt).2 h1.1 h1.2.2 (by
      simp only [List.all_eq_true] at hall ⊢
      exact hall.2)
    rw [encodePageTypesCells]
    exact ⟨h2.1, tableExtends_trans h1.2.1 h2.2.1, h2.2.2⟩

theorem encodeMeta_table (t : StringTable) (m : MetaBag) (hInv : TableInv t)
    (hsm : smallList t.list) (hv : validMeta m = true) :
    TableInv (encodeMetaCells t m).2 ∧ tableExtends t.list (encodeMetaCells t m).2.list ∧
      smallList (encodeMetaCells t m).2.list := by
  rw [validMeta] at hv
  simp only [Bool.and_eq_true] at hv
  have hev : (m.event.getD "").utf8ByteSize < 2 ^ 32 := by
    rcases he : m.event with _ | e
    · decide
    · have := hv.1
      rw [he] at this
      dsimp only at this
      rw [validString] at this
      simpa using of_decide_eq_true this
  rw [encodeMetaCells]
  have hev2 : TableInv (if truthy m.event then
        let n := t.getIndex m.event
        (varintCells (n.1 + 1), n.2)
      else (varintCells 0, t)).2 ∧
      tableExtends t.list (if truthy m.event then
        let n := t.getIndex m.event
        (varintCells (n.1 + 1), n.2)
      else (varintCells 0, t)).2.list ∧
      smallList (if truthy m.event then
        let n := t.getIndex m.event
        (varintCells (n.1 + 1), n.2)
      else (varintCells 0, t)).2.list := by
    by_cases htr : truthy m.event = true
    · rw [if_pos htr]
      have h := getIndex_table t m.event hInv hsm hev
      exact ⟨h.1, h.2.1, h.2.2.1⟩
    · rw [if_neg htr]
      exact ⟨hInv, tableExtends_refl _, hsm⟩
  set ev := (if truthy m.event then
      let n := t.getIndex m.event
      (varintCells (n.1 + 1), n.2)
    else (varintCells 0, t)) with hevdef
  rcases hm : m.memory with _ | mem
  · exact hev2
  · have hpt : mem.pageTypes.all validPageType = true := by
      have := hv.2
      rw [hm] at this
      simp only [Bool.and_eq_true] at this
      exact this.2
    have h2 := encodePageTypes_table mem.pageTypes ev.2 hev2.1 hev2.2.2 hpt
    exact ⟨h2.1, tableExtends_trans hev2.2.1 h2.2.1, h2.2.2⟩

theorem encodePoint_table (t : StringTable) (p : DataPoint) (hInv : TableInv t)
    (hsm : smallList t.list) (hv : validPoint p = true) :
    TableInv (encodePointCells t p).2 ∧ tableExtends t.list (encodePointCells t p).2.list ∧
      smallList (encodePointCells t p).2.list := by
  rw [validPoint] at hv
  simp only [Bool.and_eq_true] at hv
  have hnm : (p.name.getD "").utf8ByteSize < 2 ^ 32 := by
    rcases hn : p.name with _ | nm
    · decide
    · have := hv.1.1.2
      rw [hn] at this
      dsimp only at this
      rw [validString] at this
      simpa using of_decide_eq_true this
  rw [encodePointCells]
  have hnm2 : TableInv (if truthy p.name then
        let n := t.getIndex p.name
        (varintCells n.1, n.2)
      else ([], t)).2 ∧
      tableExtends t.list (if truthy p.name then
        let n := t.getIndex p.name
        (varintCells n.1, n.2)
      else ([], t)).2.list ∧
      smallList (if truthy p.name then
        let n := t.getIndex p.name
        (varintCells n.1, n.2)
      else ([], t)).2.list := by
    by_cases htr : truthy p.name = true
    · rw [if_pos htr]
      have h := getIndex_table t p.name hInv hsm hnm
      exact ⟨h.1, h.2.1, h.2.2.1⟩
    · rw [if_neg htr]
      exact ⟨hInv, tableExtends_refl _, hsm⟩
  set nm := (if truthy p.name then
      let n := t.getIndex p.name
      (varintCells n.1, n.2)
    else ([], t)) with hnmdef
  rcases hmt : p.meta with _ | m
  · exact hnm2
  · have hvm : validMeta m = true := by
      have := hv.2
      rw [hmt] at this
      exact this
    have h2 := encodeMeta_table nm.2 m hnm2.1 hnm2.2.2 hvm
    exact ⟨h2.1, tableExtends_trans hnm2.2.1 h2.2.1, h2.2.2⟩

theorem encodePoints_table :
    ∀ (ps : List DataPoint) (t : StringTable), TableInv t → smallList t.list →
      ps.all validPoint = true →
      TableInv (encodePointsCells t ps).2 ∧
        tableExtends t.list (encodePointsCells t ps).2.list ∧
        smallList (encodePointsCells t ps).2.list := by
  intro ps
  induction ps with
  | nil => intro t hInv hsm _; exact ⟨hInv, tableExtends_refl _, hsm⟩
  | cons p rest ih =>
    intro t hInv hsm hall
    simp only [List.all_cons, Bool.and_eq_true] at hall
    have h1 := encodePoint_table t p hInv hsm hall.1
    have h2 := ih (encodePointCells t p).2 h1.1 h1.2.2 (by
      simp only [List.all_eq_true] at hall ⊢
      exact hall.2)
    rw [encodePointsCells]
    exact ⟨h2.1, tableExtends_trans h1.2.1 h2.2.1, h2.2.2⟩

theorem encodeSeries_table (g : ℕ → String) (t : StringTable) (k : ℕ) (s : MemorySeries)
    (hInv : TableInv t) (hsm : smallList t.list) (hv : validSeries s = true) :
    TableInv (encodeSeriesCells g t k s).2.1 ∧
      tableExtends t.list (encodeSeriesCells g t k s).2.1.list ∧
      smallList (encodeSeriesCells g t k s).2.1.list := by
  rw [validSeries] at hv
  simp only [Bool.and_eq_true] at hv
  have hnm : s.name.utf8ByteSize < 2 ^ 32 := by
    have := hv.1.1.1.2
    rw [validString] at this
    exact of_decide_eq_true this
  have hco : (if s.color == "" then "#000000" else s.color).utf8ByteSize < 2 ^ 32 := by
    have := hv.1.1.2
    rw [validString] at this
    exact of_decide_eq_true this
  rw [encodeSeriesCells]
  have h1 := getIndex_table t (some s.name) hInv hsm (by simpa using hnm)
  have h2 := getIndex_table (t.getIndex (some s.name)).2
    (some (if s.color == "" then "#000000" else s.color)) h1.1 h1.2.2.1 (by simpa using hco)
  have h3 := encodePoints_table s.data ((t.getIndex (some s.name)).2.getIndex
    (some (if s.color == "" then "#000000" else s.color))).2 h2.1 h2.2.2.1 (by
      simp only [List.all_eq_true] at *
      exact hv.2)
  exact ⟨h3.1, tableExtends_trans h1.2.1 (tableExtends_trans h2.2.1 h3.2.1), h3.2.2⟩

theorem encodeSeriesList_table (g : ℕ → String) :
    ∀ (l : List MemorySeries) (t : StringTable) (k : ℕ), TableInv t → smallList t.list →
      l.all validSeries = true →
      TableInv (encodeSeriesListCells g t k l).2.1 ∧
        tableExtends t.list (encodeSeriesListCells g t k l).2.1.list ∧
        smallList (encodeSeriesListCells g t k l).2.1.list := by
  intro l
  induction l with
  | nil => intro t k hInv hsm _; exact ⟨hInv, tableExtends_refl _, hsm⟩
  | cons s rest ih =>
    intro t k hInv hsm hall
    simp only [List.all_cons, Bool.and_eq_true] at hall
    have h1 := encodeSeries_table g t k s hInv hsm hall.1
    have h2 := ih (encodeSeriesCells g t k s).2.1 (encodeSeriesCells g t k s).2.2 h1.1 h1.2.2 (by
      simp only [List.all_eq_true] at hall ⊢
      exact hall.2)
    rw [encodeSeriesListCells]
    exact ⟨h2.1, tableExtends_trans h1.2.1 h2.2.1, h2.2.2⟩

/-!  ## Parse-after-write: page lists and page types -/

theorem parsePages_spec (uniform : ℕ) :
    ∀ (ps : List Page), ps.all (validPage uniform) = true →
      ∀ (pre post : List Cell),
      parsePages uniform (pre ++ ps.flatMap (encodePageCells uniform) ++ post) ps.length pre.length
        = .ok (ps.map (decodedPage uniform),
            pre.length + (ps.flatMap (encodePageCells uniform)).length) := by
  intro ps
  induction ps with
  | nil =>
    intro _ pre post
    simp only [List.length_nil, List.flatMap_nil, parsePages]
    simp
  | cons p rest ih =>
    intro hv pre post
    simp only [List.all_cons, Bool.and_eq_true] at hv
    rw [List.flatMap_cons]
    simp only [List.length_cons, parsePages]
    have hshape : pre ++ (encodePageCells uniform p ++ rest.flatMap (encodePageCells uniform)) ++ post
        = pre ++ encodePageCells uniform p ++ (rest.flatMap (encodePageCells uniform) ++ post) := by
      simp
    rw [hshape, parsePage_spec uniform p hv.1 pre _, except_bind_ok]
    dsimp only
    have hshape2 : pre ++ encodePageCells uniform p ++ (rest.flatMap (encodePageCells uniform) ++ post)
        = (pre ++ encodePageCells uniform p) ++ rest.flatMap (encodePageCells uniform) ++ post := by
      simp
    have hoff : pre.length + (encodePageCells uniform p).length
        = (pre ++ encodePageCells uniform p).length := by
      simp
    rw [hshape2, hoff, ih (by simp only [List.all_eq_true] at hv ⊢; exact hv.2)
      (pre ++ encodePageCells uniform p) post, except_bind_ok, except_pure_eq]
    dsimp only
    congr 2
    simp
    omega

theorem parsePageType_spec (L : List String) (t : StringTable) (pt : PageType)
    (hInv : TableInv t) (hsm : smallList t.list) (hv : validPageType pt = true)
    (hL : L.length < 2 ^ 32)
    (hext : tableExtends (encodePageTypeCells t pt).2.list L)
    (pre post : List Cell) :
    parsePageType L (pre ++ (encodePageTypeCells t pt).1 ++ post) pre.length
      = .ok (decodedPageType pt, pre.length + (encodePageTypeCells t pt).1.length) := by
  have hvparts := hv
  rw [validPageType] at hvparts
  simp only [Bool.and_eq_true] at hvparts
  have hnm : pt.name.utf8ByteSize < 2 ^ 32 := by
    have := hvparts.1.1.1
    rw [validString] at this
    exact of_decide_eq_true this
  have hres := (getIndex_table t (some pt.name) hInv hsm (by simpa using hnm)).2.2.2 L
    (by rw [encodePageTypeCells] at hext; exact hext)
  have hidx : (t.getIndex (some pt.name)).1 < 2 ^ 32 := by
    obtain ⟨hlt, -⟩ := List.get?_eq_some.mp hres
    omega
  have huval : (match pt.uniformPageSize with | some u => u | none => 0) < 2 ^ 32 := by
    rcases hu : pt.uniformPageSize with _ | u
    · norm_num
    · have := hvparts.1.1.2
      rw [hu] at this
      simpa using of_decide_eq_true this
  have hpcount : pt.pages.length < 2 ^ 32 := of_decide_eq_true hvparts.1.2
  have hcells : (encodePageTypeCells t pt).1
      = varintCells (t.getIndex (some pt.name)).1 ++
          varintCells (match pt.uniformPageSize with | some u => u | none => 0) ++
          varintCells pt.pages.length ++
          pt.pages.flatMap (encodePageCells
            (match pt.uniformPageSize with | some u => u | none => 0)) := by
    rw [encodePageTypeCells]
  set idx := (t.getIndex (some pt.name)).1 with hidxdef
  set u := (match pt.uniformPageSize with | some u => u | none => 0) with hudef
  rw [parsePageType, hcells]
  have hs1 : pre ++ (varintCells idx ++ varintCells u ++ varintCells pt.pages.length ++
      pt.pages.flatMap (encodePageCells u)) ++ post
      = pre ++ varintCells idx ++ (varintCells u ++ (varintCells pt.pages.length ++
        (pt.pages.flatMap (encodePageCells u) ++ post))) := by
    simp
  rw [hs1, readVarint_spec idx hidx pre _, except_bind_ok]
  dsimp only
  have hs2 : pre ++ varintCells idx ++ (varintCells u ++ (varintCells pt.pages.length ++
      (pt.pages.flatMap (encodePageCells u) ++ post)))
      = (pre ++ varintCells idx) ++ varintCells u ++ (varintCells pt.pages.length ++
        (pt.pages.flatMap (encodePageCells u) ++ post)) := by
    simp
  have ho2 : pre.length + (varintCells idx).length = (pre ++ varintCells idx).length := by
    simp
  rw [hs2, ho2, readVarint_spec u huval (pre ++ varintCells idx) _, except_bind_ok]
  dsimp only
  have hs3 : (pre ++ varintCells idx) ++ varintCells u ++ (varintCells pt.pages.length ++
      (pt.pages.flatMap (encodePageCells u) ++ post))
      = ((pre ++ varintCells idx) ++ varintCells u) ++ varintCells pt.pages.length ++
        (pt.pages.flatMap (encodePageCells u) ++ post) := by
    simp
  have ho3 : (pre ++ varintCells idx).length + (varintCells u).length
      = ((pre ++ varintCells idx) ++ varintCells u).length := by
    simp only [List.length_append]
    try omega
  rw [hs3, ho3, readVarint_spec pt.pages.length hpcount ((pre ++ varintCells idx) ++ varintCells u) _,
    except_bind_ok]
  dsimp only
  have hs4 : ((pre ++ varintCells idx) ++ varintCells u) ++ varintCells pt.pages.length ++
      (pt.pages.flatMap (encodePageCells u) ++ post)
      = (((pre ++ varintCells idx) ++ varintCells u) ++ varintCells pt.pages.length) ++
        pt.pages.flatMap (encodePageCells u) ++ post := by
    simp
  have ho4 : ((pre ++ varintCells idx) ++ varintCells u).length + (varintCells pt.pages.length).length
      = (((pre ++ varintCells idx) ++ varintCells u) ++ varintCells pt.pages.length).length := by
    simp only [List.length_append]
    try omega
  rw [hs4, ho4, parsePages_spec u pt.pages hvparts.2 _ post, except_bind_ok, except_pure_eq]
  dsimp only
  rw [decodedPageType]
  congr 2
  · congr 1
    · rw [hres]
      simp
  · simp
    try omega

theorem parsePageTypes_spec (L : List String) (hL : L.length < 2 ^ 32) :
    ∀ (pts : List PageType) (t : StringTable), TableInv t → smallList t.list →
      pts.all validPageType = true →
      tableExtends (encodePageTypesCells t pts).2.list L →
      ∀ (pre post : List Cell),
      parsePageTypes L (pre ++ (encodePageTypesCells t pts).1 ++ post) pts.length pre.length
        = .ok (pts.map decodedPageType, pre.length + (encodePageTypesCells t pts).1.length) := by
  intro pts
  induction pts with
  | nil =>
    intro t _ _ _ _ pre post
    rw [encodePageTypesCells]
    simp only [List.length_nil, parsePageTypes]
    simp
  | cons pt rest ih =>
    intro t hInv hsm hall hext pre post
    simp only [List.all_cons, Bool.and_eq_true] at hall
    have htt := encodePageType_table t pt hInv hsm hall.1
    have htr := encodePageTypes_table rest (encodePageTypeCells t pt).2 htt.1 htt.2.2 (by
      simp only [List.all_eq_true] at hall ⊢
      exact hall.2)
    have hcells : (encodePageTypesCells t (pt :: rest)).1
        = (encodePageTypeCells t pt).1 ++ (encodePageTypesCells (encodePageTypeCells t pt).2 rest).1 := by
      rw [encodePageTypesCells]
    have htab : (encodePageTypesCells t (pt :: rest)).2
        = (encodePageTypesCells (encodePageTypeCells t pt).2 rest).2 := by
      rw [encodePageTypesCells]
    rw [htab] at hext
    rw [hcells]
    simp only [List.length_cons, parsePageTypes]
    have hshape : pre ++ ((encodePageTypeCells t pt).1 ++
        (encodePageTypesCells (encodePageTypeCells t pt).2 rest).1) ++ post
        = pre ++ (encodePageTypeCells t pt).1 ++
          ((encodePageTypesCells (encodePageTypeCells t pt).2 rest).1 ++ post) := by
      simp
    rw [hshape, parsePageType_spec L t pt hInv hsm hall.1 hL
      (tableExtends_trans htr.2.1 hext) pre _, except_bind_ok]
    dsimp only
    have hshape2 : pre ++ (encodePageTypeCells t pt).1 ++
        ((encodePageTypesCells (encodePageTypeCells t pt).2 rest).1 ++ post)
        = (pre ++ (encodePageTypeCells t pt).1) ++
          (encodePageTypesCells (encodePageTypeCells t pt).2 rest).1 ++ post := by
      simp
    have hoff : pre.length + (encodePageTypeCells t pt).1.length
        = (pre ++ (encodePageTypeCells t pt).1).length := by
      simp
    rw [hshape2, hoff, ih (encodePageTypeCells t pt).2 htt.1 htt.2.2 (by
        simp only [List.all_eq_true] at hall ⊢
        exact hall.2) hext (pre ++ (encodePageTypeCells t pt).1) post,
      except_bind_ok, except_pure_eq]
    dsimp only
    congr 2
    simp
    omega

/-!  ## Parse-after-write: points -/

theorem flagBit0 (a b c : Bool) :
    ((((if a then 1 else 0) + (if b then 2 else 0) + (if c then 4 else 0) : ℕ)) % 2 = 1) ↔ a = true := by
  cases a <;> cases b <;> cases c <;> decide

theorem flagBit1 (a b c : Bool) :
    ((((if a then 1 else 0) + (if b then 2 else 0) + (if c then 4 else 0) : ℕ)) / 2 % 2 = 1) ↔ b = true := by
  cases a <;> cases b <;> cases c <;> decide

theorem flagBit2 (a b c : Bool) :
    ((((if a then 1 else 0) + (if b then 2 else 0) + (if c then 4 else 0) : ℕ)) / 4 % 2 = 1) ↔ c = true := by
  cases a <;> cases b <;> cases c <;> decide

theorem canonicalUuid_parts (s : String) (h : canonicalUuid s = true) :
    ∃ bs, parseUuidM s = some bs ∧ bs.length = 16 ∧ bs.all (· = 0) = false ∧
      uuidStringifyM bs = s := by
  rw [canonicalUuid] at h
  cases hp : parseUuidM s with
  | none => rw [hp] at h; simp at h
  | some bs =>
    rw [hp] at h
    simp only [Bool.and_eq_true, Bool.not_eq_true', decide_eq_true_eq] at h
    exact ⟨bs, rfl, h.1.1, h.1.2, eq_of_beq h.2⟩

theorem encodeMetaCells_eq (t : StringTable) (m : MetaBag) :
    encodeMetaCells t m
      = (metaEvCells t m ++ (match m.memory with
          | some mem => [Cell.byte 1] ++ varintCells mem.pageTypes.length ++
              (encodePageTypesCells (metaT1 t m) mem.pageTypes).1
          | none => [Cell.byte 0]),
        match m.memory with
          | some mem => (encodePageTypesCells (metaT1 t m) mem.pageTypes).2
          | none => metaT1 t m) := by
  by_cases he : truthy m.event = true <;> cases hm : m.memory <;>
    simp [encodeMetaCells, metaEvCells, metaT1, he, hm]

theorem encodePointCells_eq (t : StringTable) (p : DataPoint) :
    encodePointCells t p
      = ([Cell.f64 p.timestamp, Cell.f64 p.value, Cell.byte (pointFlags p)] ++
          pointNmCells t p ++ pointPidCells p ++ pointMtCells t p,
        pointT2 t p) := by
  by_cases hn : truthy p.name = true <;> by_cases hp : truthy p.pointId = true <;>
    cases hm : p.meta <;>
    simp [encodePointCells, pointFlags, pointT1, pointNmCells, pointPidCells,
      pointMtCells, pointT2, hn, hp, hm]

theorem pointFlags_bit0 (p : DataPoint) :
    (pointFlags p % 2 = 1) ↔ p.meta.isSome = true := by
  rw [pointFlags]; exact flagBit0 _ _ _

theorem pointFlags_bit1 (p : DataPoint) :
    (pointFlags p / 2 % 2 = 1) ↔ truthy p.name = true := by
  rw [pointFlags]; exact flagBit1 _ _ _

theorem pointFlags_bit2 (p : DataPoint) :
    (pointFlags p / 4 % 2 = 1) ↔ truthy p.pointId = true := by
  rw [pointFlags]; exact flagBit2 _ _ _

theorem parseNmSeg_spec (L : List String) (t : StringTable) (p : DataPoint)
    (hInv : TableInv t) (hsm : smallList t.list)
    (hnm : (p.name.getD "").utf8ByteSize < 2 ^ 32)
    (hL : L.length < 2 ^ 32)
    (hextL : tableExtends (pointT1 t p).list L)
    (pre post : List Cell) :
    parseNmSeg L (pre ++ pointNmCells t p ++ post) pre.length (truthy p.name = true)
      = .ok ((if truthy p.name then p.name else none : Option String),
          pre.length + (pointNmCells t p).length) := by
  by_cases hn : truthy p.name = true
  · have hN : pointNmCells t p = varintCells (t.getIndex p.name).1 := by
      rw [pointNmCells, if_pos hn]
    rw [parseNmSeg, if_pos hn, hN]
    have hextI : tableExtends (t.getIndex p.name).2.list L := by
      rw [pointT1, if_pos hn] at hextL
      exact hextL
    have hres := (getIndex_table t p.name hInv hsm hnm).2.2.2 L hextI
    have hidx : (t.getIndex p.name).1 < 2 ^ 32 := by
      obtain ⟨hlt, -⟩ := List.get?_eq_some.mp hres
      omega
    rw [readVarint_spec _ hidx pre post, except_bind_ok, except_pure_eq]
    dsimp only
    rw [hres]
    have hname : (some (p.name.getD "") : Option String) = p.name := by
      rcases hns : p.name with _ | s
      · rw [hns] at hn
        simp [truthy] at hn
      · rfl
    rw [if_pos hn, hname]
  · have hN : pointNmCells t p = [] := by rw [pointNmCells, if_neg hn]
    rw [parseNmSeg, if_neg hn, hN, if_neg hn]
    simp

theorem parsePidSeg_spec (g : ℕ → String) (p : DataPoint)
    (hvpid : validPointId p.pointId = true) (pre post : List Cell) (k : ℕ) :
    parsePidSeg g (pre ++ pointPidCells p ++ post) pre.length k (truthy p.pointId = true)
      = .ok ((if truthy p.pointId then p.pointId.getD "" else g k : String),
          pre.length + (pointPidCells p).length,
          (if truthy p.pointId then k else k + 1)) := by
  by_cases hp : truthy p.pointId = true
  · have hcan : canonicalUuid (p.pointId.getD "") = true := by
      rw [validPointId, hp] at hvpid
      simpa using hvpid
    obtain ⟨bs, hbs, h16, hnz, hstr⟩ := canonicalUuid_parts _ hcan
    have hPC : pointPidCells p = bs.map Cell.byte := by
      rw [pointPidCells, if_pos hp, pointUuidBytes, hbs]
      rfl
    rw [parsePidSeg, if_pos hp, hPC, readUuid_spec g bs h16 pre post k, hnz]
    simp [hstr, hp, h16]
  · have hPC : pointPidCells p = [] := by rw [pointPidCells, if_neg hp]
    rw [parsePidSeg, if_neg hp, hPC, if_neg hp, if_neg hp]
    simp

theorem parseMetaSeg_spec (L : List String) (t : StringTable) (p : DataPoint)
    (h1 : TableInv (pointT1 t p)) (hsm1 : smallList (pointT1 t p).list)
    (hvm : ∀ m, p.meta = some m → validMeta m = true)
    (hL : L.length < 2 ^ 32)
    (hextT2 : tableExtends (pointT2 t p).list L)
    (pre post : List Cell) :
    parseMetaSeg L (pre ++ pointMtCells t p ++ post) pre.length (p.meta.isSome = true)
      = .ok ((p.meta.map decodedMeta : Option MetaBag),
          pre.length + (pointMtCells t p).length) := by
  rcases hm : p.meta with _ | m
  · have hMC : pointMtCells t p = [] := by simp only [pointMtCells, hm]
    rw [parseMetaSeg, if_neg (by simp), hMC]
    simp
  · have hvmm := hvm m hm
    rw [validMeta] at hvmm
    simp only [Bool.and_eq_true] at hvmm
    have hevsz : (m.event.getD "").utf8ByteSize < 2 ^ 32 := by
      have h := hvmm.1
      rcases hes : m.event with _ | e
      · decide
      · rw [hes] at h
        simp only [validString, decide_eq_true_eq] at h
        simpa using h
    have htM : TableInv (metaT1 (pointT1 t p) m) ∧
        tableExtends (pointT1 t p).list (metaT1 (pointT1 t p) m).list ∧
        smallList (metaT1 (pointT1 t p) m).list := by
      rw [metaT1]
      by_cases he : truthy m.event = true
      · rw [if_pos he]
        have h := getIndex_table (pointT1 t p) m.event h1 hsm1 hevsz
        exact ⟨h.1, h.2.1, h.2.2.1⟩
      · rw [if_neg he]
        exact ⟨h1, tableExtends_refl _, hsm1⟩
    have hT2 : pointT2 t p = (match m.memory with
        | some mem => (encodePageTypesCells (metaT1 (pointT1 t p) m) mem.pageTypes).2
        | none => metaT1 (pointT1 t p) m) := by
      simp only [pointT2, hm, encodeMetaCells_eq]
    have hMC : pointMtCells t p = metaEvCells (pointT1 t p) m ++ (match m.memory with
        | some mem => [Cell.byte 1] ++ varintCells mem.pageTypes.length ++
            (encodePageTypesCells (metaT1 (pointT1 t p) m) mem.pageTypes).1
        | none => [Cell.byte 0]) := by
      simp only [pointMtCells, hm, encodeMetaCells_eq]
    have hextM : tableExtends (metaT1 (pointT1 t p) m).list L := by
      refine tableExtends_trans ?_ hextT2
      rw [hT2]
      rcases hmm : m.memory with _ | mem
      · simp only [hmm]
        exact tableExtends_refl _
      · simp only [hmm]
        have hvpts : mem.pageTypes.all validPageType = true := by
          have h := hvmm.2
          rw [hmm] at h
          simp only [Bool.and_eq_true] at h
          exact h.2
        exact (encodePageTypes_table mem.pageTypes _ htM.1 htM.2.2 hvpts).2.1
    have hevfacts : truthy m.event = true →
        ((pointT1 t p).getIndex m.event).1 + 1 < 2 ^ 32 ∧
        L.get? ((pointT1 t p).getIndex m.event).1 = some (m.event.getD "") := by
      intro he
      have h := getIndex_table (pointT1 t p) m.event h1 hsm1 hevsz
      have hres := h.2.2.2 L (by
        rw [metaT1, if_pos he] at hextM
        exact hextM)
      obtain ⟨hlt, -⟩ := List.get?_eq_some.mp hres
      exact ⟨by omega, hres⟩
    rw [parseMetaSeg, if_pos (by simp), hMC]
    have hevseg : readVarint (pre ++ (metaEvCells (pointT1 t p) m ++ (match m.memory with
          | some mem => [Cell.byte 1] ++ varintCells mem.pageTypes.length ++
              (encodePageTypesCells (metaT1 (pointT1 t p) m) mem.pageTypes).1
          | none => [Cell.byte 0])) ++ post) pre.length
        = .ok ((if truthy m.event then ((pointT1 t p).getIndex m.event).1 + 1 else 0 : ℕ),
            pre.length + (metaEvCells (pointT1 t p) m).length) := by
      have hshape : pre ++ (metaEvCells (pointT1 t p) m ++ (match m.memory with
            | some mem => [Cell.byte 1] ++ varintCells mem.pageTypes.length ++
                (encodePageTypesCells (metaT1 (pointT1 t p) m) mem.pageTypes).1
            | none => [Cell.byte 0])) ++ post
          = pre ++ metaEvCells (pointT1 t p) m ++ ((match m.memory with
            | some mem => [Cell.byte 1] ++ varintCells mem.pageTypes.length ++
                (encodePageTypesCells (metaT1 (pointT1 t p) m) mem.pageTypes).1
            | none => [Cell.byte 0]) ++ post) := by
        simp
      rw [hshape]
      by_cases he : truthy m.event = true
      · have hEC : metaEvCells (pointT1 t p) m
            = varintCells (((pointT1 t p).getIndex m.event).1 + 1) := by
          rw [metaEvCells, if_pos he]
        rw [hEC, readVarint_spec _ (hevfacts he).1 pre _, if_pos he]
      · have hEC : metaEvCells (pointT1 t p) m = varintCells 0 := by
          rw [metaEvCells, if_neg he]
        rw [hEC, readVarint_spec 0 (by norm_num) pre _, if_neg he]
    rw [hevseg, except_bind_ok]
    dsimp only
    have hevval : (if (if truthy m.event then ((pointT1 t p).getIndex m.event).1 + 1 else 0) > 0
        then L.get? ((if truthy m.event then ((pointT1 t p).getIndex m.event).1 + 1 else 0) - 1)
        else none) = (if truthy m.event then m.event else none : Option String) := by
      by_cases he : truthy m.event = true
      · rw [if_pos he]
        rw [if_pos (Nat.succ_pos _)]
        simp only [Nat.add_sub_cancel]
        rw [(hevfacts he).2, if_pos he]
        rcases hes : m.event with _ | e
        · rw [hes] at he
          simp [truthy] at he
        · rfl
      · rw [if_neg he]
        rw [if_neg he]
        simp
    rw [hevval]
    rcases hmm : m.memory with _ | mem
    · simp only [hmm]
      have hsN : pre ++ (metaEvCells (pointT1 t p) m ++ [Cell.byte 0]) ++ post
          = (pre ++ metaEvCells (pointT1 t p) m) ++ [Cell.byte 0] ++ post := by simp
      have hoN : pre.length + (metaEvCells (pointT1 t p) m).length
          = (pre ++ metaEvCells (pointT1 t p) m).length := by simp
      rw [hsN, hoN, readU8_spec 0 _ post, except_bind_ok]
      dsimp only
      rw [if_neg Nat.zero_ne_one, except_pure_eq]
      simp only [Option.map_some', decodedMeta, hmm, Except.ok.injEq, Prod.mk.injEq]
      constructor
      · simp
      · simp only [List.length_append, List.length_cons, List.length_nil]
        omega
    · simp only [hmm]
      have hvpts : mem.pageTypes.all validPageType = true := by
        have h := hvmm.2
        rw [hmm] at h
        simp only [Bool.and_eq_true] at h
        exact h.2
      have hptlen : mem.pageTypes.length < 2 ^ 32 := by
        have h := hvmm.2
        rw [hmm] at h
        simp only [Bool.and_eq_true] at h
        exact of_decide_eq_true h.1
      have hextPTS : tableExtends
          (encodePageTypesCells (metaT1 (pointT1 t p) m) mem.pageTypes).2.list L := by
        have h := hextT2
        rw [hT2] at h
        simp only [hmm] at h
        exact h
      have hsS : pre ++ (metaEvCells (pointT1 t p) m ++ ([Cell.byte 1] ++
            varintCells mem.pageTypes.length ++
            (encodePageTypesCells (metaT1 (pointT1 t p) m) mem.pageTypes).1)) ++ post
          = (pre ++ metaEvCells (pointT1 t p) m) ++ [Cell.byte 1] ++
            (varintCells mem.pageTypes.length ++
              ((encodePageTypesCells (metaT1 (pointT1 t p) m) mem.pageTypes).1 ++ post)) := by
        simp
      have hoS : pre.length + (metaEvCells (pointT1 t p) m).length
          = (pre ++ metaEvCells (pointT1 t p) m).length := by simp
      rw [hsS, hoS, readU8_spec 1 _ _, except_bind_ok]
      dsimp only
      rw [if_pos rfl]
      have hsS2 : (pre ++ metaEvCells (pointT1 t p) m) ++ [Cell.byte 1] ++
            (varintCells mem.pageTypes.length ++
              ((encodePageTypesCells (metaT1 (pointT1 t p) m) mem.pageTypes).1 ++ post))
          = ((pre ++ metaEvCells (pointT1 t p) m) ++ [Cell.byte 1]) ++
            varintCells mem.pageTypes.length ++
              ((encodePageTypesCells (metaT1 (pointT1 t p) m) mem.pageTypes).1 ++ post) := by
        simp
      have hoS2 : (pre ++ metaEvCells (pointT1 t p) m).length + 1
          = ((pre ++ metaEvCells (pointT1 t p) m) ++ [Cell.byte 1]).length := by
        simp only [List.length_append, List.length_cons, List.length_nil]
        try omega
      rw [hsS2, hoS2, readVarint_spec _ hptlen _ _, except_bind_ok]
      dsimp only
      have hsS3 : ((pre ++ metaEvCells (pointT1 t p) m) ++ [Cell.byte 1]) ++
            varintCells mem.pageTypes.length ++
              ((encodePageTypesCells (metaT1 (pointT1 t p) m) mem.pageTypes).1 ++ post)
          = (((pre ++ metaEvCells (pointT1 t p) m) ++ [Cell.byte 1]) ++
              varintCells mem.pageTypes.length) ++
              (encodePageTypesCells (metaT1 (pointT1 t p) m) mem.pageTypes).1 ++ post := by
        simp
      have hoS3 : ((pre ++ metaEvCells (pointT1 t p) m) ++ [Cell.byte 1]).length +
            (varintCells mem.pageTypes.length).length
          = (((pre ++ metaEvCells (pointT1 t p) m) ++ [Cell.byte 1]) ++
              varintCells mem.pageTypes.length).length := by
        simp only [List.length_append, List.length_cons, List.length_nil]
        try omega
      rw [hsS3, hoS3, parsePageTypes_spec L hL mem.pageTypes _ htM.1 htM.2.2 hvpts hextPTS _ post,
        except_bind_ok, except_pure_eq]
      dsimp only
      simp only [Option.map_some', decodedMeta, hmm, Except.ok.injEq, Prod.mk.injEq]
      constructor
      · simp
      · simp only [List.length_append, List.length_cons, List.length_nil]
        omega

theorem decodedPoints_cons (g : ℕ → String) (k : ℕ) (p : DataPoint) (rest : List DataPoint) :
    decodedPoints g k (p :: rest)
      = ((decodedPoint g k p).1 :: (decodedPoints g (decodedPoint g k p).2 rest).1,
        (decodedPoints g (decodedPoint g k p).2 rest).2) := rfl

theorem parsePoint_spec (L : List String) (g : ℕ → String) (t : StringTable) (p : DataPoint)
    (hInv : TableInv t) (hsm : smallList t.list) (hv : validPoint p = true)
    (hL : L.length < 2 ^ 32)
    (hext : tableExtends (encodePointCells t p).2.list L)
    (pre post : List Cell) (k : ℕ) :
    parsePoint L g (pre ++ (encodePointCells t p).1 ++ post) pre.length k
      = .ok ((decodedPoint g k p).1, pre.length + (encodePointCells t p).1.length,
          (decodedPoint g k p).2) := by
  have hvparts := hv
  rw [validPoint] at hvparts
  simp only [Bool.and_eq_true] at hvparts
  have hnm : (p.name.getD "").utf8ByteSize < 2 ^ 32 := by
    have h := hvparts.1.1.2
    rcases hn : p.name with _ | nm
    · decide
    · rw [hn] at h
      simp only [validString, decide_eq_true_eq] at h
      simpa using h
  have hvm : ∀ m, p.meta = some m → validMeta m = true := by
    intro m hm
    have h := hvparts.2
    rw [hm] at h
    exact h
  have ht1 : TableInv (pointT1 t p) ∧ tableExtends t.list (pointT1 t p).list ∧
      smallList (pointT1 t p).list := by
    rw [pointT1]
    by_cases hn : truthy p.name = true
    · rw [if_pos hn]
      have h := getIndex_table t p.name hInv hsm hnm
      exact ⟨h.1, h.2.1, h.2.2.1⟩
    · rw [if_neg hn]
      exact ⟨hInv, tableExtends_refl _, hsm⟩
  have hextT2 : tableExtends (pointT2 t p).list L := by
    have h := hext
    rw [encodePointCells_eq] at h
    exact h
  have hextT1 : tableExtends (pointT1 t p).list L := by
    refine tableExtends_trans ?_ hextT2
    rw [pointT2]
    rcases hm : p.meta with _ | m
    · simp only [hm]
      exact tableExtends_refl _
    · simp only [hm]
      exact (encodeMeta_table (pointT1 t p) m ht1.1 ht1.2.2 (hvm m hm)).2.1
  have hc1 : (encodePointCells t p).1
      = [Cell.f64 p.timestamp] ++ ([Cell.f64 p.value] ++ ([Cell.byte (pointFlags p)] ++
          (pointNmCells t p ++ (pointPidCells p ++ pointMtCells t p)))) := by
    rw [encodePointCells_eq]
    simp
  rw [parsePoint, hc1]
  have hs1 : pre ++ ([Cell.f64 p.timestamp] ++ ([Cell.f64 p.value] ++
        ([Cell.byte (pointFlags p)] ++ (pointNmCells t p ++
          (pointPidCells p ++ pointMtCells t p))))) ++ post
      = pre ++ [Cell.f64 p.timestamp] ++ ([Cell.f64 p.value] ++
        ([Cell.byte (pointFlags p)] ++ (pointNmCells t p ++
          (pointPidCells p ++ (pointMtCells t p ++ post))))) := by
    simp
  rw [hs1, readFloat64_spec p.timestamp pre _, except_bind_ok]
  dsimp only
  have hs2 : pre ++ [Cell.f64 p.timestamp] ++ ([Cell.f64 p.value] ++
        ([Cell.byte (pointFlags p)] ++ (pointNmCells t p ++
          (pointPidCells p ++ (pointMtCells t p ++ post)))))
      = (pre ++ [Cell.f64 p.timestamp]) ++ [Cell.f64 p.value] ++
        ([Cell.byte (pointFlags p)] ++ (pointNmCells t p ++
          (pointPidCells p ++ (pointMtCells t p ++ post)))) := by
    simp
  have ho2 : pre.length + 1 = (pre ++ [Cell.f64 p.timestamp]).length := by simp
  rw [hs2, ho2, readFloat64_spec p.value _ _, except_bind_ok]
  dsimp only
  have hs3 : (pre ++ [Cell.f64 p.timestamp]) ++ [Cell.f64 p.value] ++
        ([Cell.byte (pointFlags p)] ++ (pointNmCells t p ++
          (pointPidCells p ++ (pointMtCells t p ++ post))))
      = ((pre ++ [Cell.f64 p.timestamp]) ++ [Cell.f64 p.value]) ++ [Cell.byte (pointFlags p)] ++
        (pointNmCells t p ++ (pointPidCells p ++ (pointMtCells t p ++ post))) := by
    simp
  have ho3 : (pre ++ [Cell.f64 p.timestamp]).length + 1
      = ((pre ++ [Cell.f64 p.timestamp]) ++ [Cell.f64 p.value]).length := by simp
  rw [hs3, ho3, readU8_spec (pointFlags p) _ _, except_bind_ok]
  dsimp only
  simp only [pointFlags_bit0, pointFlags_bit1, pointFlags_bit2]
  have hs4 : ((pre ++ [Cell.f64 p.timestamp]) ++ [Cell.f64 p.value]) ++
        [Cell.byte (pointFlags p)] ++ (pointNmCells t p ++
          (pointPidCells p ++ (pointMtCells t p ++ post)))
      = (((pre ++ [Cell.f64 p.timestamp]) ++ [Cell.f64 p.value]) ++
          [Cell.byte (pointFlags p)]) ++ pointNmCells t p ++
          (pointPidCells p ++ (pointMtCells t p ++ post)) := by
    simp
  have ho4 : ((pre ++ [Cell.f64 p.timestamp]) ++ [Cell.f64 p.value]).length + 1
      = (((pre ++ [Cell.f64 p.timestamp]) ++ [Cell.f64 p.value]) ++
          [Cell.byte (pointFlags p)]).length := by
    simp
  rw [hs4, ho4, parseNmSeg_spec L t p hInv hsm hnm hL hextT1 _ _, except_bind_ok]
  dsimp only
  have hs5 : (((pre ++ [Cell.f64 p.timestamp]) ++ [Cell.f64 p.value]) ++
          [Cell.byte (pointFlags p)]) ++ pointNmCells t p ++
          (pointPidCells p ++ (pointMtCells t p ++ post))
      = ((((pre ++ [Cell.f64 p.timestamp]) ++ [Cell.f64 p.value]) ++
          [Cell.byte (pointFlags p)]) ++ pointNmCells t p) ++ pointPidCells p ++
          (pointMtCells t p ++ post) := by
    simp
  have ho5 : (((pre ++ [Cell.f64 p.timestamp]) ++ [Cell.f64 p.value]) ++
          [Cell.byte (pointFlags p)]).length + (pointNmCells t p).length
      = ((((pre ++ [Cell.f64 p.timestamp]) ++ [Cell.f64 p.value]) ++
          [Cell.byte (pointFlags p)]) ++ pointNmCells t p).length := by
    simp only [List.length_append, List.length_cons, List.length_nil]
    try omega
  rw [hs5, ho5, parsePidSeg_spec g p hvparts.1.2 _ _ k, except_bind_ok]
  dsimp only
  have hs6 : ((((pre ++ [Cell.f64 p.timestamp]) ++ [Cell.f64 p.value]) ++
          [Cell.byte (pointFlags p)]) ++ pointNmCells t p) ++ pointPidCells p ++
          (pointMtCells t p ++ post)
      = (((((pre ++ [Cell.f64 p.timestamp]) ++ [Cell.f64 p.value]) ++
          [Cell.byte (pointFlags p)]) ++ pointNmCells t p) ++ pointPidCells p) ++
          pointMtCells t p ++ post := by
    simp
  have ho6 : ((((pre ++ [Cell.f64 p.timestamp]) ++ [Cell.f64 p.value]) ++
          [Cell.byte (pointFlags p)]) ++ pointNmCells t p).length + (pointPidCells p).length
      = (((((pre ++ [Cell.f64 p.timestamp]) ++ [Cell.f64 p.value]) ++
          [Cell.byte (pointFlags p)]) ++ pointNmCells t p) ++ pointPidCells p).length := by
    simp only [List.length_append, List.length_cons, List.length_nil]
    try omega
  rw [hs6, ho6, parseMetaSeg_spec L t p ht1.1 ht1.2.2 hvm hL hextT2 _ post,
    except_bind_ok, except_pure_eq]
  dsimp only
  have hpidval : (some (if truthy p.pointId then p.pointId.getD "" else g k) : Option String)
      = (if truthy p.pointId then p.pointId else some (g k)) := by
    by_cases hp : truthy p.pointId = true
    · rw [if_pos hp, if_pos hp]
      rcases hps : p.pointId with _ | s
      · rw [hps] at hp
        simp [truthy] at hp
      · rfl
    · rw [if_neg hp, if_neg hp]
  rw [decodedPoint]
  dsimp only
  simp only [Except.ok.injEq, Prod.mk.injEq, DataPoint.mk.injEq, hpidval, and_true, true_and]
  simp only [List.length_append, List.length_cons, List.length_nil]
  try omega

theorem parsePoints_spec (L : List String) (g : ℕ → String) (hL : L.length < 2 ^ 32) :
    ∀ (ps : List DataPoint) (t : StringTable), TableInv t → smallList t.list →
      ps.all validPoint = true →
      tableExtends (encodePointsCells t ps).2.list L →
      ∀ (pre post : List Cell) (k : ℕ),
      parsePoints L g (pre ++ (encodePointsCells t ps).1 ++ post) ps.length pre.length k
        = .ok ((decodedPoints g k ps).1, pre.length + (encodePointsCells t ps).1.length,
            (decodedPoints g k ps).2) := by
  intro ps
  induction ps with
  | nil =>
    intro t _ _ _ _ pre post k
    rw [encodePointsCells]
    simp only [List.length_nil, parsePoints]
    simp [decodedPoints]
  | cons p rest ih =>
    intro t hInv hsm hall hext pre post k
    simp only [List.all_cons, Bool.and_eq_true] at hall
    have htt := encodePoint_table t p hInv hsm hall.1
    have htr := encodePoints_table rest (encodePointCells t p).2 htt.1 htt.2.2 (by
      simp only [List.all_eq_true] at hall ⊢
      exact hall.2)
    have hcells : (encodePointsCells t (p :: rest)).1
        = (encodePointCells t p).1 ++ (encodePointsCells (encodePointCells t p).2 rest).1 := by
      rw [encodePointsCells]
    have htab : (encodePointsCells t (p :: rest)).2
        = (encodePointsCells (encodePointCells t p).2 rest).2 := by
      rw [encodePointsCells]
    rw [htab] at hext
    rw [hcells]
    simp only [List.length_cons, parsePoints]
    have hshape : pre ++ ((encodePointCells t p).1 ++
        (encodePointsCells (encodePointCells t p).2 rest).1) ++ post
        = pre ++ (encodePointCells t p).1 ++
          ((encodePointsCells (encodePointCells t p).2 rest).1 ++ post) := by
      simp
    rw [hshape, parsePoint_spec L g t p hInv hsm hall.1 hL
      (tableExtends_trans htr.2.1 hext) pre _ k, except_bind_ok]
    dsimp only
    have hshape2 : pre ++ (encodePointCells t p).1 ++
        ((encodePointsCells (encodePointCells t p).2 rest).1 ++ post)
        = (pre ++ (encodePointCells t p).1) ++
          (encodePointsCells (encodePointCells t p).2 rest).1 ++ post := by
      simp
    have hoff : pre.length + (encodePointCells t p).1.length
        = (pre ++ (encodePointCells t p).1).length := by
      simp
    rw [hshape2, hoff, ih (encodePointCells t p).2 htt.1 htt.2.2 (by
        simp only [List.all_eq_true] at hall ⊢
        exact hall.2) hext (pre ++ (encodePointCells t p).1) post (decodedPoint g k p).2,
      except_bind_ok, except_pure_eq]
    dsimp only
    rw [decodedPoints_cons]
    simp only [Except.ok.injEq, Prod.mk.injEq, and_true, true_and, List.length_append]
    try omega

theorem parseSeries_spec (L : List String) (g : ℕ → String) (t : StringTable)
    (s : MemorySeries) (k : ℕ)
    (hInv : TableInv t) (hsm : smallList t.list) (hv : validSeries s = true)
    (hL : L.length < 2 ^ 32)
    (hext : tableExtends (encodeSeriesCells g t k s).2.1.list L)
    (pre post : List Cell) :
    parseSeries L g (pre ++ (encodeSeriesCells g t k s).1 ++ post) pre.length k
      = .ok ((decodedSeries g k s).1, pre.length + (encodeSeriesCells g t k s).1.length,
          (decodedSeries g k s).2) := by
  have hvparts := hv
  rw [validSeries] at hvparts
  simp only [Bool.and_eq_true] at hvparts
  obtain ⟨bs, hbs, h16, hnz, hstr⟩ := canonicalUuid_parts s.id hvparts.1.1.1.1
  have hU : seriesUuidBytes g k s.id = (bs, k) := by
    rw [seriesUuidBytes, hbs]
  have hnmsz : s.name.utf8ByteSize < 2 ^ 32 := by
    have h := hvparts.1.1.1.2
    rw [validString] at h
    exact of_decide_eq_true h
  have hcolsz : (if s.color == "" then "#000000" else s.color).utf8ByteSize < 2 ^ 32 := by
    have h := hvparts.1.1.2
    rw [validString] at h
    exact of_decide_eq_true h
  have hdlen : s.data.length < 2 ^ 32 := of_decide_eq_true hvparts.1.2
  have hdall : s.data.all validPoint = true := hvparts.2
  have hc : (encodeSeriesCells g t k s).1
      = (seriesUuidBytes g k s.id).1.map Cell.byte ++
        varintCells (t.getIndex (some s.name)).1 ++
        varintCells ((t.getIndex (some s.name)).2.getIndex
          (some (if s.color == "" then "#000000" else s.color))).1 ++
        [Cell.byte (if s.visible then 1 else 0)] ++ varintCells s.data.length ++
        (encodePointsCells ((t.getIndex (some s.name)).2.getIndex
          (some (if s.color == "" then "#000000" else s.color))).2 s.data).1 := by
    rw [encodeSeriesCells]
  have htb : (encodeSeriesCells g t k s).2.1
      = (encodePointsCells ((t.getIndex (some s.name)).2.getIndex
          (some (if s.color == "" then "#000000" else s.color))).2 s.data).2 := by
    rw [encodeSeriesCells]
  rw [htb] at hext
  have h1 := getIndex_table t (some s.name) hInv hsm (by simpa using hnmsz)
  have h2 := getIndex_table (t.getIndex (some s.name)).2
    (some (if s.color == "" then "#000000" else s.color)) h1.1 h1.2.2.1
    (by simpa using hcolsz)
  have h3 := encodePoints_table s.data ((t.getIndex (some s.name)).2.getIndex
    (some (if s.color == "" then "#000000" else s.color))).2 h2.1 h2.2.2.1 hdall
  have hext2 : tableExtends ((t.getIndex (some s.name)).2.getIndex
      (some (if s.color == "" then "#000000" else s.color))).2.list L :=
    tableExtends_trans h3.2.1 hext
  have hext1 : tableExtends (t.getIndex (some s.name)).2.list L :=
    tableExtends_trans h2.2.1 hext2
  have hres1 : L.get? (t.getIndex (some s.name)).1 = some s.name := by
    have h := h1.2.2.2 L hext1
    simpa using h
  have hres2 : L.get? ((t.getIndex (some s.name)).2.getIndex
      (some (if s.color == "" then "#000000" else s.color))).1
      = some (if s.color == "" then "#000000" else s.color) := by
    have h := h2.2.2.2 L hext2
    simpa using h
  have hidx1 : (t.getIndex (some s.name)).1 < 2 ^ 32 := by
    obtain ⟨hlt, -⟩ := List.get?_eq_some.mp hres1
    omega
  have hidx2 : ((t.getIndex (some s.name)).2.getIndex
      (some (if s.color == "" then "#000000" else s.color))).1 < 2 ^ 32 := by
    obtain ⟨hlt, -⟩ := List.get?_eq_some.mp hres2
    omega
  rw [parseSeries, hc, hU]
  have hs1 : pre ++ (bs.map Cell.byte ++
        varintCells (t.getIndex (some s.name)).1 ++
        varintCells ((t.getIndex (some s.name)).2.getIndex
          (some (if s.color == "" then "#000000" else s.color))).1 ++
        [Cell.byte (if s.visible then 1 else 0)] ++ varintCells s.data.length ++
        (encodePointsCells ((t.getIndex (some s.name)).2.getIndex
          (some (if s.color == "" then "#000000" else s.color))).2 s.data).1) ++ post
      = pre ++ bs.map Cell.byte ++
        (varintCells (t.getIndex (some s.name)).1 ++
        (varintCells ((t.getIndex (some s.name)).2.getIndex
          (some (if s.color == "" then "#000000" else s.color))).1 ++
        ([Cell.byte (if s.visible then 1 else 0)] ++ (varintCells s.data.length ++
        ((encodePointsCells ((t.getIndex (some s.name)).2.getIndex
          (some (if s.color == "" then "#000000" else s.color))).2 s.data).1 ++ post))))) := by
    simp
  rw [hs1]
  have huuid : readUuid g (pre ++ bs.map Cell.byte ++
        (varintCells (t.getIndex (some s.name)).1 ++
        (varintCells ((t.getIndex (some s.name)).2.getIndex
          (some (if s.color == "" then "#000000" else s.color))).1 ++
        ([Cell.byte (if s.visible then 1 else 0)] ++ (varintCells s.data.length ++
        ((encodePointsCells ((t.getIndex (some s.name)).2.getIndex
          (some (if s.color == "" then "#000000" else s.color))).2 s.data).1 ++ post))))))
        pre.length k
      = .ok (s.id, (pre ++ bs.map Cell.byte).length, k) := by
    rw [readUuid_spec g bs h16 pre _ k, hnz, hstr]
    simp [h16]
  rw [huuid, except_bind_ok]
  dsimp only
  have hs2 : pre ++ bs.map Cell.byte ++
        (varintCells (t.getIndex (some s.name)).1 ++
        (varintCells ((t.getIndex (some s.name)).2.getIndex
          (some (if s.color == "" then "#000000" else s.color))).1 ++
        ([Cell.byte (if s.visible then 1 else 0)] ++ (varintCells s.data.length ++
        ((encodePointsCells ((t.getIndex (some s.name)).2.getIndex
          (some (if s.color == "" then "#000000" else s.color))).2 s.data).1 ++ post)))))
      = (pre ++ bs.map Cell.byte) ++ varintCells (t.getIndex (some s.name)).1 ++
        (varintCells ((t.getIndex (some s.name)).2.getIndex
          (some (if s.color == "" then "#000000" else s.color))).1 ++
        ([Cell.byte (if s.visible then 1 else 0)] ++ (varintCells s.data.length ++
        ((encodePointsCells ((t.getIndex (some s.name)).2.getIndex
          (some (if s.color == "" then "#000000" else s.color))).2 s.data).1 ++ post)))) := by
    simp
  rw [hs2, readVarint_spec _ hidx1 (pre ++ bs.map Cell.byte) _, except_bind_ok]
  dsimp only
  have hs3 : (pre ++ bs.map Cell.byte) ++ varintCells (t.getIndex (some s.name)).1 ++
        (varintCells ((t.getIndex (some s.name)).2.getIndex
          (some (if s.color == "" then "#000000" else s.color))).1 ++
        ([Cell.byte (if s.visible then 1 else 0)] ++ (varintCells s.data.length ++
        ((encodePointsCells ((t.getIndex (some s.name)).2.getIndex
          (some (if s.color == "" then "#000000" else s.color))).2 s.data).1 ++ post))))
      = ((pre ++ bs.map Cell.byte) ++ varintCells (t.getIndex (some s.name)).1) ++
        varintCells ((t.getIndex (some s.name)).2.getIndex
          (some (if s.color == "" then "#000000" else s.color))).1 ++
        ([Cell.byte (if s.visible then 1 else 0)] ++ (varintCells s.data.length ++
        ((encodePointsCells ((t.getIndex (some s.name)).2.getIndex
          (some (if s.color == "" then "#000000" else s.color))).2 s.data).1 ++ post))) := by
    simp
  have ho3 : (pre ++ bs.map Cell.byte).length + (varintCells (t.getIndex (some s.name)).1).length
      = ((pre ++ bs.map Cell.byte) ++ varintCells (t.getIndex (some s.name)).1).length := by
    simp only [List.length_append, List.length_map]
    try omega
  rw [hs3, ho3, readVarint_spec _ hidx2 _ _, except_bind_ok]
  dsimp only
  have hs4 : ((pre ++ bs.map Cell.byte) ++ varintCells (t.getIndex (some s.name)).1) ++
        varintCells ((t.getIndex (some s.name)).2.getIndex
          (some (if s.color == "" then "#000000" else s.color))).1 ++
        ([Cell.byte (if s.visible then 1 else 0)] ++ (varintCells s.data.length ++
        ((encodePointsCells ((t.getIndex (some s.name)).2.getIndex
          (some (if s.color == "" then "#000000" else s.color))).2 s.data).1 ++ post)))
      = (((pre ++ bs.map Cell.byte) ++ varintCells (t.getIndex (some s.name)).1) ++
        varintCells ((t.getIndex (some s.name)).2.getIndex
          (some (if s.color == "" then "#000000" else s.color))).1) ++
        [Cell.byte (if s.visible then 1 else 0)] ++ (varintCells s.data.length ++
        ((encodePointsCells ((t.getIndex (some s.name)).2.getIndex
          (some (if s.color == "" then "#000000" else s.color))).2 s.data).1 ++ post)) := by
    simp
  have ho4 : ((pre ++ bs.map Cell.byte) ++ varintCells (t.getIndex (some s.name)).1).length +
        (varintCells ((t.getIndex (some s.name)).2.getIndex
          (some (if s.color == "" then "#000000" else s.color))).1).length
      = (((pre ++ bs.map Cell.byte) ++ varintCells (t.getIndex (some s.name)).1) ++
        varintCells ((t.getIndex (some s.name)).2.getIndex
          (some (if s.color == "" then "#000000" else s.color))).1).length := by
    simp only [List.length_append, List.length_map]
    try omega
  rw [hs4, ho4, readU8_spec _ _ _, except_bind_ok]
  dsimp only
  have hs5 : (((pre ++ bs.map Cell.byte) ++ varintCells (t.getIndex (some s.name)).1) ++
        varintCells ((t.getIndex (some s.name)).2.getIndex
          (some (if s.color == "" then "#000000" else s.color))).1) ++
        [Cell.byte (if s.visible then 1 else 0)] ++ (varintCells s.data.length ++
        ((encodePointsCells ((t.getIndex (some s.name)).2.getIndex
          (some (if s.color == "" then "#000000" else s.color))).2 s.data).1 ++ post))
      = ((((pre ++ bs.map Cell.byte) ++ varintCells (t.getIndex (some s.name)).1) ++
        varintCells ((t.getIndex (some s.name)).2.getIndex
          (some (if s.color == "" then "#000000" else s.color))).1) ++
        [Cell.byte (if s.visible then 1 else 0)]) ++ varintCells s.data.length ++
        ((encodePointsCells ((t.getIndex (some s.name)).2.getIndex
          (some (if s.color == "" then "#000000" else s.color))).2 s.data).1 ++ post) := by
    simp
  have ho5 : (((pre ++ bs.map Cell.byte) ++ varintCells (t.getIndex (some s.name)).1) ++
        varintCells ((t.getIndex (some s.name)).2.getIndex
          (some (if s.color == "" then "#000000" else s.color))).1).length + 1
      = ((((pre ++ bs.map Cell.byte) ++ varintCells (t.getIndex (some s.name)).1) ++
        varintCells ((t.getIndex (some s.name)).2.getIndex
          (some (if s.color == "" then "#000000" else s.color))).1) ++
        [Cell.byte (if s.visible then 1 else 0)]).length := by
    simp only [List.length_append, List.length_map, List.length_cons, List.length_nil]
    try omega
  rw [hs5, ho5, readVarint_spec _ hdlen _ _, except_bind_ok]
  dsimp only
  have hs6 : ((((pre ++ bs.map Cell.byte) ++ varintCells (t.getIndex (some s.name)).1) ++
        varintCells ((t.getIndex (some s.name)).2.getIndex
          (some (if s.color == "" then "#000000" else s.color))).1) ++
        [Cell.byte (if s.visible then 1 else 0)]) ++ varintCells s.data.length ++
        ((encodePointsCells ((t.getIndex (some s.name)).2.getIndex
          (some (if s.color == "" then "#000000" else s.color))).2 s.data).1 ++ post)
      = (((((pre ++ bs.map Cell.byte) ++ varintCells (t.getIndex (some s.name)).1) ++
        varintCells ((t.getIndex (some s.name)).2.getIndex
          (some (if s.color == "" then "#000000" else s.color))).1) ++
        [Cell.byte (if s.visible then 1 else 0)]) ++ varintCells s.data.length) ++
        (encodePointsCells ((t.getIndex (some s.name)).2.getIndex
          (some (if s.color == "" then "#000000" else s.color))).2 s.data).1 ++ post := by
    simp
  have ho6 : ((((pre ++ bs.map Cell.byte) ++ varintCells (t.getIndex (some s.name)).1) ++
        varintCells ((t.getIndex (some s.name)).2.getIndex
          (some (if s.color == "" then "#000000" else s.color))).1) ++
        [Cell.byte (if s.visible then 1 else 0)]).length + (varintCells s.data.length).length
      = (((((pre ++ bs.map Cell.byte) ++ varintCells (t.getIndex (some s.name)).1) ++
        varintCells ((t.getIndex (some s.name)).2.getIndex
          (some (if s.color == "" then "#000000" else s.color))).1) ++
        [Cell.byte (if s.visible then 1 else 0)]) ++ varintCells s.data.length).length := by
    simp only [List.length_append, List.length_map, List.length_cons, List.length_nil]
    try omega
  rw [hs6, ho6, parsePoints_spec L g hL s.data _ h2.1 h2.2.2.1 hdall hext _ post k,
    except_bind_ok, except_pure_eq]
  dsimp only
  rw [decodedSeries]
  dsimp only
  have hgs1 : getString L (t.getIndex (some s.name)).1 = s.name := by
    rw [getString, hres1]
  have hgs2 : getString L ((t.getIndex (some s.name)).2.getIndex
      (some (if s.color == "" then "#000000" else s.color))).1
      = (if s.color == "" then "#000000" else s.color) := by
    rw [getString, hres2]
  have hvis : ((if s.visible then (1 : ℕ) else 0) == 1) = s.visible := by
    cases s.visible <;> rfl
  rw [hgs1, hgs2, hvis]
  simp only [Except.ok.injEq, Prod.mk.injEq, and_true, true_and, List.length_append,
    List.length_map, List.length_cons, List.length_nil]
  try omega

/-- For a series whose id parses, neither the emitted cells nor the resulting
string table depend on the uuid supply or its counter (the `uuidv4()` fallback
is never consulted). -/
theorem encodeSeriesCells_counter (g g' : ℕ → String) (t : StringTable) (k k' : ℕ)
    (s : MemorySeries) (hcan : canonicalUuid s.id = true) :
    (encodeSeriesCells g t k s).1 = (encodeSeriesCells g' t k' s).1 ∧
      (encodeSeriesCells g t k s).2.1 = (encodeSeriesCells g' t k' s).2.1 := by
  obtain ⟨bs, hbs, -, -, -⟩ := canonicalUuid_parts s.id hcan
  simp only [encodeSeriesCells, seriesUuidBytes, hbs]
  simp

theorem decodedSeriesList_cons (g : ℕ → String) (k : ℕ) (s : MemorySeries)
    (rest : List MemorySeries) :
    decodedSeriesList g k (s :: rest)
      = ((decodedSeries g k s).1 :: (decodedSeriesList g (decodedSeries g k s).2 rest).1,
        (decodedSeriesList g (decodedSeries g k s).2 rest).2) := rfl

theorem parseSeriesList_spec (L : List String) (g : ℕ → String) (hL : L.length < 2 ^ 32) :
    ∀ (l : List MemorySeries) (t : StringTable) (k0 k : ℕ), TableInv t → smallList t.list →
      l.all validSeries = true →
      tableExtends (encodeSeriesListCells g t k0 l).2.1.list L →
      ∀ (pre post : List Cell),
      parseSeriesList L g (pre ++ (encodeSeriesListCells g t k0 l).1 ++ post)
          l.length pre.length k
        = .ok ((decodedSeriesList g k l).1,
            pre.length + (encodeSeriesListCells g t k0 l).1.length,
            (decodedSeriesList g k l).2) := by
  intro l
  induction l with
  | nil =>
    intro t k0 k _ _ _ _ pre post
    rw [encodeSeriesListCells]
    simp only [List.length_nil, parseSeriesList]
    simp [decodedSeriesList]
  | cons s rest ih =>
    intro t k0 k hInv hsm hall hext pre post
    simp only [List.all_cons, Bool.and_eq_true] at hall
    have hrest : rest.all validSeries = true := by
      simp only [List.all_eq_true] at hall ⊢
      exact hall.2
    have hcanon : canonicalUuid s.id = true := by
      have h := hall.1
      rw [validSeries] at h
      simp only [Bool.and_eq_true] at h
      exact h.1.1.1.1
    have hirr := encodeSeriesCells_counter g g t k0 k s hcanon
    have htt := encodeSeries_table g t k0 s hInv hsm hall.1
    have htr := encodeSeriesList_table g rest (encodeSeriesCells g t k0 s).2.1
      (encodeSeriesCells g t k0 s).2.2 htt.1 htt.2.2 hrest
    have hcells : (encodeSeriesListCells g t k0 (s :: rest)).1
        = (encodeSeriesCells g t k0 s).1 ++
          (encodeSeriesListCells g (encodeSeriesCells g t k0 s).2.1
            (encodeSeriesCells g t k0 s).2.2 rest).1 := by
      rw [encodeSeriesListCells]
    have htab : (encodeSeriesListCells g t k0 (s :: rest)).2
        = (encodeSeriesListCells g (encodeSeriesCells g t k0 s).2.1
            (encodeSeriesCells g t k0 s).2.2 rest).2 := by
      rw [encodeSeriesListCells]
    rw [htab] at hext
    rw [hcells]
    simp only [List.length_cons, parseSeriesList]
    have hshape : pre ++ ((encodeSeriesCells g t k0 s).1 ++
        (encodeSeriesListCells g (encodeSeriesCells g t k0 s).2.1
          (encodeSeriesCells g t k0 s).2.2 rest).1) ++ post
        = pre ++ (encodeSeriesCells g t k0 s).1 ++
          ((encodeSeriesListCells g (encodeSeriesCells g t k0 s).2.1
            (encodeSeriesCells g t k0 s).2.2 rest).1 ++ post) := by
      simp
    have hexthead : tableExtends (encodeSeriesCells g t k s).2.1.list L := by
      rw [← hirr.2]
      exact tableExtends_trans htr.2.1 hext
    rw [hshape, hirr.1, parseSeries_spec L g t s k hInv hsm hall.1 hL hexthead pre _,
      except_bind_ok]
    dsimp only
    have hshape2 : pre ++ (encodeSeriesCells g t k s).1 ++
        ((encodeSeriesListCells g (encodeSeriesCells g t k0 s).2.1
          (encodeSeriesCells g t k0 s).2.2 rest).1 ++ post)
        = (pre ++ (encodeSeriesCells g t k s).1) ++
          (encodeSeriesListCells g (encodeSeriesCells g t k0 s).2.1
            (encodeSeriesCells g t k0 s).2.2 rest).1 ++ post := by
      simp
    have hoff : pre.length + (encodeSeriesCells g t k s).1.length
        = (pre ++ (encodeSeriesCells g t k s).1).length := by
      simp
    rw [hshape2, hoff, ih (encodeSeriesCells g t k0 s).2.1 (encodeSeriesCells g t k0 s).2.2
      (decodedSeries g k s).2 htt.1 htt.2.2 hrest hext (pre ++ (encodeSeriesCells g t k s).1)
      post, except_bind_ok, except_pure_eq]
    dsimp only
    rw [decodedSeriesList_cons]
    simp only [Except.ok.injEq, Prod.mk.injEq, and_true, true_and, List.length_append]
    try omega

theorem parseSeriesSection_spec (L : List String) (g : ℕ → String) (hL : L.length < 2 ^ 32)
    (l : List MemorySeries) (hv : validSeriesList l = true)
    (hext : tableExtends (encodeDataSection g l).2.list L)
    (pre post : List Cell) (k : ℕ) :
    parseSeriesSection L g (pre ++ (encodeDataSection g l).1 ++ post) pre.length k
      = .ok ((decodedSeriesList g k l).1, pre.length + (encodeDataSection g l).1.length,
          (decodedSeriesList g k l).2) := by
  rw [validSeriesList] at hv
  simp only [Bool.and_eq_true] at hv
  have hcnt : l.length < 2 ^ 32 := of_decide_eq_true hv.1
  have hc : (encodeDataSection g l).1
      = varintCells l.length ++ (encodeSeriesListCells g ⟨[], []⟩ 0 l).1 := by
    rw [encodeDataSection]
  have htb : (encodeDataSection g l).2 = (encodeSeriesListCells g ⟨[], []⟩ 0 l).2.1 := by
    rw [encodeDataSection]
  rw [htb] at hext
  rw [parseSeriesSection, hc]
  have hs1 : pre ++ (varintCells l.length ++ (encodeSeriesListCells g ⟨[], []⟩ 0 l).1) ++ post
      = pre ++ varintCells l.length ++ ((encodeSeriesListCells g ⟨[], []⟩ 0 l).1 ++ post) := by
    simp
  rw [hs1, readVarint_spec l.length hcnt pre _, except_bind_ok]
  dsimp only
  have hs2 : pre ++ varintCells l.length ++ ((encodeSeriesListCells g ⟨[], []⟩ 0 l).1 ++ post)
      = (pre ++ varintCells l.length) ++ (encodeSeriesListCells g ⟨[], []⟩ 0 l).1 ++ post := by
    simp
  have ho2 : pre.length + (varintCells l.length).length
      = (pre ++ varintCells l.length).length := by
    simp
  have hsmallnil : smallList ([] : List String) := by
    intro s hs
    simp at hs
  rw [hs2, ho2, parseSeriesList_spec L g hL l ⟨[], []⟩ 0 k tableInv_empty hsmallnil hv.2 hext
    (pre ++ varintCells l.length) post]
  simp only [Except.ok.injEq, Prod.mk.injEq, and_true, true_and, List.length_append]
  try omega

theorem parseStrings_spec :
    ∀ (ss : List String), (∀ s ∈ ss, s.utf8ByteSize < 2 ^ 32) →
      ∀ (pre post : List Cell),
      parseStrings (pre ++ ss.flatMap stringCells ++ post) ss.length pre.length
        = .ok (ss, pre.length + (ss.flatMap stringCells).length) := by
  intro ss
  induction ss with
  | nil =>
    intro _ pre post
    simp only [List.length_nil, List.flatMap_nil, parseStrings]
    simp
  | cons s rest ih =>
    intro hsm pre post
    have hs : s.utf8ByteSize < 2 ^ 32 := hsm s (by simp)
    rw [List.flatMap_cons]
    simp only [List.length_cons, parseStrings]
    have hshape : pre ++ (stringCells s ++ rest.flatMap stringCells) ++ post
        = pre ++ stringCells s ++ (rest.flatMap stringCells ++ post) := by
      simp
    rw [hshape, readString_spec s hs pre _, except_bind_ok]
    dsimp only
    have hshape2 : pre ++ stringCells s ++ (rest.flatMap stringCells ++ post)
        = (pre ++ stringCells s) ++ rest.flatMap stringCells ++ post := by
      simp
    have hoff : pre.length + (stringCells s).length = (pre ++ stringCells s).length := by
      simp
    rw [hshape2, hoff, ih (fun x hx => hsm x (by simp [hx])) (pre ++ stringCells s) post,
      except_bind_ok, except_pure_eq]
    simp only [Except.ok.injEq, Prod.mk.injEq, and_true, true_and, List.length_append]
    try omega

theorem parseSections_run (g : ℕ → String) (l : List MemorySeries)
    (hv : validSeriesList l = true)
    (hlen : (encodeDataSection g l).2.list.length < 2 ^ 32)
    (fuel : ℕ) (hfuel : 3 ≤ fuel) :
    parseSections g (bodyCells g l) fuel 0 0 [] []
      = .ok (decodedSeriesList g 0 l).1 := by
  obtain ⟨f, rfl⟩ : ∃ f, fuel = f + 3 := ⟨fuel - 3, by omega⟩
  have hvall : l.all validSeries = true := by
    rw [validSeriesList] at hv
    simp only [Bool.and_eq_true] at hv
    exact hv.2
  have hsmallnil : smallList ([] : List String) := by
    intro s hs
    simp at hs
  have hsmL : smallList (encodeDataSection g l).2.list := by
    have h := encodeSeriesList_table g l ⟨[], []⟩ 0 tableInv_empty hsmallnil hvall
    have htb : (encodeDataSection g l).2 = (encodeSeriesListCells g ⟨[], []⟩ 0 l).2.1 := by
      rw [encodeDataSection]
    rw [htb]
    exact h.2.2
  show parseSections g (bodyCells g l) (f + 2 + 1) 0 0 [] [] = _
  rw [parseSections]
  have hbufshape : bodyCells g l
      = [] ++ [Cell.byte 1] ++ (varintCells (encodeDataSection g l).2.list.length ++
        ((encodeDataSection g l).2.list.flatMap stringCells ++ ([Cell.byte 2] ++
        (encodeDataSection g l).1))) := by
    rw [bodyCells]
    simp
  have hlenpos : 0 < (bodyCells g l).length := by
    rw [bodyCells]
    simp
  rw [if_pos hlenpos]
  rw [show (0 : ℕ) = ([] : List Cell).length from rfl]
  rw [hbufshape, readU8_spec 1 [] _]
  dsimp only
  rw [if_pos rfl]
  rw [show ([] : List Cell).length + 1 = ([] ++ [Cell.byte 1] : List Cell).length from rfl]
  have hs2 : [] ++ [Cell.byte 1] ++ (varintCells (encodeDataSection g l).2.list.length ++
        ((encodeDataSection g l).2.list.flatMap stringCells ++ ([Cell.byte 2] ++
        (encodeDataSection g l).1)))
      = ([] ++ [Cell.byte 1]) ++ varintCells (encodeDataSection g l).2.list.length ++
        ((encodeDataSection g l).2.list.flatMap stringCells ++ ([Cell.byte 2] ++
        (encodeDataSection g l).1)) := by
    simp
  rw [hs2, readVarint_spec _ hlen ([] ++ [Cell.byte 1]) _, except_bind_ok]
  dsimp only
  have hs3 : ([] ++ [Cell.byte 1]) ++ varintCells (encodeDataSection g l).2.list.length ++
        ((encodeDataSection g l).2.list.flatMap stringCells ++ ([Cell.byte 2] ++
        (encodeDataSection g l).1))
      = (([] ++ [Cell.byte 1]) ++ varintCells (encodeDataSection g l).2.list.length) ++
        (encodeDataSection g l).2.list.flatMap stringCells ++ ([Cell.byte 2] ++
        (encodeDataSection g l).1) := by
    simp
  have ho3 : ([] ++ [Cell.byte 1] : List Cell).length +
        (varintCells (encodeDataSection g l).2.list.length).length
      = (([] ++ [Cell.byte 1]) ++ varintCells (encodeDataSection g l).2.list.length).length := by
    simp only [List.length_append, List.length_cons, List.length_nil, List.nil_append]
    try omega
  rw [hs3, ho3, parseStrings_spec (encodeDataSection g l).2.list hsmL _ _]
  dsimp only
  -- second pass: the data section
  rw [parseSections]
  set B := (([] ++ [Cell.byte 1]) ++ varintCells (encodeDataSection g l).2.list.length) ++
    (encodeDataSection g l).2.list.flatMap stringCells ++ ([Cell.byte 2] ++
    (encodeDataSection g l).1) with hB
  have hoff2 : (([] ++ [Cell.byte 1]) ++ varintCells (encodeDataSection g l).2.list.length).length +
        ((encodeDataSection g l).2.list.flatMap stringCells).length
      = ((([] ++ [Cell.byte 1]) ++ varintCells (encodeDataSection g l).2.list.length) ++
        (encodeDataSection g l).2.list.flatMap stringCells).length := by
    simp only [List.length_append, List.length_cons, List.length_nil, List.nil_append]
    try omega
  rw [hoff2]
  have hlt2 : ((([] ++ [Cell.byte 1]) ++ varintCells (encodeDataSection g l).2.list.length) ++
        (encodeDataSection g l).2.list.flatMap stringCells).length < B.length := by
    rw [hB]
    simp
  rw [if_pos hlt2]
  have hs4 : B = ((([] ++ [Cell.byte 1]) ++ varintCells (encodeDataSection g l).2.list.length) ++
        (encodeDataSection g l).2.list.flatMap stringCells) ++ [Cell.byte 2] ++
        (encodeDataSection g l).1 := by
    rw [hB]
    simp
  rw [hs4, readU8_spec 2 _ _]
  dsimp only
  rw [if_neg (by omega), if_pos rfl]
  simp only [List.nil_append]
  have ho5 : (([Cell.byte 1] ++ varintCells (encodeDataSection g l).2.list.length) ++
        (encodeDataSection g l).2.list.flatMap stringCells).length + 1
      = ((([Cell.byte 1] ++ varintCells (encodeDataSection g l).2.list.length) ++
        (encodeDataSection g l).2.list.flatMap stringCells) ++ [Cell.byte 2]).length := by
    simp only [List.length_append, List.length_cons, List.length_nil]
    try omega
  have hs5 : (([Cell.byte 1] ++ varintCells (encodeDataSection g l).2.list.length) ++
        (encodeDataSection g l).2.list.flatMap stringCells) ++ [Cell.byte 2] ++
        (encodeDataSection g l).1
      = ((([Cell.byte 1] ++ varintCells (encodeDataSection g l).2.list.length) ++
        (encodeDataSection g l).2.list.flatMap stringCells) ++ [Cell.byte 2]) ++
        (encodeDataSection g l).1 ++ [] := by
    simp
  rw [ho5, hs5,
    parseSeriesSection_spec (encodeDataSection g l).2.list g hlen l hv
      (tableExtends_refl _) _ [] ([] : List Cell).length]
  dsimp only
  -- third pass: offset at end of buffer
  rw [parseSections]
  have hend : ¬ (((([Cell.byte 1] ++ varintCells (encodeDataSection g l).2.list.length) ++
        (encodeDataSection g l).2.list.flatMap stringCells) ++ [Cell.byte 2]).length +
        (encodeDataSection g l).1.length
      < (((([Cell.byte 1] ++ varintCells (encodeDataSection g l).2.list.length) ++
        (encodeDataSection g l).2.list.flatMap stringCells) ++ [Cell.byte 2]) ++
        (encodeDataSection g l).1 ++ []).length) := by
    simp only [List.length_append, List.length_cons, List.length_nil]
    try omega
  rw [if_neg hend]
  simp

/-- Master round trip: `parseBinary` recovers from `encodeBinary`'s output the
decoded series list (ids and colors canonicalized, pages re-expressed as RLE
free lists, fresh UUIDs drawn from the supply `g` for absent point ids). -/
theorem parseBinary_roundtrip (g : ℕ → String) (l : List MemorySeries)
    (hv : validSeriesList l = true)
    (hlen : (encodeDataSection g l).2.list.length < 2 ^ 32) :
    parseBinary g (encodeBinary g l) = .ok (decodedSeriesList g 0 l).1 := by
  have hEB : encodeBinary g l
      = Cell.byte 77 :: Cell.byte 69 :: Cell.byte 77 :: Cell.byte 68 :: Cell.byte 2 ::
        Cell.byte 0 :: Cell.byte 1 :: Cell.byte 0 :: bodyCells g l := by
    rw [encodeBinary]
    simp [magicCells, u16Cells, gzipCompress, bodyCells]
  rw [parseBinary, hEB]
  have h8 : ¬ (byteSize (Cell.byte 77 :: Cell.byte 69 :: Cell.byte 77 :: Cell.byte 68 ::
      Cell.byte 2 :: Cell.byte 0 :: Cell.byte 1 :: Cell.byte 0 :: bodyCells g l) < 8) := by
    simp only [byteSize, List.map_cons, List.sum_cons, cellWidth]
    omega
  rw [if_neg h8]
  simp only [getByte, List.get?]
  simp only [true_or, if_true]
  simp only [List.drop]
  rw [gzipDecompress]
  have hfuel : 3 ≤ (bodyCells g l).length + 1 := by
    rw [bodyCells]
    simp only [List.length_append, List.length_cons, List.length_nil]
    omega
  rw [parseSections_run g l hv hlen _ hfuel]

theorem byteSize_bytes (bs : List ℕ) : byteSize (bs.map Cell.byte) = bs.length := by
  induction bs with
  | nil => rfl
  | cons b rest ih =>
    simp only [List.map_cons, byteSize, List.sum_cons] at ih ⊢
    rw [ih]
    simp only [cellWidth, List.length_cons]
    omega

theorem getByte_bytes (bs : List ℕ) (i : ℕ) : getByte (bs.map Cell.byte) i = bs.get? i := by
  rw [getByte, List.get?_map]
  cases bs.get? i <;> rfl

theorem take4_of_get (bs : List ℕ) (a b c d : ℕ) (h0 : bs.get? 0 = some a)
    (h1 : bs.get? 1 = some b) (h2 : bs.get? 2 = some c) (h3 : bs.get? 3 = some d) :
    bs.take 4 = [a, b, c, d] := by
  rcases bs with _ | ⟨x0, _ | ⟨x1, _ | ⟨x2, _ | ⟨x3, r⟩⟩⟩⟩ <;> simp_all

/-- Total decoded free bytes of an RLE run list: `8` bytes per bit of every
second run (the decoder starts in the Occupied state). -/
theorem rleFreeRanges_total :
    ∀ (runs : List ℕ) (bit : ℕ),
      intFreeTotal (rleFreeRanges bit 0 runs) = oddSum (natRuns runs) * 8 ∧
      intFreeTotal (rleFreeRanges bit 1 runs) = (sumAlt (natRuns runs)).1 * 8 := by
  intro runs
  induction runs with
  | nil =>
    intro bit
    simp [rleFreeRanges, intFreeTotal, natRuns, sumAlt, oddSum]
  | cons r rs ih =>
    intro bit
    constructor
    · rw [rleFreeRanges, if_neg (by omega)]
      rw [show (1 : ℕ) - 0 = 1 from rfl]
      rw [(ih (bit + r)).2, natRuns_cons']
      simp only [oddSum, sumAlt]
    · rw [rleFreeRanges, if_pos rfl]
      simp only [intFreeTotal, List.map_cons, List.sum_cons]
      rw [show (1 : ℕ) - 1 = 0 from rfl]
      have h := (ih (bit + r)).1
      rw [show (List.map (fun p => p.2 - p.1) (rleFreeRanges (bit + r) 0 rs)).sum
          = oddSum (natRuns rs) * 8 from h]
      rw [natRuns_cons']
      simp only [oddSum, sumAlt]
      push_cast
      ring

/-- C2: decoding an RLE block maintains a toggling state that starts at
Occupied and, for each Free run of length `r` beginning at bit `b`, emits
exactly the free byte range `[b*8, (b+r)*8)` — `readBitmapFreeList` agrees
with the reference recursion `rleFreeRanges` on every encoded run stream —
and decoding the run stream `[128, 256, 128]` yields exactly `[[1024, 3072]]`. -/
theorem claim_C2_rle_decode :
    (∀ (runs : List ℕ), (∀ r ∈ runs, r < 2 ^ 32) → ∀ (pre post : List Cell),
      readBitmapFreeList (pre ++ (runsBytes (natRuns runs)).map Cell.byte ++ post)
          pre.length (runsBytes (natRuns runs)).length
        = .ok (rleFreeRanges 0 0 runs, pre.length + (runsBytes (natRuns runs)).length)) ∧
    rleFreeRanges 0 0 [128, 256, 128] = [(1024, 3072)] := by
  constructor
  · intro runs h pre post
    exact readBitmapFreeList_spec runs h pre post
  · with_unfolding_all decide

theorem claim_C2_witness :
    readBitmapFreeList ((runsBytes (natRuns [128, 256, 128])).map Cell.byte) 0
        (runsBytes (natRuns [128, 256, 128])).length
      = .ok ([((1024 : ℤ), (3072 : ℤ))],
          0 + (runsBytes (natRuns [128, 256, 128])).length) := by
  have h := claim_C2_rle_decode.1 [128, 256, 128] (by decide) [] []
  rw [claim_C2_rle_decode.2] at h
  simpa using h

/-- C3 counterexample: at `n = 2 ^ 32` the varint round trip fails — the
`>>>= 7` step coerces the value to 32 bits, the emitted bytes are
`[0x80, 0x00]`, and decoding them returns `0`, not `2 ^ 32`. -/
theorem claim_C3_counterexample :
    encodeVarintToBytes (2 ^ 32 : ℤ) = [128, 0] ∧
    readVarint ((encodeVarintToBytes (2 ^ 32 : ℤ)).map Cell.byte) 0 = .ok (0, 2) ∧
    (0 : ℕ) ≠ 2 ^ 32 := by
  refine ⟨?_, ?_, by decide⟩
  · with_unfolding_all decide
  · with_unfolding_all decide

/-- C3 amended: the varint round trip holds for every `n < 2 ^ 32`, at any
stream position, and encoding `0` produces exactly the single byte `0x00`. -/
theorem claim_C3_varint (n : ℕ) (h : n < 2 ^ 32) (pre post : List Cell) :
    readVarint (pre ++ varintCells n ++ post) pre.length
      = .ok (n, pre.length + (varintCells n).length) ∧
    encodeVarintToBytes (0 : ℤ) = [0] := by
  refine ⟨readVarint_spec n h pre post, ?_⟩
  with_unfolding_all rfl

theorem claim_C3_witness :
    readVarint (([] : List Cell) ++ varintCells 300 ++ [])
        (List.length ([] : List Cell))
      = .ok (300, List.length ([] : List Cell) + (varintCells 300).length) ∧
    encodeVarintToBytes (0 : ℤ) = [0] :=
  claim_C3_varint 300 (by decide) [] []

/-- C4: a scalar occupancy `o ∈ [0,1)` with no positional representation
synthesizes exactly two runs — an Occupied run of `⌊(size+7)/8 · o⌋` bits and
a Free run of the remainder — while `o = 1` or an absent occupancy synthesizes
the single full-page Occupied run `⌈size/8⌉`; occupancy `1/2` on a 4096-byte
page gives exactly the runs `[256, 256]`. -/
theorem claim_C4_occupancy (size : ℕ) (o : ℚ) (h0 : 0 ≤ o) (h1 : o < 1) :
    getBitmapRLEBuffer size none none (some o)
      = runsBytes [⌊(((size + 7) / 8 : ℕ) : ℚ) * o⌋,
          (((size + 7) / 8 : ℕ) : ℤ) - ⌊(((size + 7) / 8 : ℕ) : ℚ) * o⌋] ∧
    getBitmapRLEBuffer size none none (some 1)
      = runsBytes [(((size + 7) / 8 : ℕ) : ℤ)] ∧
    getBitmapRLEBuffer size none none none
      = runsBytes [(((size + 7) / 8 : ℕ) : ℤ)] ∧
    getBitmapRLEBuffer 4096 none none (some (1 / 2))
      = runsBytes [(256 : ℤ), 256] := by
  refine ⟨?_, ?_, ?_, ?_⟩
  · rw [getBitmapRLEBuffer.eq_def]
    rw [if_neg (by simp [truthy])]
    dsimp only
    rw [if_pos ⟨h0, h1⟩]
    simp [runsBytes]
  · rw [getBitmapRLEBuffer.eq_def]
    rw [if_neg (by simp [truthy])]
    dsimp only
    rw [if_neg (by norm_num)]
    simp [runsBytes]
  · rw [getBitmapRLEBuffer.eq_def]
    rw [if_neg (by simp [truthy])]
    dsimp only
    simp [runsBytes]
  · with_unfolding_all decide

theorem claim_C4_witness :
    getBitmapRLEBuffer 4096 none none (some (1 / 2))
      = runsBytes [⌊(((4096 + 7) / 8 : ℕ) : ℚ) * (1 / 2)⌋,
          (((4096 + 7) / 8 : ℕ) : ℤ) - ⌊(((4096 + 7) / 8 : ℕ) : ℚ) * (1 / 2)⌋] :=
  (claim_C4_occupancy 4096 (1 / 2) (by norm_num) (by norm_num)).1

/-- C9: precedence of the occupancy representations — a truthy bitmap hex wins,
then a present freeList, then a scalar occupancy in `[0,1)`, and otherwise the
encoder emits a single full-page Occupied run. -/
theorem claim_C9_precedence :
    (∀ (size : ℕ) (fl : Option (List (ℤ × ℤ))) (bm : Option String) (occ : Option ℚ),
      truthy bm = true →
      getBitmapRLEBuffer size fl bm occ = hexToBytes (bm.getD "")) ∧
    (∀ (size : ℕ) (l : List (ℤ × ℤ)) (bm : Option String) (occ : Option ℚ),
      truthy bm = false →
      getBitmapRLEBuffer size (some l) bm occ = runsBytes (freeListRuns size l)) ∧
    (∀ (size : ℕ) (bm : Option String) (o : ℚ), truthy bm = false → 0 ≤ o → o < 1 →
      getBitmapRLEBuffer size none bm (some o)
        = encodeVarintToBytes ⌊(((size + 7) / 8 : ℕ) : ℚ) * o⌋ ++
          encodeVarintToBytes ((((size + 7) / 8 : ℕ) : ℤ) -
            ⌊(((size + 7) / 8 : ℕ) : ℚ) * o⌋)) ∧
    (∀ (size : ℕ) (bm : Option String), truthy bm = false →
      getBitmapRLEBuffer size none bm none
        = encodeVarintToBytes (((size + 7) / 8 : ℕ) : ℤ)) := by
  refine ⟨?_, ?_, ?_, ?_⟩
  · intro size fl bm occ hbm
    rw [getBitmapRLEBuffer.eq_def, if_pos hbm]
  · intro size l bm occ hbm
    rw [getBitmapRLEBuffer.eq_def, if_neg (by rw [hbm]; simp)]
  · intro size bm o hbm h0 h1
    rw [getBitmapRLEBuffer.eq_def, if_neg (by rw [hbm]; simp)]
    dsimp only
    rw [if_pos ⟨h0, h1⟩]
  · intro size bm hbm
    rw [getBitmapRLEBuffer.eq_def, if_neg (by rw [hbm]; simp)]

theorem claim_C9_witness :
    getBitmapRLEBuffer 16 (some [((0 : ℤ), (8 : ℤ))]) (some "ff") (some (1 / 2))
      = hexToBytes "ff" ∧
    getBitmapRLEBuffer 16 (some [((0 : ℤ), (8 : ℤ))]) none (some (1 / 2))
      = runsBytes (freeListRuns 16 [((0 : ℤ), (8 : ℤ))]) ∧
    getBitmapRLEBuffer 16 none none (some (1 / 2))
      = encodeVarintToBytes ⌊(((16 + 7) / 8 : ℕ) : ℚ) * (1 / 2)⌋ ++
        encodeVarintToBytes ((((16 + 7) / 8 : ℕ) : ℤ) - ⌊(((16 + 7) / 8 : ℕ) : ℚ) * (1 / 2)⌋) ∧
    getBitmapRLEBuffer 16 none none none = encodeVarintToBytes (((16 + 7) / 8 : ℕ) : ℤ) :=
  ⟨claim_C9_precedence.1 16 (some [((0 : ℤ), (8 : ℤ))]) (some "ff") (some (1 / 2)) (by decide),
   claim_C9_precedence.2.1 16 [((0 : ℤ), (8 : ℤ))] none (some (1 / 2)) (by decide),
   claim_C9_precedence.2.2.1 16 none (1 / 2) (by decide) (by norm_num) (by norm_num),
   claim_C9_precedence.2.2.2 16 none (by decide)⟩

/-- C5: a buffer shorter than 8 bytes fails decode with the length-check
error, and one of at least 8 bytes whose first four bytes are not `MEMD`
fails with the invalid-format error — `parseBinary` returns these error
values rather than crashing or producing partial data. -/
theorem claim_C5_header (g : ℕ → String) (bs : List ℕ) :
    (bs.length < 8 →
      parseBinary g (bs.map Cell.byte) = .error "File too small to be a valid MEMD file") ∧
    (8 ≤ bs.length → bs.take 4 ≠ [77, 69, 77, 68] →
      parseBinary g (bs.map Cell.byte) = .error "Invalid file format") := by
  constructor
  · intro h8
    rw [parseBinary, if_pos (by rw [byteSize_bytes]; omega)]
  · intro h8 hm
    rw [parseBinary, if_neg (by rw [byteSize_bytes]; omega)]
    simp only [getByte_bytes]
    split
    · rename_i h0 h1 h2 h3
      exact absurd (take4_of_get bs 77 69 77 68 h0 h1 h2 h3) hm
    · rfl

theorem claim_C5_witness :
    parseBinary (fun _ => "") ([1, 2, 3].map Cell.byte)
      = .error "File too small to be a valid MEMD file" ∧
    parseBinary (fun _ => "") ([0, 1, 2, 3, 4, 5, 6, 7].map Cell.byte)
      = .error "Invalid file format" :=
  ⟨(claim_C5_header (fun _ => "") [1, 2, 3]).1 (by decide),
   (claim_C5_header (fun _ => "") [0, 1, 2, 3, 4, 5, 6, 7]).2 (by decide) (by decide)⟩

set_option maxRecDepth 100000 in
/-- C6 counterexample: version 3 is not the version the format defines (2),
yet with the gzip flag clear the decoder accepts it — the header
`MEMD, version 3, flags 0` over an empty body decodes to `ok []` instead of
failing with the unsupported-version error. -/
theorem claim_C6_counterexample :
    parseBinary (fun _ => "") ([77, 69, 77, 68, 3, 0, 0, 0].map Cell.byte) = .ok ([]) ∧
    (3 : ℕ) ≠ 2 := by
  constructor
  · with_unfolding_all decide
  · decide

/-- C6 amended: after a valid `MEMD` magic the decoder fails with
`Unsupported version: v` exactly when the flags word is even (gzip bit clear)
and the version word is `0`; with even flags and any version `≥ 1` it instead
proceeds to the section loop on the remaining bytes. -/
theorem claim_C6_version (g : ℕ → String) (v0 v1 f0 f1 : ℕ) (rest : List ℕ) :
    ((f0 + 256 * f1) % 2 = 0 → v0 + 256 * v1 = 0 →
      parseBinary g (([77, 69, 77, 68, v0, v1, f0, f1] ++ rest).map Cell.byte)
        = .error ("Unsupported version: " ++ toString (v0 + 256 * v1))) ∧
    ((f0 + 256 * f1) % 2 = 0 → 1 ≤ v0 + 256 * v1 →
      parseBinary g (([77, 69, 77, 68, v0, v1, f0, f1] ++ rest).map Cell.byte)
        = parseSections g (rest.map Cell.byte) ((rest.map Cell.byte).length + 1) 0 0 [] []) := by
  have hshape : ([77, 69, 77, 68, v0, v1, f0, f1] ++ rest).map Cell.byte
      = Cell.byte 77 :: Cell.byte 69 :: Cell.byte 77 :: Cell.byte 68 :: Cell.byte v0 ::
        Cell.byte v1 :: Cell.byte f0 :: Cell.byte f1 :: rest.map Cell.byte := by
    simp
  constructor
  · intro hf hv
    rw [parseBinary, if_neg (by rw [byteSize_bytes]; simp)]
    rw [hshape]
    simp only [getByte, List.get?]
    rw [if_neg (by omega)]
  · intro hf hv
    rw [parseBinary, if_neg (by rw [byteSize_bytes]; simp)]
    rw [hshape]
    simp only [getByte, List.get?]
    rw [if_pos (Or.inr hv), if_neg (by omega)]
    simp only [List.drop]

theorem claim_C6_witness :
    parseBinary (fun _ => "") (([77, 69, 77, 68, 0, 0, 0, 0] ++ []).map Cell.byte)
      = .error ("Unsupported version: " ++ toString (0 + 256 * 0)) ∧
    parseBinary (fun _ => "") (([77, 69, 77, 68, 3, 0, 2, 0] ++ []).map Cell.byte)
      = parseSections (fun _ => "") (([] : List ℕ).map Cell.byte)
          ((([] : List ℕ).map Cell.byte).length + 1) 0 0 [] [] :=
  ⟨(claim_C6_version (fun _ => "") 0 0 0 0 []).1 (by decide) (by decide),
   (claim_C6_version (fun _ => "") 3 0 2 0 []).2 (by decide) (by decide)⟩

theorem lookup_after_getIndex (t : StringTable) (s : String) :
    (t.getIndex (some s)).2.strings.lookup s = some (t.getIndex (some s)).1 := by
  cases hl : t.strings.lookup s with
  | some i =>
    rw [getIndex_hit t s i hl]
    exact hl
  | none =>
    rw [getIndex_miss t s hl]
    dsimp only
    rw [lookup_append_none t.strings _ s hl]
    simp [List.lookup]

set_option maxRecDepth 100000 in
/-- C7: `getIndex` returns the existing index and leaves the table unchanged
for a string already in the table, otherwise appends it to the ordered list
and returns the new index; asking twice for the same string yields the same
index and table, and encoding two series sharing a name yields exactly one
string-table entry for it. -/
theorem claim_C7_dedup :
    (∀ (t : StringTable) (s : String) (i : ℕ), t.strings.lookup s = some i →
      t.getIndex (some s) = (i, t)) ∧
    (∀ (t : StringTable) (s : String), t.strings.lookup s = none →
      t.getIndex (some s)
        = (t.list.length, ⟨t.strings ++ [(s, t.list.length)], t.list ++ [s]⟩)) ∧
    (∀ (t : StringTable) (s : String),
      (t.getIndex (some s)).2.getIndex (some s)
        = ((t.getIndex (some s)).1, (t.getIndex (some s)).2)) ∧
    (encodeDataSection (fun _ => "") [c7SeriesA, c7SeriesB]).2.list.count "shared" = 1 := by
  refine ⟨getIndex_hit, getIndex_miss, ?_, ?_⟩
  · intro t s
    exact getIndex_hit _ s _ (lookup_after_getIndex t s)
  · with_unfolding_all decide

theorem claim_C7_witness :
    StringTable.getIndex ⟨[("x", 0)], ["x"]⟩ (some "x") = (0, ⟨[("x", 0)], ["x"]⟩) ∧
    StringTable.getIndex ⟨[("x", 0)], ["x"]⟩ (some "y")
      = ((["x"] : List String).length,
          ⟨[("x", 0)] ++ [("y", (["x"] : List String).length)], ["x"] ++ ["y"]⟩) ∧
    StringTable.getIndex (StringTable.getIndex ⟨[], []⟩ (some "z")).2 (some "z")
      = ((StringTable.getIndex ⟨[], []⟩ (some "z")).1,
          (StringTable.getIndex ⟨[], []⟩ (some "z")).2) :=
  ⟨claim_C7_dedup.1 ⟨[("x", 0)], ["x"]⟩ "x" 0 (by with_unfolding_all decide),
   claim_C7_dedup.2.1 ⟨[("x", 0)], ["x"]⟩ "y" (by with_unfolding_all decide),
   claim_C7_dedup.2.2.1 ⟨[], []⟩ "z"⟩

/-- C8 counterexample: a point whose name flag is set but whose varint index
is out of bounds of the string list decodes with `name` left absent (the
direct `strings[idx]` read yields `undefined`), not the empty string. -/
theorem claim_C8_counterexample :
    parsePoint [] (fun _ => "u") [Cell.f64 0, Cell.f64 0, Cell.byte 2, Cell.byte 0] 0 0
      = .ok ({ timestamp := 0, value := 0, pointId := some "u", name := none,
               meta := none }, 4, 1) ∧
    (none : Option String) ≠ some "" := by
  constructor
  · with_unfolding_all decide
  · decide

/-- C8 amended: the `getString`-mediated references (series name, series
color, page-type name) resolve to `strings[index]` in bounds and to `""` out
of bounds, while the point-name reference indexes the list directly and is
left absent (`none`) when out of bounds. -/
theorem claim_C8_refs :
    (∀ (L : List String) (i : ℕ), i < L.length → getString L i = (L.get? i).getD "") ∧
    (∀ (L : List String) (i : ℕ), L.length ≤ i → getString L i = "") ∧
    (∀ (L : List String) (idx : ℕ), idx < 2 ^ 32 → ∀ (pre post : List Cell),
      parseNmSeg L (pre ++ varintCells idx ++ post) pre.length True
        = .ok ((L.get? idx : Option String), pre.length + (varintCells idx).length)) ∧
    (∀ (L : List String) (idx : ℕ), L.length ≤ idx → (L.get? idx : Option String) = none) := by
  refine ⟨?_, ?_, ?_, ?_⟩
  · intro L i h
    rw [getString]
    cases hg : L.get? i <;> rfl
  · intro L i h
    rw [getString, List.get?_eq_none.mpr h]
  · intro L idx h pre post
    rw [parseNmSeg, if_pos trivial, readVarint_spec idx h pre post, except_bind_ok,
      except_pure_eq]
  · intro L idx h
    exact List.get?_eq_none.mpr h

theorem claim_C8_witness :
    getString ["a"] 0 = ((["a"] : List String).get? 0).getD "" ∧
    getString ["a"] 5 = "" ∧
    parseNmSeg ["a"] (([] : List Cell) ++ varintCells 7 ++ [])
        (List.length ([] : List Cell)) True
      = .ok (((["a"] : List String).get? 7 : Option String),
          List.length ([] : List Cell) + (varintCells 7).length) ∧
    ((["a"] : List String).get? 7 : Option String) = none :=
  ⟨claim_C8_refs.1 ["a"] 0 (by decide),
   claim_C8_refs.2.1 ["a"] 5 (by decide),
   claim_C8_refs.2.2.1 ["a"] 7 (by decide) [] [],
   claim_C8_refs.2.2.2 ["a"] 7 (by decide)⟩

set_option maxRecDepth 100000 in
/-- C10: a series with empty (or absent, which the embedding collapses to
empty) color is encoded as the string-table index of `"#000000"`, so the
decoded series carries color `"#000000"` rather than the original empty
value. -/
theorem claim_C10_color :
    (∀ (g : ℕ → String) (t : StringTable) (k : ℕ) (s : MemorySeries), s.color = "" →
      encodeSeriesCells g t k s = encodeSeriesCells g t k { s with color := "#000000" }) ∧
    (∀ (g : ℕ → String) (k : ℕ) (s : MemorySeries), s.color = "" →
      (decodedSeries g k s).1.color = "#000000") ∧
    (parseBinary (fun _ => "") (encodeBinary (fun _ => "") [c10Series])).map
        (fun l => l.map (fun s => s.color)) = .ok ["#000000"] := by
  refine ⟨?_, ?_, ?_⟩
  · intro g t k s h
    simp [encodeSeriesCells, h]
  · intro g k s h
    rw [decodedSeries]
    simp [h]
  · with_unfolding_all decide

theorem claim_C10_witness :
    encodeSeriesCells (fun _ => "") ⟨[], []⟩ 0 c10Series
      = encodeSeriesCells (fun _ => "") ⟨[], []⟩ 0 { c10Series with color := "#000000" } ∧
    (decodedSeries (fun _ => "") 0 c10Series).1.color = "#000000" :=
  ⟨claim_C10_color.1 (fun _ => "") ⟨[], []⟩ 0 c10Series rfl,
   claim_C10_color.2.1 (fun _ => "") 0 c10Series rfl⟩

set_option maxRecDepth 100000 in
/-- C1 counterexample: a page of size 32 with the unaligned free list
`[[0,4],[8,12],[16,20]]` (12 free bytes) round-trips to a page whose decoded
free list is empty of content — `Math.floor(bytes/8)` quantization drops each
sub-8-byte range — so the decoded used-byte total exceeds the original's
by 12, outside the claimed 8-byte tolerance. -/
theorem claim_C1_counterexample :
    (firstPage (parseBinary (fun _ => "") (encodeBinary (fun _ => "") [c1Series]))).map
        (fun p => pageUsedBytes p - pageUsedBytes c1Page) = some 12 ∧
    (8 : ℤ) < 12 := by
  constructor
  · with_unfolding_all decide
  · decide

/-- C1 amended: for every well-formed series list (canonical UUID ids,
in-range sizes and counts, sorted disjoint 8-byte-aligned free lists,
well-formed bitmap hex, string table below `2^32` entries), decoding the
encoding yields exactly `decodedSeriesList`: identical `id`, `name`,
`visible` (and `color` up to the `"#000000"` default), per-point identical
`timestamp`, `value`, `name`, and `pointId` (a fresh UUID from the supply
where absent); moreover every valid page carrying a free list decodes to a
page of identical size whose used-byte total is preserved exactly. -/
theorem claim_C1_roundtrip (g : ℕ → String) (l : List MemorySeries)
    (hv : validSeriesList l = true)
    (hlen : (encodeDataSection g l).2.list.length < 2 ^ 32) :
    parseBinary g (encodeBinary g l) = .ok (decodedSeriesList g 0 l).1 ∧
    (∀ (uniform : ℕ) (p : Page) (fl : List (ℤ × ℤ)), validPage uniform p = true →
      p.bitmap = none → p.freeList = some fl →
      (decodedPage uniform p).size = p.size ∧
      pageUsedBytes (decodedPage uniform p) = pageUsedBytes p) := by
  refine ⟨parseBinary_roundtrip g l hv hlen, ?_⟩
  intro uniform p fl hvp hbm hfl
  obtain ⟨hsize, huni, hrep⟩ := validPage_parts uniform p hvp
  have hsz : (decodedPage uniform p).size = p.size := by
    rw [decodedPage]
    dsimp only
    by_cases hu : uniform = 0
    · rw [if_pos hu]
    · rw [if_neg hu, huni hu]
  refine ⟨hsz, ?_⟩
  have hbt : truthy p.bitmap = false := by
    rw [hbm]
    rfl
  rw [hbt] at hrep
  simp only [Bool.false_eq_true, if_false, hfl, Bool.and_eq_true] at hrep
  have hruns := freeListRuns_spec p.size hsize fl hrep.1
  have hpr : pageRuns p.size p = (freeListRuns p.size fl).map Int.toNat := by
    rw [pageRuns, hbt]
    simp only [Bool.false_eq_true, if_false, hfl]
  rw [pageUsedBytes, pageUsedBytes, decodedPage]
  dsimp only
  rw [Option.getD_some, hpr]
  have htot : intFreeTotal (rleFreeRanges 0 0 ((freeListRuns p.size fl).map Int.toNat))
      = intFreeTotal fl := by
    rw [(rleFreeRanges_total ((freeListRuns p.size fl).map Int.toNat) 0).1,
      natRuns_toNat _ hruns.1, hruns.2.2]
  rw [htot, hfl]
  dsimp only [Option.getD_some]
  have : (if uniform = 0 then p.size else uniform) = p.size := by
    by_cases hu : uniform = 0
    · rw [if_pos hu]
    · rw [if_neg hu, huni hu]
  rw [this]

theorem claim_C1_witness :
    parseBinary (fun _ => "u") (encodeBinary (fun _ => "u") [c1WitnessSeries])
      = .ok (decodedSeriesList (fun _ => "u") 0 [c1WitnessSeries]).1 :=
  (claim_C1_roundtrip (fun _ => "u") [c1WitnessSeries] (by with_unfolding_all decide)
    (by with_unfolding_all decide)).1

end MemDump
